import Mathlib

/-!
# LibCppCmdLine: a shallow embedding of the parsing engine

The C++ classes of namespace `CmdLine` are embedded as Lean structures, their
member functions as pure functions that take the object (and the argument
queue) and return the updated object (and queue).

* `std::string` is `String`, handled through its list of characters; a C++
  `char` is a `Char` (the library is ASCII only), the short name `0` is
  `Char.ofNat 0`.
* `std::deque<std::string>` and `std::vector<std::string>` are `List String`.
* C++ exceptions, and the two ways in which the model can have no result
  (a read past the end of a deque, the fuel of a loop running out), are the
  constructors of `Error`; throwing code returns `Except Error _`.
* The class `Option` is called `CmdOption` here, because `Option` is the
  optional type of Lean.
* Pointers held by the Parser: the Parser state holds the registered objects
  themselves; an `ArgParam*` of `mArgParams` is an `ArgParamPtr`, the place of
  the object it points to.
-/

namespace CmdLine

/-! ## Constants.cpp -/

def minNameSize : Nat := 1
def maxNameSize : Nat := 20
def unixOptionShortPrefix : String := "-"
def unixOptionLongPrefix : String := "--"
def windowsOptionShortPrefix : String := "/"
def windowsOptionLongPrefix : String := "/"
def helpOptionShortName : Char := 'h'
def helpOptionLongName : String := "help"
def helpOptionDescription : String := "prints detailed help info"

/-- Exceptions of the library, and the outcomes without a result. -/
inductive Error where
  | InvalidDefinition
  | InvalidPair
  | NullParameter
  | EmptyArguments
  | DuplicateOption
  | DuplicatePosParam
  | NullOptionParam
  | DuplicateOptionParam
  /-- Undefined behaviour: an iterator is dereferenced at the end of a deque. -/
  | OutOfBounds
  /-- Only of the model: the fuel of the population loop ran out. -/
  | OutOfFuel
  deriving DecidableEq, Repr

deriving instance DecidableEq for Except

/-! ## Validation.cpp -/

/-- The test `s.rfind(p, 0) == 0` of the source: `s` starts with `p`. -/
def rfindAtZero (s p : String) : Bool :=
  p.data.isPrefixOf s.data

/-- The call `std::isalnum(c)` in the C locale. -/
def isalnum (c : Char) : Bool :=
  c.isAlphanum

/-- The call `s.substr(1)` for a string of length at least 1. -/
def substr1 (s : String) : String :=
  String.mk (s.data.drop 1)

/-- Validation.cpp, `IsValidNonOptionName`. -/
def IsValidNonOptionName (name : String) : Bool :=
  if name.length > maxNameSize || name.length < minNameSize then false
  else if name.data.any (fun c => !isalnum c && c != '-' && c != '_') then false
  else if rfindAtZero name unixOptionShortPrefix then false
  else if rfindAtZero name unixOptionLongPrefix then false
  else if rfindAtZero name windowsOptionShortPrefix then false
  else if rfindAtZero name windowsOptionLongPrefix then false
  else true

/-! ## Option.cpp -/

/-- Option.cpp, `StartsWithOptionPrefix`. -/
def StartsWithOptionPrefix (arg : String) : Bool :=
  let s := rfindAtZero arg unixOptionShortPrefix
  let s := s || rfindAtZero arg unixOptionLongPrefix
  let s := s || rfindAtZero arg windowsOptionShortPrefix
  s || rfindAtZero arg windowsOptionLongPrefix

/-- Option.cpp, `IsOption`: the token is option-shaped. -/
def IsOption (arg : String) : Bool :=
  if !StartsWithOptionPrefix arg then false
  else if arg.length ≤ 1 then false
  else
    let argWithoutPrefix := substr1 arg
    let argWithoutPrefix :=
      if StartsWithOptionPrefix argWithoutPrefix then substr1 argWithoutPrefix
      else argWithoutPrefix
    if !IsValidNonOptionName argWithoutPrefix then false else true

/-- Option.h, `Option::Style`. -/
inductive Style where
  | Unix
  | Windows
  deriving DecidableEq, Repr

/-- Option.h, `Option::Definition` (also `ValueOption::Definition`). -/
structure OptionDefinition where
  shortName : Char := Char.ofNat 0
  longName : String := ""
  description : String := ""
  isMandatory : Bool := false
  style : Style := Style.Unix
  deriving DecidableEq, Repr

/-- Option.h, class `Option`. -/
structure CmdOption where
  mDefinition : OptionDefinition
  mIsSpecified : Bool := false
  deriving DecidableEq, Repr

namespace CmdOption

/-- Option.cpp, the constructor `Option::Option`. -/
def new (d : OptionDefinition) : Except Error CmdOption :=
  if d.shortName = Char.ofNat 0 ∧ d.longName = "" then Except.error Error.InvalidDefinition
  else if d.shortName ≠ Char.ofNat 0 ∧ (!isalnum d.shortName && d.shortName != '?') then
    Except.error Error.InvalidDefinition
  else if d.longName ≠ "" ∧ !IsValidNonOptionName d.longName then
    Except.error Error.InvalidDefinition
  else Except.ok { mDefinition := d, mIsSpecified := false }

/-- Option.cpp, `Option::PrependPrefix`. -/
def PrependPrefix (pre name : String) : String :=
  pre ++ name

/-- Option.cpp, `Option::PrefixShortName`. -/
def PrefixShortName (o : CmdOption) : String :=
  let shortName := String.mk [o.mDefinition.shortName]
  if o.mDefinition.style = Style.Windows then PrependPrefix windowsOptionShortPrefix shortName
  else PrependPrefix unixOptionShortPrefix shortName

/-- Option.cpp, `Option::PrefixLongName`. -/
def PrefixLongName (o : CmdOption) : String :=
  if o.mDefinition.longName = "" then ""
  else
    let pre := if o.mDefinition.style = Style.Windows then windowsOptionLongPrefix
      else unixOptionLongPrefix
    PrependPrefix pre o.mDefinition.longName

/-- Option.cpp, `Option::Name`. -/
def Name (o : CmdOption) : String :=
  if o.mDefinition.shortName ≠ Char.ofNat 0 ∧ o.mDefinition.longName ≠ "" then o.PrefixShortName
  else if o.mDefinition.longName = "" then o.PrefixShortName
  else o.PrefixLongName

/-- Option.h, `Option::LongName`. -/
def LongName (o : CmdOption) : String :=
  o.PrefixLongName

/-- Option.h, `Option::Set(Style)`. -/
def Set (o : CmdOption) (s : Style) : CmdOption :=
  { o with mDefinition := { o.mDefinition with style := s } }

/-- Option.cpp, `Option::CanPopulate`. -/
def CanPopulate (o : CmdOption) (args : List String) : Bool :=
  match args with
  | [] => false
  | a :: _ => if a = o.PrefixShortName ∨ a = o.PrefixLongName then true else false

/-- Option.h, `Option::Consumes`. -/
def Consumes (_o : CmdOption) (_args : List String) : Nat :=
  1

/-- Option.cpp, `Option::Populate`: the result, the option and the queue afterwards. -/
def Populate (o : CmdOption) (args : List String) : Bool × CmdOption × List String :=
  if o.CanPopulate args then (true, { o with mIsSpecified := true }, args.drop 1)
  else (false, o, args)

end CmdOption

/-! ## NameValuePair.cpp -/

/-- The call `std::getline(s, out, delim)`: the characters up to the first
`delim`, and what is left in the stream after that `delim`. -/
def getline : List Char → Char → List Char × List Char
  | [], _ => ([], [])
  | c :: cs, delim =>
    if c = delim then ([], cs) else ((c :: (getline cs delim).1), (getline cs delim).2)

/-- NameValuePair.h, class `NameValuePair`. -/
structure NameValuePair where
  mName : String
  mValue : String
  deriving DecidableEq, Repr

/-- NameValuePair.cpp, `IsNameValuePair`. -/
def IsNameValuePair (pair : String) : Bool :=
  if pair.length = 0 then false
  else if pair.data.contains '=' then
    let name := String.mk (getline pair.data '=').1
    if !IsValidNonOptionName name then false else true
  else
    if !IsValidNonOptionName pair then false else true

/-- NameValuePair.cpp, the constructor `NameValuePair::NameValuePair`. -/
def NameValuePair.new (pair : String) : Except Error NameValuePair :=
  if !IsNameValuePair pair then Except.error Error.InvalidPair
  else if pair.data.contains '=' then
    let first := getline pair.data '='
    let second := getline first.2 '='
    Except.ok { mName := String.mk first.1, mValue := String.mk second.1 }
  else Except.ok { mName := pair, mValue := "" }

/-- Param.h, `Param::Definition` (also the `Definition` of ProgParam, PosParam
and OptionParam). -/
structure ParamDefinition where
  name : String
  description : String := ""
  isMandatory : Bool := false
  deriving DecidableEq, Repr

/-- OptionParam.h, class `OptionParam`. -/
structure OptionParam where
  mDefinition : ParamDefinition
  mValue : String := ""
  mIsSpecified : Bool := false
  deriving DecidableEq, Repr

/-- Modelled from the spec: `OptionParam::CanPopulate` (OptionParam.cpp is not
among the sources). The spec: it matches only if the name of the pair equals
its own name. -/
def OptionParam.CanPopulate (p : OptionParam) (pair : NameValuePair) : Bool :=
  if pair.mName = p.mDefinition.name then true else false

/-- Modelled from the spec: `OptionParam::Populate` (OptionParam.cpp is not
among the sources). The spec: on match, stores the value of the pair (possibly
empty) and flips specified. -/
def OptionParam.Populate (p : OptionParam) (pair : NameValuePair) : Bool × OptionParam :=
  if p.CanPopulate pair then (true, { p with mValue := pair.mValue, mIsSpecified := true })
  else (false, p)

/-! ## ValueOption.cpp -/

/-- ValueOption.h, class `ValueOption`, derived from `Option`. -/
structure ValueOption extends CmdOption where
  mValues : List String := []
  mParams : List OptionParam := []
  deriving DecidableEq, Repr

namespace ValueOption

/-- ValueOption.cpp, the constructor `ValueOption::ValueOption`. -/
def new (d : OptionDefinition) : Except Error ValueOption :=
  match CmdOption.new d with
  | Except.ok o => Except.ok { toCmdOption := o, mValues := [], mParams := [] }
  | Except.error e => Except.error e

/-- ValueOption.cpp, `ValueOption::CanPopulate`. -/
def CanPopulate (v : ValueOption) (args : List String) : Bool :=
  if v.toCmdOption.CanPopulate args then
    if args.length ≥ 2 then true else false
  else false

/-- ValueOption.h, `ValueOption::Consumes`. -/
def Consumes (_v : ValueOption) (_args : List String) : Nat :=
  2

/-- The loop over `mParams` in `ValueOption::Populate`: the first child that
can be populated by the pair is populated, the others are left alone. -/
def populateFirstParam (pair : NameValuePair) : List OptionParam → List OptionParam
  | [] => []
  | p :: ps =>
    if p.CanPopulate pair then (p.Populate pair).2 :: ps
    else p :: populateFirstParam pair ps

/-- ValueOption.cpp, `ValueOption::Populate`. Every path below the test of
`CanPopulate` returns true. -/
def Populate (v : ValueOption) (args : List String) : Bool × ValueOption × List String :=
  if v.CanPopulate args then
    match args with
    | _ :: value :: rest =>
      let v1 : ValueOption := { v with mIsSpecified := true, mValues := v.mValues ++ [value] }
      match NameValuePair.new value with
      | Except.ok pair => (true, { v1 with mParams := populateFirstParam pair v1.mParams }, rest)
      | Except.error _ => (true, v1, rest)
    | _ => (false, v, args)
  else (false, v, args)

/-- ValueOption.cpp, `ValueOption::Add`. -/
def Add (v : ValueOption) (p : Option OptionParam) : Except Error ValueOption :=
  match p with
  | none => Except.error Error.NullOptionParam
  | some p =>
    if v.mParams.any (fun param => param.mDefinition.name = p.mDefinition.name) then
      Except.error Error.DuplicateOptionParam
    else Except.ok { v with mParams := v.mParams ++ [p] }

end ValueOption

/-- What an `Option*` held by the Parser points to: an `Option` or the derived
`ValueOption`; the functions below are the virtual calls through it. -/
inductive OptionPtr where
  | option (o : CmdOption)
  | valueOption (v : ValueOption)
  deriving DecidableEq, Repr

namespace OptionPtr

/-- The `Option` base of the object. -/
def base : OptionPtr → CmdOption
  | option o => o
  | valueOption v => v.toCmdOption

def Name (p : OptionPtr) : String := p.base.Name
def LongName (p : OptionPtr) : String := p.base.LongName
def IsSpecified (p : OptionPtr) : Bool := p.base.mIsSpecified
def IsMandatory (p : OptionPtr) : Bool := p.base.mDefinition.isMandatory

def Set : OptionPtr → Style → OptionPtr
  | option o, s => option (o.Set s)
  | valueOption v, s => valueOption { v with toCmdOption := v.toCmdOption.Set s }

def CanPopulate : OptionPtr → List String → Bool
  | option o, args => o.CanPopulate args
  | valueOption v, args => v.CanPopulate args

def Consumes : OptionPtr → List String → Nat
  | option o, args => o.Consumes args
  | valueOption v, args => v.Consumes args

def Populate : OptionPtr → List String → Bool × OptionPtr × List String
  | option o, args => ((o.Populate args).1, option (o.Populate args).2.1, (o.Populate args).2.2)
  | valueOption v, args =>
    ((v.Populate args).1, valueOption (v.Populate args).2.1, (v.Populate args).2.2)

end OptionPtr

/-! ## ProgParam -/

/-- ProgParam.h, class `ProgParam`. -/
structure ProgParam where
  mDefinition : ParamDefinition
  mIsSpecified : Bool := false
  mValue : String := ""
  deriving DecidableEq, Repr

namespace ProgParam

/-- Modelled from the spec: `ProgParam::CanPopulate` (ProgParam.cpp is not
among the sources). The spec: the ProgramParam consumes exactly 1 token, the
first argument, and isSpecified goes from false to true exactly once; the test
ProgParamTests.DoesNotPopulateWithMultipleArgs expects false once specified,
ChecksCanPopulateProperly expects false on the empty queue. -/
def CanPopulate (p : ProgParam) (args : List String) : Bool :=
  if p.mIsSpecified then false
  else if args.length > 0 then true
  else false

/-- Modelled from the spec: `ProgParam::Populate` (ProgParam.cpp is not among
the sources). The spec: value = the first token; the header: the ProgParam is
marked specified, the next argument is removed and populates the value. -/
def Populate (p : ProgParam) (args : List String) : Bool × ProgParam × List String :=
  if p.CanPopulate args then
    match args with
    | a :: rest => (true, { p with mValue := a, mIsSpecified := true }, rest)
    | [] => (false, p, args)
  else (false, p, args)

/-- ProgParam.h, `ProgParam::Consumes`. -/
def Consumes (_p : ProgParam) (_args : List String) : Nat :=
  1

end ProgParam

/-! ## PosParam.cpp -/

/-- PosParam.h, class `PosParam`. -/
structure PosParam where
  mDefinition : ParamDefinition
  mValue : String := ""
  mIsSpecified : Bool := false
  deriving DecidableEq, Repr

namespace PosParam

/-- PosParam.cpp, the constructor `PosParam::PosParam`. -/
def new (d : ParamDefinition) : Except Error PosParam :=
  if !IsValidNonOptionName d.name then Except.error Error.InvalidDefinition
  else Except.ok { mDefinition := d, mValue := "", mIsSpecified := false }

/-- PosParam.cpp, `PosParam::CanPopulate`. -/
def CanPopulate (p : PosParam) (args : List String) : Bool :=
  if p.mIsSpecified then false
  else
    match args with
    | a :: _ => if !IsOption a then true else false
    | [] => false

/-- PosParam.cpp, `PosParam::Populate`. -/
def Populate (p : PosParam) (args : List String) : Bool × PosParam × List String :=
  if p.CanPopulate args then
    match args with
    | a :: rest => (true, { p with mValue := a, mIsSpecified := true }, rest)
    | [] => (false, p, args)
  else (false, p, args)

/-- PosParam.h, `PosParam::Consumes`. -/
def Consumes (_p : PosParam) (_args : List String) : Nat :=
  1

end PosParam

/-! ## MultiPosParam.cpp -/

/-- MultiPosParam.h, `MultiPosParam::ParsingOrder`. -/
inductive ParsingOrder where
  | End
  | AfterOptions
  deriving DecidableEq, Repr

/-- MultiPosParam.h, `MultiPosParam::Definition`. -/
structure MultiPosParamDefinition where
  name : String
  description : String := ""
  isMandatory : Bool := false
  order : ParsingOrder := ParsingOrder.End
  deriving DecidableEq, Repr

/-- MultiPosParam.h, class `MultiPosParam`. The member `mOrder` is set to End
by the constructor and never read; `Order()` reads the definition. -/
structure MultiPosParam where
  mDefinition : MultiPosParamDefinition
  mIsSpecified : Bool := false
  mValues : List String := []
  mOrder : ParsingOrder := ParsingOrder.End
  deriving DecidableEq, Repr

namespace MultiPosParam

/-- MultiPosParam.cpp, the constructor `MultiPosParam::MultiPosParam`. -/
def new (d : MultiPosParamDefinition) : Except Error MultiPosParam :=
  if !IsValidNonOptionName d.name then Except.error Error.InvalidDefinition
  else Except.ok { mDefinition := d, mIsSpecified := false, mValues := [],
                   mOrder := ParsingOrder.End }

/-- MultiPosParam.h, `MultiPosParam::Order`. -/
def Order (m : MultiPosParam) : ParsingOrder :=
  m.mDefinition.order

/-- MultiPosParam.cpp, `MultiPosParam::CanPopulate`. -/
def CanPopulate (_m : MultiPosParam) (args : List String) : Bool :=
  if args.length = 0 then false
  else if args.any IsOption then false
  else true

/-- MultiPosParam.cpp, `MultiPosParam::Populate`: the loop moves every token
of the queue, front first, to the back of `mValues`. -/
def Populate (m : MultiPosParam) (args : List String) : Bool × MultiPosParam × List String :=
  if m.CanPopulate args then
    (true, { m with mIsSpecified := true, mValues := m.mValues ++ args }, [])
  else (false, m, args)

/-- MultiPosParam.cpp, `MultiPosParam::Consumes`. -/
def Consumes (_m : MultiPosParam) (args : List String) : Nat :=
  args.length - args.countP IsOption

end MultiPosParam

/-! ## Parser.cpp -/

/-- Parser.h, `Parser::Status`. -/
inductive Status where
  | Success
  | Failure
  deriving DecidableEq, Repr

/-- An `ArgParam*` of the vector `mArgParams`: the registered object that the
pointer points to (the ProgParam, the i-th Option, the i-th PosParam or the
MultiPosParam). -/
inductive ArgParamPtr where
  | progParam
  | option (i : Nat)
  | posParam (i : Nat)
  | multiPosParam
  deriving DecidableEq, Repr

/-- Parser.h, class `Parser`. The built-in help option `mBuiltInHelpOption` is
the first element of `mOptions`; a null `mMultiPosParam` is `none`. -/
structure Parser where
  mArgs : List String
  mArgParams : List ArgParamPtr := []
  mOptions : List OptionPtr := []
  mPosParams : List PosParam := []
  mArgQueue : List String := []
  mMultiPosParam : Option MultiPosParam := none
  mProgParam : ProgParam
  deriving DecidableEq, Repr

namespace Parser

/-- Parser.cpp, `Parser::Add(Option*)`; a null pointer is `none`. -/
def Add (P : Parser) (o : Option OptionPtr) : Except Error Parser :=
  match o with
  | none => Except.error Error.NullParameter
  | some o =>
    if P.mOptions.any (fun option =>
        let shortNamesMatch : Bool := option.Name = o.Name
        let longNamesMatch : Bool := option.LongName = o.LongName
        shortNamesMatch || longNamesMatch) then
      Except.error Error.DuplicateOption
    else Except.ok { P with mOptions := P.mOptions ++ [o] }

/-- Parser.cpp, `Parser::Add(PosParam*)`; a null pointer is `none`. -/
def AddPosParam (P : Parser) (p : Option PosParam) : Except Error Parser :=
  match p with
  | none => Except.error Error.NullParameter
  | some p =>
    if P.mPosParams.any (fun positional => positional.mDefinition.name = p.mDefinition.name) then
      Except.error Error.DuplicatePosParam
    else Except.ok { P with mPosParams := P.mPosParams ++ [p] }

/-- Parser.h, `Parser::Set(MultiPosParam*)`. -/
def SetMultiPosParam (P : Parser) (p : Option MultiPosParam) : Parser :=
  { P with mMultiPosParam := p }

/-- Parser.cpp, `Parser::Set(Option::Style)`. -/
def Set (P : Parser) (s : Style) : Parser :=
  { P with mOptions := P.mOptions.map (fun option => option.Set s) }

/-- Parser.cpp, the constructor `Parser::Parser`; a null ProgParam is `none`. -/
def new (p : Option ProgParam) (args : List String) : Except Error Parser :=
  match p with
  | none => Except.error Error.NullParameter
  | some prog =>
    if args.length < 1 then Except.error Error.EmptyArguments
    else
      match CmdOption.new { shortName := helpOptionShortName, longName := helpOptionLongName,
                            description := helpOptionDescription } with
      | Except.error e => Except.error e
      | Except.ok builtInHelpOption =>
        Add { mArgs := args, mArgParams := [], mOptions := [], mPosParams := [], mArgQueue := [],
              mMultiPosParam := none, mProgParam := prog }
          (some (OptionPtr.option builtInHelpOption))

/-- Parser.h, `Parser::BuiltInHelpOptionIsSpecified`. -/
def BuiltInHelpOptionIsSpecified (P : Parser) : Bool :=
  match P.mOptions with
  | o :: _ => o.IsSpecified
  | [] => false

/-- The loop over `mOptions` in `MoveOptionsToArgQueue`: the consume count of
the first option whose `CanPopulate(source)` holds, 0 when there is none. -/
def argsToConsume (opts : List OptionPtr) (source : List String) : Nat :=
  match opts.find? (fun o => o.CanPopulate source) with
  | some o => o.Consumes source
  | none => 0

/-- The loop of Parser.cpp, `Parser::MoveOptionsToArgQueue`. The deque `source`
is `skipped ++ rest`, the iterator `i` stands at the first token of `rest`;
`queue` is `mArgQueue`. The result is the status, `source` and `mArgQueue`.
Reading `*(i + 1)` when `i` is the last position has no result. -/
def MoveOptionsLoop (opts : List OptionPtr) :
    List String → List String → List String → Except Error (Status × List String × List String)
  | skipped, [], queue => Except.ok (Status.Success, skipped, queue)
  | skipped, argument :: rest, queue =>
    if !IsOption argument then MoveOptionsLoop opts (skipped ++ [argument]) rest queue
    else
      let source := skipped ++ argument :: rest
      if argsToConsume opts source = 0 ∨ argsToConsume opts source > source.length then
        Except.ok (Status.Failure, source, queue)
      else if argsToConsume opts source = 2 then
        match rest with
        | [] => Except.error Error.OutOfBounds
        | argument2 :: rest2 => MoveOptionsLoop opts skipped rest2 (queue ++ [argument, argument2])
      else MoveOptionsLoop opts skipped rest (queue ++ [argument])

/-- Parser.cpp, `Parser::MoveOptionsToArgQueue`. -/
def MoveOptionsToArgQueue (P : Parser) (source : List String) :
    Except Error (Status × List String × Parser) :=
  match MoveOptionsLoop P.mOptions [] source P.mArgQueue with
  | Except.error e => Except.error e
  | Except.ok r => Except.ok (r.1, r.2.1, { P with mArgQueue := r.2.2 })

/-- Parser.cpp, `Parser::MovePosArgsToArgQueue`: every token of `source` goes,
in order, to the back of `mArgQueue`. -/
def MovePosArgsToArgQueue (P : Parser) (source : List String) : Parser :=
  { P with mArgQueue := P.mArgQueue ++ source }

/-- The loop of `ReverseMovePosArgsToArgQueue`: the pair `(mulPosArgs, posArgs)`.
The counter `mulPosEncountered` is an `int` compared with the `size_t`
`numMulPos` as an unsigned number; it stays below 2^31 for an argument vector
that an `int argc` can count. -/
def splitPosArgs (numMulPos : Nat) : List String → Nat → List String × List String
  | [], _ => ([], [])
  | argument :: rest, mulPosEncountered =>
    if mulPosEncountered < numMulPos then
      (argument :: (splitPosArgs numMulPos rest (mulPosEncountered + 1)).1,
        (splitPosArgs numMulPos rest (mulPosEncountered + 1)).2)
    else
      ((splitPosArgs numMulPos rest mulPosEncountered).1,
        argument :: (splitPosArgs numMulPos rest mulPosEncountered).2)

/-- Parser.cpp, `Parser::ReverseMovePosArgsToArgQueue`; `numMulPos` is the
difference of two `size_t`, taken modulo 2^64. -/
def ReverseMovePosArgsToArgQueue (P : Parser) (source : List String) : Parser :=
  let numMulPos := (source.length + 2 ^ 64 - P.mPosParams.length) % 2 ^ 64
  let split := splitPosArgs numMulPos source 0
  { P with mArgQueue := P.mArgQueue ++ split.2 ++ split.1 }

/-- Parser.cpp, `Parser::FillArgQueue`. Taking `front()` of an empty working
queue has no result (the constructor excludes empty arguments). -/
def FillArgQueue (P : Parser) : Except Error (Status × Parser) :=
  match P.mArgs with
  | [] => Except.error Error.OutOfBounds
  | programArg :: workingArgQueue =>
    match MoveOptionsToArgQueue { P with mArgQueue := [programArg] } workingArgQueue with
    | Except.error e => Except.error e
    | Except.ok (Status.Failure, _, P1) => Except.ok (Status.Failure, P1)
    | Except.ok (Status.Success, source, P1) =>
      match P1.mMultiPosParam with
      | some m =>
        if m.Order = ParsingOrder.AfterOptions then
          Except.ok (Status.Success, P1.ReverseMovePosArgsToArgQueue source)
        else Except.ok (Status.Success, P1.MovePosArgsToArgQueue source)
      | none => Except.ok (Status.Success, P1.MovePosArgsToArgQueue source)

/-- Parser.cpp, `Parser::FillArgParamVector`. -/
def FillArgParamVector (P : Parser) : Parser :=
  { P with mArgParams :=
      [ArgParamPtr.progParam]
      ++ (List.range P.mOptions.length).map ArgParamPtr.option
      ++ (List.range P.mPosParams.length).map ArgParamPtr.posParam
      ++ (match P.mMultiPosParam with
          | some _ => [ArgParamPtr.multiPosParam]
          | none => []) }

/-- The virtual call `p->CanPopulate(mArgQueue)` through a pointer of `mArgParams`. -/
def CanPopulate (P : Parser) : ArgParamPtr → Bool
  | ArgParamPtr.progParam => P.mProgParam.CanPopulate P.mArgQueue
  | ArgParamPtr.option i =>
    match P.mOptions[i]? with
    | some o => o.CanPopulate P.mArgQueue
    | none => false
  | ArgParamPtr.posParam i =>
    match P.mPosParams[i]? with
    | some p => p.CanPopulate P.mArgQueue
    | none => false
  | ArgParamPtr.multiPosParam =>
    match P.mMultiPosParam with
    | some m => m.CanPopulate P.mArgQueue
    | none => false

/-- The virtual call `p->Populate(mArgQueue)` through a pointer of `mArgParams`:
the result and the Parser with the object and `mArgQueue` updated. -/
def Populate (P : Parser) : ArgParamPtr → Bool × Parser
  | ArgParamPtr.progParam =>
    let r := P.mProgParam.Populate P.mArgQueue
    (r.1, { P with mProgParam := r.2.1, mArgQueue := r.2.2 })
  | ArgParamPtr.option i =>
    match P.mOptions[i]? with
    | some o =>
      let r := o.Populate P.mArgQueue
      (r.1, { P with mOptions := P.mOptions.set i r.2.1, mArgQueue := r.2.2 })
    | none => (false, P)
  | ArgParamPtr.posParam i =>
    match P.mPosParams[i]? with
    | some p =>
      let r := p.Populate P.mArgQueue
      (r.1, { P with mPosParams := P.mPosParams.set i r.2.1, mArgQueue := r.2.2 })
    | none => (false, P)
  | ArgParamPtr.multiPosParam =>
    match P.mMultiPosParam with
    | some m =>
      let r := m.Populate P.mArgQueue
      (r.1, { P with mMultiPosParam := some r.2.1, mArgQueue := r.2.2 })
    | none => (false, P)

/-- The virtual call `p->IsMandatory()` through a pointer of `mArgParams`. -/
def IsMandatory (P : Parser) : ArgParamPtr → Bool
  | ArgParamPtr.progParam => P.mProgParam.mDefinition.isMandatory
  | ArgParamPtr.option i =>
    match P.mOptions[i]? with
    | some o => o.IsMandatory
    | none => false
  | ArgParamPtr.posParam i =>
    match P.mPosParams[i]? with
    | some p => p.mDefinition.isMandatory
    | none => false
  | ArgParamPtr.multiPosParam =>
    match P.mMultiPosParam with
    | some m => m.mDefinition.isMandatory
    | none => false

/-- The virtual call `p->IsSpecified()` through a pointer of `mArgParams`. -/
def IsSpecified (P : Parser) : ArgParamPtr → Bool
  | ArgParamPtr.progParam => P.mProgParam.mIsSpecified
  | ArgParamPtr.option i =>
    match P.mOptions[i]? with
    | some o => o.IsSpecified
    | none => false
  | ArgParamPtr.posParam i =>
    match P.mPosParams[i]? with
    | some p => p.mIsSpecified
    | none => false
  | ArgParamPtr.multiPosParam =>
    match P.mMultiPosParam with
    | some m => m.mIsSpecified
    | none => false

/-- The inner loop of `PopulateArgParams`: the first parameter that can be
populated from `mArgQueue` is populated; `argumentPopulated` and the Parser. -/
def PopulateFirst (P : Parser) : List ArgParamPtr → Bool × Parser
  | [] => (false, P)
  | p :: ps => if P.CanPopulate p then P.Populate p else PopulateFirst P ps

/-- The outer loop of `PopulateArgParams`, with fuel for the iterations. -/
def PopulateArgParamsLoop : Nat → Parser → Except Error (Status × Parser)
  | 0, P =>
    match P.mArgQueue with
    | [] => Except.ok (Status.Success, P)
    | _ :: _ => Except.error Error.OutOfFuel
  | fuel + 1, P =>
    match P.mArgQueue with
    | [] => Except.ok (Status.Success, P)
    | _ :: _ =>
      let previousQueueSize := P.mArgQueue.length
      let r := P.PopulateFirst P.mArgParams
      let endlessLoop : Bool := r.2.mArgQueue.length = previousQueueSize
      if !r.1 || endlessLoop then Except.ok (Status.Failure, r.2)
      else PopulateArgParamsLoop fuel r.2

/-- Parser.cpp, `Parser::PopulateArgParams`. Every iteration that goes on
shortens the queue, so its length is fuel enough. -/
def PopulateArgParams (P : Parser) : Except Error (Status × Parser) :=
  PopulateArgParamsLoop P.mArgQueue.length P

/-- Parser.cpp, `Parser::Parse`. -/
def Parse (P : Parser) : Except Error (Status × Parser) :=
  match P.FillArgQueue with
  | Except.error e => Except.error e
  | Except.ok (Status.Failure, P1) => Except.ok (Status.Failure, P1)
  | Except.ok (Status.Success, P1) => P1.FillArgParamVector.PopulateArgParams

/-- Parser.cpp, `Parser::AllMandatoryParamsSpecified`. -/
def AllMandatoryParamsSpecified (P : Parser) : Bool :=
  P.mArgParams.all (fun p => !(P.IsMandatory p && !P.IsSpecified p))

end Parser

/-! ## Observations on a Parser and the example programs of ParserTests.cpp -/

namespace Parser

/-- The specified flags of the registered options, the built-in help option first. -/
def optionsSpecified (P : Parser) : List Bool :=
  P.mOptions.map OptionPtr.IsSpecified

/-- The values `Values()` of the registered options (none for a plain Option). -/
def optionValues (P : Parser) : List (List String) :=
  P.mOptions.map (fun o =>
    match o with
    | OptionPtr.option _ => []
    | OptionPtr.valueOption v => v.mValues)

/-- The values `Value()` of the registered PosParams, in registration order. -/
def posValues (P : Parser) : List String :=
  P.mPosParams.map (fun p => p.mValue)

/-- The specified flags of the registered PosParams, in registration order. -/
def posSpecified (P : Parser) : List Bool :=
  P.mPosParams.map (fun p => p.mIsSpecified)

/-- The values `Values()` of the MultiPosParam (empty when there is none). -/
def multiValues (P : Parser) : List String :=
  match P.mMultiPosParam with
  | some m => m.mValues
  | none => []

/-- The specified flag of the MultiPosParam (false when there is none). -/
def multiSpecified (P : Parser) : Bool :=
  match P.mMultiPosParam with
  | some m => m.mIsSpecified
  | none => false

end Parser

/-- ParserTests.cpp, `verboseDef`: the Option -v, --verbose. -/
def verboseDef : OptionDefinition :=
  { shortName := 'v', longName := "verbose", description := "prints verbose info" }

/-- ParserTests.cpp, the namelookup Parser: Option -v and the mandatory
PosParam hostname. -/
def nameLookupParser (args : List String) : Except Error Parser := do
  let verbose ← CmdOption.new verboseDef
  let hostname ← PosParam.new { name := "hostname", isMandatory := true }
  let P ← Parser.new (some { mDefinition := { name := "namelookup" } }) args
  let P ← P.Add (some (OptionPtr.option verbose))
  P.AddPosParam (some hostname)

/-- ParserTests.cpp, the copy Parser: Option -v, the mandatory PosParam
destination and the mandatory MultiPosParam source with order AfterOptions. -/
def copyParser (args : List String) : Except Error Parser := do
  let verbose ← CmdOption.new verboseDef
  let destination ← PosParam.new { name := "destination", isMandatory := true }
  let source ← MultiPosParam.new
    { name := "source", isMandatory := true, order := ParsingOrder.AfterOptions }
  let P ← Parser.new (some { mDefinition := { name := "copy" } }) args
  let P ← P.Add (some (OptionPtr.option verbose))
  let P ← P.AddPosParam (some destination)
  pure (P.SetMultiPosParam (some source))

/-- A Parser with the Option -? (short name only) and the ValueOption -p, --print. -/
def questionParser (args : List String) : Except Error Parser := do
  let question ← CmdOption.new { shortName := '?' }
  let print ← ValueOption.new { shortName := 'p', longName := "print" }
  let P ← Parser.new (some { mDefinition := { name := "prog" } }) args
  let P ← P.Add (some (OptionPtr.option question))
  P.Add (some (OptionPtr.valueOption print))

/-- A Parser with the Option -v only. -/
def flagParser (args : List String) : Except Error Parser := do
  let verbose ← CmdOption.new verboseDef
  let P ← Parser.new (some { mDefinition := { name := "prog" } }) args
  P.Add (some (OptionPtr.option verbose))

/-! ## The mandatory flags -/

/-- The Option with its mandatory flag cleared. -/
def CmdOption.clearMandatory (o : CmdOption) : CmdOption :=
  { o with mDefinition := { o.mDefinition with isMandatory := false } }

/-- The OptionParam with its mandatory flag cleared. -/
def OptionParam.clearMandatory (p : OptionParam) : OptionParam :=
  { p with mDefinition := { p.mDefinition with isMandatory := false } }

/-- The ValueOption with its mandatory flag and those of its children cleared. -/
def ValueOption.clearMandatory (v : ValueOption) : ValueOption :=
  { v with toCmdOption := v.toCmdOption.clearMandatory,
           mParams := v.mParams.map OptionParam.clearMandatory }

/-- The object behind an `Option*` with its mandatory flags cleared. -/
def OptionPtr.clearMandatory : OptionPtr → OptionPtr
  | OptionPtr.option o => OptionPtr.option o.clearMandatory
  | OptionPtr.valueOption v => OptionPtr.valueOption v.clearMandatory

/-- The ProgParam with its mandatory flag cleared. -/
def ProgParam.clearMandatory (p : ProgParam) : ProgParam :=
  { p with mDefinition := { p.mDefinition with isMandatory := false } }

/-- The PosParam with its mandatory flag cleared. -/
def PosParam.clearMandatory (p : PosParam) : PosParam :=
  { p with mDefinition := { p.mDefinition with isMandatory := false } }

/-- The MultiPosParam with its mandatory flag cleared. -/
def MultiPosParam.clearMandatory (m : MultiPosParam) : MultiPosParam :=
  { m with mDefinition := { m.mDefinition with isMandatory := false } }

/-- The Parser with the mandatory flag of every registered parameter cleared:
two Parsers are built identically except for the mandatory flags exactly when
this gives the same Parser for both. -/
def Parser.clearMandatory (P : Parser) : Parser :=
  { P with mOptions := P.mOptions.map OptionPtr.clearMandatory,
           mPosParams := P.mPosParams.map PosParam.clearMandatory,
           mMultiPosParam := P.mMultiPosParam.map MultiPosParam.clearMandatory,
           mProgParam := P.mProgParam.clearMandatory }

/-! ## Option tokens and the population step, list by list -/

/-- The token is the prefixed short name or the prefixed long name of the
option: the test that `Option::CanPopulate` makes on the front token. -/
def OptionPtr.nameMatches (o : OptionPtr) (t : String) : Bool :=
  if t = o.base.PrefixShortName ∨ t = o.base.PrefixLongName then true else false

/-- The first registered option, in registration order, whose prefixed short
or long name is the token. -/
def firstMatch (opts : List OptionPtr) (t : String) : Option OptionPtr :=
  opts.find? (fun o => o.nameMatches t)

/-- The tokens are option tokens accepted by the registered options: a
sequence of groups, each an option-shaped token whose first matching option is
a plain Option, or an option-shaped token whose first matching option is a
ValueOption followed by one more token, its value. -/
def acceptedOptionTokens (opts : List OptionPtr) : List String → Bool
  | [] => true
  | [t] =>
    IsOption t &&
      (match firstMatch opts t with
       | some (OptionPtr.option _) => true
       | _ => false)
  | t :: value :: rest =>
    IsOption t &&
      (match firstMatch opts t with
       | some (OptionPtr.option _) => acceptedOptionTokens opts (value :: rest)
       | some (OptionPtr.valueOption _) => acceptedOptionTokens opts rest
       | none => false)

/-- Whether the object is a ValueOption, and its definition: what the matching
of tokens depends on. -/
def OptionPtr.sig : OptionPtr → Bool × OptionDefinition
  | OptionPtr.option o => (false, o.mDefinition)
  | OptionPtr.valueOption v => (true, v.mDefinition)

/-- The options part of the inner loop of `PopulateArgParams`, on the list of
options itself: the first option that can be populated from the queue is
populated; none when no option can. -/
def populateFirstOption : List OptionPtr → List String → Option (List OptionPtr × List String)
  | [], _ => none
  | o :: os, q =>
    if o.CanPopulate q then some ((o.Populate q).2.1 :: os, (o.Populate q).2.2)
    else (populateFirstOption os q).map (fun r => (o :: r.1, r.2))

/-- The PosParams part of the inner loop of `PopulateArgParams`, on the list of
PosParams itself. -/
def populateFirstPos : List PosParam → List String → Option (List PosParam × List String)
  | [], _ => none
  | p :: ps, q =>
    if p.CanPopulate q then some ((p.Populate q).2.1 :: ps, (p.Populate q).2.2)
    else (populateFirstPos ps q).map (fun r => (p :: r.1, r.2))

/-- The vector that `FillArgParamVector` builds for the given numbers of
options and PosParams and the presence of a MultiPosParam. -/
def stdArgParams (nOptions nPosParams : Nat) (hasMulti : Bool) : List ArgParamPtr :=
  [ArgParamPtr.progParam]
  ++ (List.range nOptions).map ArgParamPtr.option
  ++ (List.range nPosParams).map ArgParamPtr.posParam
  ++ (if hasMulti then [ArgParamPtr.multiPosParam] else [])

/-- The test of `nameMatches` on the definition of an option. -/
def sigMatches (t : String) (s : Bool × OptionDefinition) : Bool :=
  (OptionPtr.option { mDefinition := s.2 }).nameMatches t

/-- The copy Parser as `copyParser` builds it, before Parse. -/
def copyParserState (args : List String) : Parser :=
  { mArgs := args,
    mOptions :=
      [OptionPtr.option
         { mDefinition := { shortName := 'h', longName := "help",
                            description := "prints detailed help info" } },
       OptionPtr.option { mDefinition := verboseDef }],
    mPosParams := [{ mDefinition := { name := "destination", isMandatory := true } }],
    mMultiPosParam :=
      some { mDefinition := { name := "source", isMandatory := true,
                              order := ParsingOrder.AfterOptions } },
    mProgParam := { mDefinition := { name := "copy" } } }

/-- The filesearch Parser as `searchParser` builds it, before Parse. -/
def searchParserState (args : List String) : Parser :=
  { mArgs := args,
    mOptions :=
      [OptionPtr.option
         { mDefinition := { shortName := 'h', longName := "help",
                            description := "prints detailed help info" } },
       OptionPtr.option { mDefinition := { shortName := 'i', longName := "ignore-case" } }],
    mPosParams := [{ mDefinition := { name := "pattern", isMandatory := true } }],
    mMultiPosParam := some { mDefinition := { name := "filenames", isMandatory := true } },
    mProgParam := { mDefinition := { name := "filesearch" } } }

/-- The namelookup Parser as `nameLookupParser` builds it, before Parse, with
the given mandatory flag of the PosParam hostname. -/
def nameLookupParserState (hostnameMandatory : Bool) (args : List String) : Parser :=
  { mArgs := args,
    mOptions :=
      [OptionPtr.option
         { mDefinition := { shortName := 'h', longName := "help",
                            description := "prints detailed help info" } },
       OptionPtr.option { mDefinition := verboseDef }],
    mPosParams := [{ mDefinition := { name := "hostname", isMandatory := hostnameMandatory } }],
    mProgParam := { mDefinition := { name := "namelookup" } } }

/-! ## Names and name-value pairs, in the words of the specification -/

/-- An ASCII letter or digit, by character code: what `std::isalnum` accepts
in the C locale. -/
def isAsciiLetterOrDigit (c : Char) : Bool :=
  (65 ≤ c.toNat && c.toNat ≤ 90) || (97 ≤ c.toNat && c.toNat ≤ 122)
    || (48 ≤ c.toNat && c.toNat ≤ 57)

/-- The text of a token before its first `=`, the whole token when it has none. -/
def textBeforeEq (token : String) : String :=
  String.mk (token.data.takeWhile (fun c => c != '='))

/-- The text of a token after its first `=`, empty when it has none. -/
def textAfterEq (token : String) : String :=
  String.mk ((token.data.dropWhile (fun c => c != '=')).drop 1)

/-- The short prefix of a style: `unixOptionShortPrefix` or
`windowsOptionShortPrefix`. -/
def shortPrefixOf : Style → String
  | Style.Unix => unixOptionShortPrefix
  | Style.Windows => windowsOptionShortPrefix

/-- The long prefix of a style: `unixOptionLongPrefix` or
`windowsOptionLongPrefix`. -/
def longPrefixOf : Style → String
  | Style.Unix => unixOptionLongPrefix
  | Style.Windows => windowsOptionLongPrefix

/-- Successive calls of `ValueOption::Populate` on the same ValueOption, one
for each queue of the list: the results of the calls and the ValueOption
afterwards. -/
def ValueOption.PopulateAll (v : ValueOption) : List (List String) → List Bool × ValueOption
  | [] => ([], v)
  | q :: qs =>
    ((v.Populate q).1 :: (ValueOption.PopulateAll (v.Populate q).2.1 qs).1,
      (ValueOption.PopulateAll (v.Populate q).2.1 qs).2)

/-- ValueOptionTests.cpp, the OptionParam song. -/
def songParam : OptionParam :=
  { mDefinition := { name := "song", description := "the title of the song" } }

/-- ValueOptionTests.cpp, the OptionParam artist. -/
def artistParam : OptionParam :=
  { mDefinition := { name := "artist", description := "the song artist" } }

/-- ValueOptionTests.cpp, the OptionParam album. -/
def albumParam : OptionParam :=
  { mDefinition := { name := "album", description := "the album of the song" } }

/-- ValueOptionTests.cpp, `editOption`: the ValueOption -e, --edit with the
children song, artist and album, as the constructor and `Add` build it. -/
def editOption : Except Error ValueOption := do
  let v ← ValueOption.new
    { shortName := 'e', longName := "edit", description := "edits the specified fields" }
  let v ← v.Add (some songParam)
  let v ← v.Add (some artistParam)
  v.Add (some albumParam)

/-- ValueOptionTests.cpp, `printOption`: the ValueOption -p, --print with the
children song, artist and album, as the constructor and `Add` build it. -/
def printOption : Except Error ValueOption := do
  let v ← ValueOption.new
    { shortName := 'p', longName := "print", description := "prints the specified fields" }
  let v ← v.Add (some songParam)
  let v ← v.Add (some artistParam)
  v.Add (some albumParam)

/-- The ValueOption that `editOption` builds. -/
def editOptionState : ValueOption :=
  { mDefinition :=
      { shortName := 'e', longName := "edit", description := "edits the specified fields" },
    mParams := [songParam, artistParam, albumParam] }

/-- The ValueOption that `printOption` builds. -/
def printOptionState : ValueOption :=
  { mDefinition :=
      { shortName := 'p', longName := "print", description := "prints the specified fields" },
    mParams := [songParam, artistParam, albumParam] }

/-- Parser.cpp, the Option `mBuiltInHelpOption` as the constructor builds it:
short name h, long name help, style Unix, not specified. -/
def builtInHelpOption : CmdOption :=
  { mDefinition := { shortName := helpOptionShortName, longName := helpOptionLongName,
                     description := helpOptionDescription } }

/-- A Parser on which the Option -a and then the Option -b are added, both with
a short name only. -/
def shortOnlyParser (args : List String) : Except Error Parser := do
  let a ← CmdOption.new { shortName := 'a' }
  let b ← CmdOption.new { shortName := 'b' }
  let P ← Parser.new (some { mDefinition := { name := "prog" } }) args
  let P ← P.Add (some (OptionPtr.option a))
  P.Add (some (OptionPtr.option b))

/-- The built-in help option is the first registered option and has the
definition that the constructor gave it (style Unix). -/
def Parser.helpFirst (P : Parser) : Bool :=
  match P.mOptions with
  | OptionPtr.option h :: _ => decide (h.mDefinition = builtInHelpOption.mDefinition)
  | _ => false

/-! ## Constants.cpp and Parser.cpp: the usage text -/

def optionalOpenBracket : Char := '['
def optionalCloseBracket : Char := ']'
def mandatoryOpenBracket : Char := '<'
def mandatoryCloseBracket : Char := '>'
def multiPosParamIndicator : String := "..."
def usageHeader : String := "Usage:"
def optionsLabel : String := "options"
def helpMessagePrefix : String := "Try '"
def helpMessagePostfix : String := " --help' for more info"

/-- The manipulator `std::endl` on a string stream: a line feed. -/
def endl : String := "\n"

namespace Parser

/-- Parser.cpp, `Parser::GenerateBracketedUsageLabel`; the ArgParam is given by
what the function reads of it, `Name()` and `IsMandatory()`. -/
def GenerateBracketedUsageLabel (name : String) (isMandatory : Bool) : String :=
  if isMandatory then
    String.singleton mandatoryOpenBracket ++ name ++ String.singleton mandatoryCloseBracket
  else
    String.singleton optionalOpenBracket ++ name ++ String.singleton optionalCloseBracket

/-- The loop `for (auto* p : mPosParams) usage << ' ' << GenerateBracketedUsageLabel(p)`
of `GeneratePlainUsage`, on the text written so far. -/
def usagePosParams (P : Parser) (usage : String) : String :=
  P.mPosParams.foldl
    (fun usage p =>
      usage ++ " " ++ GenerateBracketedUsageLabel p.mDefinition.name p.mDefinition.isMandatory)
    usage

/-- Parser.cpp, `Parser::GeneratePlainUsage`. -/
def GeneratePlainUsage (P : Parser) : String :=
  let usage := usageHeader ++ endl ++ "  " ++ P.mProgParam.mDefinition.name ++ " "
    ++ String.singleton optionalOpenBracket ++ optionsLabel
    ++ String.singleton optionalCloseBracket
  match P.mMultiPosParam with
  | some m =>
    if m.Order ≠ ParsingOrder.End then
      P.usagePosParams
        (usage ++ " " ++ GenerateBracketedUsageLabel m.mDefinition.name m.mDefinition.isMandatory
          ++ multiPosParamIndicator)
    else
      P.usagePosParams usage ++ " "
        ++ GenerateBracketedUsageLabel m.mDefinition.name m.mDefinition.isMandatory
        ++ multiPosParamIndicator
  | none => P.usagePosParams usage

/-- Parser.cpp, `Parser::GenerateUsage`. -/
def GenerateUsage (P : Parser) : String :=
  P.GeneratePlainUsage ++ endl ++ endl ++ helpMessagePrefix ++ P.mProgParam.mDefinition.name
    ++ helpMessagePostfix ++ endl

end Parser

/-- The label of a positional parameter in the words of the specification:
a mandatory parameter is rendered <name>, an optional one [name]. -/
def bracketedLabel (name : String) (isMandatory : Bool) : String :=
  if isMandatory then "<" ++ name ++ ">" else "[" ++ name ++ "]"

/-- The labels of the usage text in the words of the specification, built from
the definitions of the PosParams (in registration order) and of the
MultiPosParam: the label of the MultiPosParam carries the suffix `...` and
stands before the labels of the PosParams when its order is AfterOptions and
after them when its order is End. -/
def usageLabelsOf (pos : List ParamDefinition) (multi : Option MultiPosParamDefinition) :
    List String :=
  match multi with
  | none => pos.map (fun d => bracketedLabel d.name d.isMandatory)
  | some m =>
    match m.order with
    | ParsingOrder.AfterOptions =>
      (bracketedLabel m.name m.isMandatory ++ "...")
        :: pos.map (fun d => bracketedLabel d.name d.isMandatory)
    | ParsingOrder.End =>
      pos.map (fun d => bracketedLabel d.name d.isMandatory)
        ++ [bracketedLabel m.name m.isMandatory ++ "..."]

/-- The labels of the usage text of a Parser. -/
def Parser.usageLabels (P : Parser) : List String :=
  usageLabelsOf (P.mPosParams.map (fun p => p.mDefinition))
    (P.mMultiPosParam.map (fun m => m.mDefinition))

/-- The labels, each after one space, one after the other. -/
def spaced : List String → String
  | [] => ""
  | l :: ls => " " ++ l ++ spaced ls

/-- The usage text in the words of the specification, for a program name and
the labels of the positional parameters. -/
def usageText (prog : String) (labels : List String) : String :=
  "Usage:\n  " ++ prog ++ " [options]" ++ spaced labels ++ "\n\n"
    ++ "Try '" ++ prog ++ " --help' for more info" ++ "\n"

/-- A Parser with the ValueOption -e, --edit, which owns the mandatory
OptionParam song and the OptionParam artist. -/
def mandatoryChildParser (args : List String) : Except Error Parser := do
  let edit ← ValueOption.new { shortName := 'e', longName := "edit" }
  let edit ← edit.Add (some { mDefinition := { name := "song", isMandatory := true } })
  let edit ← edit.Add (some artistParam)
  let P ← Parser.new (some { mDefinition := { name := "prog" } }) args
  P.Add (some (OptionPtr.valueOption edit))

/-- The mandatory and specified flags of the OptionParam children of the
registered options, option by option (none for a plain Option). -/
def Parser.childFlags (P : Parser) : List (List (String × Bool × Bool)) :=
  P.mOptions.map (fun o =>
    match o with
    | OptionPtr.option _ => []
    | OptionPtr.valueOption v =>
      v.mParams.map (fun c => (c.mDefinition.name, c.mDefinition.isMandatory, c.mIsSpecified)))

/-! ## Further example programs -/

/-- A Parser with the ValueOption -p (short name only) and nothing else. -/
def shortValueParser (args : List String) : Except Error Parser := do
  let print ← ValueOption.new { shortName := 'p' }
  let P ← Parser.new (some { mDefinition := { name := "prog" } }) args
  P.Add (some (OptionPtr.valueOption print))

/-- A Parser with the ValueOption -p, --print and the Option -v, --verbose. -/
def printVerboseParser (args : List String) : Except Error Parser := do
  let print ← ValueOption.new { shortName := 'p', longName := "print" }
  let verbose ← CmdOption.new verboseDef
  let P ← Parser.new (some { mDefinition := { name := "prog" } }) args
  let P ← P.Add (some (OptionPtr.valueOption print))
  P.Add (some (OptionPtr.option verbose))

/-- A Parser on which the Option -v, --verbose of Unix style and then the
Option /v, /view of Windows style are added, and whose options are then all
set to the Unix style. -/
def mixedStyleParser (args : List String) : Except Error Parser := do
  let verbose ← CmdOption.new verboseDef
  let view ← CmdOption.new { shortName := 'v', longName := "view", style := Style.Windows }
  let P ← Parser.new (some { mDefinition := { name := "prog" } }) args
  let P ← P.Add (some (OptionPtr.option verbose))
  let P ← P.Add (some (OptionPtr.option view))
  pure (P.Set Style.Unix)

/-- The namelookup Parser after Parse of [namelookup, -v, test.example.com]:
the ProgParam, the Option -v and the PosParam hostname are specified. -/
def nameLookupParsedState : Parser :=
  { nameLookupParserState true ["namelookup", "-v", "test.example.com"] with
    mArgParams := [ArgParamPtr.progParam, ArgParamPtr.option 0, ArgParamPtr.option 1,
                   ArgParamPtr.posParam 0],
    mOptions := [OptionPtr.option builtInHelpOption,
                 OptionPtr.option { mDefinition := verboseDef, mIsSpecified := true }],
    mPosParams := [{ mDefinition := { name := "hostname", isMandatory := true },
                     mValue := "test.example.com", mIsSpecified := true }],
    mProgParam := { mDefinition := { name := "namelookup" }, mIsSpecified := true,
                    mValue := "namelookup" } }

/-- Two options have the same prefixed short name, both having a short name, or
the same prefixed long name, both having a long name. -/
def OptionPtr.sameName (a b : OptionPtr) : Bool :=
  (a.base.mDefinition.shortName != Char.ofNat 0 && b.base.mDefinition.shortName != Char.ofNat 0
      && a.base.PrefixShortName == b.base.PrefixShortName)
  || (a.base.mDefinition.longName != "" && b.base.mDefinition.longName != ""
      && a.base.PrefixLongName == b.base.PrefixLongName)

/-- No two of the options have the same name, in the sense of `sameName`. -/
def namesUnique (opts : List OptionPtr) : Prop :=
  opts.Pairwise (fun a b => a.sameName b = false)

/-- Every one of the options has the style `s`. -/
def styleIs (s : Style) (opts : List OptionPtr) : Prop :=
  ∀ o ∈ opts, o.base.mDefinition.style = s

/-- The tokens are groups of an option-shaped token alone or followed by one
more token: what MoveOptionsToArgQueue moves, an option token with the value
token that it takes. -/
def optionGroups : List String → Bool
  | [] => true
  | [t] => IsOption t
  | t :: x :: rest => IsOption t && (optionGroups (x :: rest) || optionGroups rest)

/-- The Parser within the loop of `PopulateArgParams`, after FillArgParamVector
and after the ProgParam has taken the program name: with the given options and
the given queue. -/
def Parser.during (P : Parser) (prog : String) (opts : List OptionPtr) (queue : List String) :
    Parser :=
  { P.FillArgParamVector with
    mProgParam := { P.mProgParam with mValue := prog, mIsSpecified := true },
    mOptions := opts,
    mArgQueue := queue }

/-- The Parser that `printVerboseParser` builds, before Parse. -/
def printVerboseParserState (args : List String) : Parser :=
  { mArgs := args,
    mOptions := [OptionPtr.option builtInHelpOption,
                 OptionPtr.valueOption { mDefinition := { shortName := 'p', longName := "print" } },
                 OptionPtr.option { mDefinition := verboseDef }],
    mProgParam := { mDefinition := { name := "prog" } } }

/-! ## Option-shaped tokens in the words of the specification -/

/-- Option-shaped as the specification words it: the token is one of the
prefixes -, -- or / immediately followed by a legal parameter name. To be
compared with `IsOption` of the code. -/
def optionShaped (t : String) : Bool :=
  [unixOptionShortPrefix, unixOptionLongPrefix, windowsOptionShortPrefix].any
    (fun p => rfindAtZero t p && IsValidNonOptionName (String.mk (t.data.drop p.length)))

/-! ## Theorems -/

/-- Claim C1, the code at the failing input: with Option -v and one PosParam
registered, Parse of [namelookup, test.example.com, -v] returns Failure with
neither parameter populated, while the vector with -v moved to directly after
the program name returns Success with -v specified and the PosParam set. -/
theorem Parse_option_after_positional_fails :
    ((nameLookupParser ["namelookup", "test.example.com", "-v"]).bind Parser.Parse).map
        (fun r => (r.1, r.2.optionsSpecified, r.2.posValues))
      = Except.ok (Status.Failure, [false, false], [""])
    ∧ ((nameLookupParser ["namelookup", "-v", "test.example.com"]).bind Parser.Parse).map
        (fun r => (r.1, r.2.optionsSpecified, r.2.posValues))
      = Except.ok (Status.Success, [false, true], ["test.example.com"]) := by
  decide

/-! ### Phase 1: the queue reconstruction on option tokens followed by positionals -/

theorem OptionPtr_canPopulate_option_cons (o : CmdOption) (t : String) (xs : List String) :
    (OptionPtr.option o).CanPopulate (t :: xs) = (OptionPtr.option o).nameMatches t := rfl

theorem OptionPtr_canPopulate_value_cons (v : ValueOption) (t x : String) (xs : List String) :
    (OptionPtr.valueOption v).CanPopulate (t :: x :: xs)
      = (OptionPtr.valueOption v).nameMatches t := by
  simp [OptionPtr.CanPopulate, ValueOption.CanPopulate, OptionPtr.nameMatches,
    CmdOption.CanPopulate, OptionPtr.base]

theorem OptionPtr_canPopulate_false_of_not_nameMatches (o : OptionPtr) (t : String)
    (xs : List String) (h : o.nameMatches t = false) : o.CanPopulate (t :: xs) = false := by
  cases o with
  | option o => rw [OptionPtr_canPopulate_option_cons]; exact h
  | valueOption v =>
    have h2 : v.toCmdOption.CanPopulate (t :: xs) = false := h
    simp [OptionPtr.CanPopulate, ValueOption.CanPopulate, h2]

theorem find_canPopulate_of_firstMatch_option (opts : List OptionPtr) (t : String)
    (xs : List String) (o : CmdOption) (h : firstMatch opts t = some (OptionPtr.option o)) :
    opts.find? (fun o => o.CanPopulate (t :: xs)) = some (OptionPtr.option o) := by
  induction opts with
  | nil => simp [firstMatch] at h
  | cons a os ih =>
    unfold firstMatch at h ih
    rw [List.find?_cons] at h ⊢
    cases hm : a.nameMatches t with
    | true =>
      rw [hm] at h
      simp only [Option.some.injEq] at h
      subst h
      simp [OptionPtr_canPopulate_option_cons, hm]
    | false =>
      rw [hm] at h
      simp only [OptionPtr_canPopulate_false_of_not_nameMatches a t xs hm]
      exact ih h

theorem find_canPopulate_of_firstMatch_value (opts : List OptionPtr) (t x : String)
    (xs : List String) (v : ValueOption) (h : firstMatch opts t = some (OptionPtr.valueOption v)) :
    opts.find? (fun o => o.CanPopulate (t :: x :: xs)) = some (OptionPtr.valueOption v) := by
  induction opts with
  | nil => simp [firstMatch] at h
  | cons a os ih =>
    unfold firstMatch at h ih
    rw [List.find?_cons] at h ⊢
    cases hm : a.nameMatches t with
    | true =>
      rw [hm] at h
      simp only [Option.some.injEq] at h
      subst h
      simp [OptionPtr_canPopulate_value_cons, hm]
    | false =>
      rw [hm] at h
      simp only [OptionPtr_canPopulate_false_of_not_nameMatches a t (x :: xs) hm]
      exact ih h

theorem Parser_splitPosArgs_eq (numMulPos : Nat) (source : List String) :
    ∀ (c : Nat), Parser.splitPosArgs numMulPos source c
      = (source.take (numMulPos - c), source.drop (numMulPos - c)) := by
  induction source with
  | nil => intro c; simp [Parser.splitPosArgs]
  | cons a rest ih =>
    intro c
    by_cases h : c < numMulPos
    · have h1 : numMulPos - c = (numMulPos - (c + 1)) + 1 := by omega
      simp only [Parser.splitPosArgs, h, if_true, ih (c + 1)]
      rw [h1]
      simp
    · have h0 : numMulPos - c = 0 := by omega
      simp only [Parser.splitPosArgs, h, if_false, ih c, h0]
      simp

/-! ### Phase 2: one pass of the inner loop over the vector of `FillArgParamVector` -/

theorem OptionPtr_populate_fst (o : OptionPtr) (q : List String) :
    (o.Populate q).1 = o.CanPopulate q := by
  cases o with
  | option o =>
    simp only [OptionPtr.Populate, OptionPtr.CanPopulate, CmdOption.Populate]
    split <;> simp_all
  | valueOption v =>
    simp only [OptionPtr.Populate, OptionPtr.CanPopulate, ValueOption.Populate]
    by_cases h : v.CanPopulate q = true
    · rcases q with _ | ⟨a, _ | ⟨b, rest⟩⟩
      · simp [ValueOption.CanPopulate, CmdOption.CanPopulate] at h
      · simp [ValueOption.CanPopulate] at h
      · simp only [h, if_true]
        cases NameValuePair.new b <;> rfl
    · simp [h]

theorem PosParam_populate_fst (p : PosParam) (q : List String) :
    (p.Populate q).1 = p.CanPopulate q := by
  unfold PosParam.Populate
  by_cases h : p.CanPopulate q = true
  · cases q with
    | nil => simp [PosParam.CanPopulate] at h
    | cons a rest => simp [h]
  · simp [h]

theorem set_length_append_cons {α : Type} (pre : List α) (a x : α) (suf : List α) :
    (pre ++ a :: suf).set pre.length x = pre ++ x :: suf := by
  induction pre with
  | nil => rfl
  | cons b pre ih => simp [ih]

theorem getElem?_length_append_cons {α : Type} (pre : List α) (a : α) (suf : List α) :
    (pre ++ a :: suf)[pre.length]? = some a := by
  induction pre with
  | nil => simp
  | cons b pre ih => simpa using ih

theorem Parser_populateFirst_options_aux (P : Parser) (tail : List ArgParamPtr) :
    ∀ (suf pre : List OptionPtr), P.mOptions = pre ++ suf →
      P.PopulateFirst ((List.range' pre.length suf.length).map ArgParamPtr.option ++ tail)
        = match populateFirstOption suf P.mArgQueue with
          | some r => (true, { P with mOptions := pre ++ r.1, mArgQueue := r.2 })
          | none => P.PopulateFirst tail := by
  intro suf
  induction suf with
  | nil => intro pre _; simp [populateFirstOption]
  | cons o os ih =>
    intro pre hP
    have hget : P.mOptions[pre.length]? = some o := by
      rw [hP]; exact getElem?_length_append_cons pre o os
    have hcan : P.CanPopulate (ArgParamPtr.option pre.length) = o.CanPopulate P.mArgQueue := by
      simp [Parser.CanPopulate, hget]
    simp only [List.length_cons, List.range'_succ, List.map_cons, List.cons_append,
      Parser.PopulateFirst, hcan, populateFirstOption, List.append_eq]
    by_cases hc : o.CanPopulate P.mArgQueue = true
    · simp only [hc, if_true]
      simp only [Parser.Populate, hget]
      simp only [OptionPtr_populate_fst, hc, hP, set_length_append_cons]
    · simp only [hc]
      have hP2 : P.mOptions = (pre ++ [o]) ++ os := by simp [hP]
      have := ih (pre ++ [o]) hP2
      simp only [List.length_append, List.length_singleton] at this
      rw [this]
      cases populateFirstOption os P.mArgQueue <;> simp

theorem Parser_populateFirst_pos_aux (P : Parser) (tail : List ArgParamPtr) :
    ∀ (suf pre : List PosParam), P.mPosParams = pre ++ suf →
      P.PopulateFirst ((List.range' pre.length suf.length).map ArgParamPtr.posParam ++ tail)
        = match populateFirstPos suf P.mArgQueue with
          | some r => (true, { P with mPosParams := pre ++ r.1, mArgQueue := r.2 })
          | none => P.PopulateFirst tail := by
  intro suf
  induction suf with
  | nil => intro pre _; simp [populateFirstPos]
  | cons o os ih =>
    intro pre hP
    have hget : P.mPosParams[pre.length]? = some o := by
      rw [hP]; exact getElem?_length_append_cons pre o os
    have hcan : P.CanPopulate (ArgParamPtr.posParam pre.length) = o.CanPopulate P.mArgQueue := by
      simp [Parser.CanPopulate, hget]
    simp only [List.length_cons, List.range'_succ, List.map_cons, List.cons_append,
      Parser.PopulateFirst, hcan, populateFirstPos, List.append_eq]
    by_cases hc : o.CanPopulate P.mArgQueue = true
    · simp only [hc, if_true]
      simp only [Parser.Populate, hget]
      simp only [PosParam_populate_fst, hc, hP, set_length_append_cons]
    · simp only [hc]
      have hP2 : P.mPosParams = (pre ++ [o]) ++ os := by simp [hP]
      have := ih (pre ++ [o]) hP2
      simp only [List.length_append, List.length_singleton] at this
      rw [this]
      cases populateFirstPos os P.mArgQueue <;> simp

theorem Parser_populateFirst_stdArgParams (P : Parser) :
    P.PopulateFirst
        (stdArgParams P.mOptions.length P.mPosParams.length P.mMultiPosParam.isSome)
      = if P.mProgParam.CanPopulate P.mArgQueue then P.Populate ArgParamPtr.progParam
        else match populateFirstOption P.mOptions P.mArgQueue with
          | some r => (true, { P with mOptions := r.1, mArgQueue := r.2 })
          | none =>
            match populateFirstPos P.mPosParams P.mArgQueue with
            | some r => (true, { P with mPosParams := r.1, mArgQueue := r.2 })
            | none =>
              match P.mMultiPosParam with
              | some m =>
                if m.CanPopulate P.mArgQueue then P.Populate ArgParamPtr.multiPosParam
                else (false, P)
              | none => (false, P) := by
  simp only [stdArgParams, List.singleton_append, List.cons_append, Parser.PopulateFirst,
    Parser.CanPopulate, List.append_assoc, List.range_eq_range', List.append_eq,
    List.nil_append]
  by_cases hprog : P.mProgParam.CanPopulate P.mArgQueue = true
  · simp [hprog]
  · simp only [hprog]
    have ho := Parser_populateFirst_options_aux P
      ((List.range' 0 P.mPosParams.length).map ArgParamPtr.posParam
        ++ (if P.mMultiPosParam.isSome = true then [ArgParamPtr.multiPosParam] else []))
      P.mOptions [] rfl
    simp only [List.length_nil, List.nil_append] at ho
    rw [ho]
    cases hO : populateFirstOption P.mOptions P.mArgQueue with
    | some r => simp
    | none =>
      simp only [Bool.false_eq_true, if_false]
      have hp := Parser_populateFirst_pos_aux P
        (if P.mMultiPosParam.isSome = true then [ArgParamPtr.multiPosParam] else [])
        P.mPosParams [] rfl
      simp only [List.length_nil, List.nil_append] at hp
      rw [hp]
      cases hPp : populateFirstPos P.mPosParams P.mArgQueue with
      | some r => simp
      | none =>
        simp only
        cases hm : P.mMultiPosParam with
        | none => simp [Parser.PopulateFirst]
        | some m =>
          simp only [Option.isSome_some, if_true, Parser.PopulateFirst, Parser.CanPopulate, hm]

/-- One pass of the inner loop of `PopulateArgParams` over the vector built by
`FillArgParamVector`: the ProgParam is tried first, then the options, then the
PosParams, each in registration order, then the MultiPosParam. -/
theorem Parser_populateFirst_std (P : Parser)
    (hstd : P.mArgParams
      = stdArgParams P.mOptions.length P.mPosParams.length P.mMultiPosParam.isSome) :
    P.PopulateFirst P.mArgParams
      = if P.mProgParam.CanPopulate P.mArgQueue then P.Populate ArgParamPtr.progParam
        else match populateFirstOption P.mOptions P.mArgQueue with
          | some r => (true, { P with mOptions := r.1, mArgQueue := r.2 })
          | none =>
            match populateFirstPos P.mPosParams P.mArgQueue with
            | some r => (true, { P with mPosParams := r.1, mArgQueue := r.2 })
            | none =>
              match P.mMultiPosParam with
              | some m =>
                if m.CanPopulate P.mArgQueue then P.Populate ArgParamPtr.multiPosParam
                else (false, P)
              | none => (false, P) := by
  conv_lhs => rw [hstd]
  exact Parser_populateFirst_stdArgParams P

/-! ### The options and PosParams parts of one pass, list by list -/

theorem OptionPtr_nameMatches_eq_sigMatches (o : OptionPtr) (t : String) :
    o.nameMatches t = sigMatches t o.sig := by
  cases o <;> rfl

theorem firstMatch_map_sig (opts : List OptionPtr) (t : String) :
    (firstMatch opts t).map OptionPtr.sig = (opts.map OptionPtr.sig).find? (sigMatches t) := by
  induction opts with
  | nil => rfl
  | cons a os ih =>
    unfold firstMatch at ih ⊢
    simp only [List.map_cons, List.find?_cons, ← OptionPtr_nameMatches_eq_sigMatches]
    cases a.nameMatches t with
    | true => rfl
    | false => exact ih

theorem firstMatch_sig_congr (opts opts2 : List OptionPtr) (t : String)
    (h : opts2.map OptionPtr.sig = opts.map OptionPtr.sig) :
    (firstMatch opts2 t).map OptionPtr.sig = (firstMatch opts t).map OptionPtr.sig := by
  rw [firstMatch_map_sig, firstMatch_map_sig, h]

theorem OptionPtr_populate_sig (o : OptionPtr) (q : List String) :
    (o.Populate q).2.1.sig = o.sig := by
  cases o with
  | option o =>
    simp only [OptionPtr.Populate, CmdOption.Populate]
    split <;> rfl
  | valueOption v =>
    simp only [OptionPtr.Populate, ValueOption.Populate]
    by_cases h : v.CanPopulate q = true
    · simp only [h, if_true]
      rcases q with _ | ⟨a, _ | ⟨value, rest⟩⟩
      · rfl
      · rfl
      · cases hp : NameValuePair.new value <;> simp [hp, OptionPtr.sig]
    · simp only [h]
      rfl

theorem acceptedOptionTokens_congr_aux (opts opts2 : List OptionPtr)
    (h : opts2.map OptionPtr.sig = opts.map OptionPtr.sig) (n : Nat) :
    ∀ (toks : List String), toks.length ≤ n →
      acceptedOptionTokens opts2 toks = acceptedOptionTokens opts toks := by
  induction n with
  | zero =>
    intro toks hlen
    cases toks with
    | nil => rfl
    | cons a r => simp at hlen
  | succ n ih =>
    intro toks hlen
    rcases toks with _ | ⟨t, _ | ⟨value, rest⟩⟩
    · rfl
    · have hs := firstMatch_sig_congr opts opts2 t h
      simp only [acceptedOptionTokens]
      cases hf : firstMatch opts t with
      | none =>
        cases hf2 : firstMatch opts2 t with
        | none => rfl
        | some o2 => simp [hf, hf2] at hs
      | some o =>
        cases hf2 : firstMatch opts2 t with
        | none => simp [hf, hf2] at hs
        | some o2 =>
          cases o <;> cases o2 <;> simp [hf, hf2, OptionPtr.sig] at hs ⊢
    · have hs := firstMatch_sig_congr opts opts2 t h
      have hr1 : (value :: rest).length ≤ n := by
        simp only [List.length_cons] at hlen ⊢
        omega
      have hr2 : rest.length ≤ n := by
        simp only [List.length_cons] at hlen
        omega
      simp only [acceptedOptionTokens]
      cases hf : firstMatch opts t with
      | none =>
        cases hf2 : firstMatch opts2 t with
        | none => rfl
        | some o2 => simp [hf, hf2] at hs
      | some o =>
        cases hf2 : firstMatch opts2 t with
        | none => simp [hf, hf2] at hs
        | some o2 =>
          cases o <;> cases o2 <;>
            simp [hf, hf2, OptionPtr.sig, ih (value :: rest) hr1, ih rest hr2] at hs ⊢

theorem acceptedOptionTokens_congr (opts opts2 : List OptionPtr)
    (h : opts2.map OptionPtr.sig = opts.map OptionPtr.sig) (toks : List String) :
    acceptedOptionTokens opts2 toks = acceptedOptionTokens opts toks :=
  acceptedOptionTokens_congr_aux opts opts2 h toks.length toks (Nat.le_refl _)

theorem populateFirstOption_flag (opts : List OptionPtr) (t : String) (xs : List String)
    (o : CmdOption) (h : firstMatch opts t = some (OptionPtr.option o)) :
    ∃ opts2, populateFirstOption opts (t :: xs) = some (opts2, xs)
      ∧ opts2.map OptionPtr.sig = opts.map OptionPtr.sig := by
  induction opts with
  | nil => simp [firstMatch] at h
  | cons a os ih =>
    unfold firstMatch at h ih
    rw [List.find?_cons] at h
    cases hm : a.nameMatches t with
    | true =>
      rw [hm] at h
      simp only [Option.some.injEq] at h
      subst h
      have hc : (OptionPtr.option o).CanPopulate (t :: xs) = true := by
        rw [OptionPtr_canPopulate_option_cons]; exact hm
      have hc2 : o.CanPopulate (t :: xs) = true := hc
      refine ⟨(OptionPtr.Populate (OptionPtr.option o) (t :: xs)).2.1 :: os, ?_, ?_⟩
      · simp [populateFirstOption, hc, OptionPtr.Populate, CmdOption.Populate, hc2]
      · simp [OptionPtr_populate_sig]
    | false =>
      rw [hm] at h
      obtain ⟨opts2, h1, h2⟩ := ih h
      refine ⟨a :: opts2, ?_, ?_⟩
      · simp [populateFirstOption, OptionPtr_canPopulate_false_of_not_nameMatches a t xs hm, h1]
      · simp [h2]

theorem populateFirstOption_value (opts : List OptionPtr) (t x : String) (xs : List String)
    (v : ValueOption) (h : firstMatch opts t = some (OptionPtr.valueOption v)) :
    ∃ opts2, populateFirstOption opts (t :: x :: xs) = some (opts2, xs)
      ∧ opts2.map OptionPtr.sig = opts.map OptionPtr.sig := by
  induction opts with
  | nil => simp [firstMatch] at h
  | cons a os ih =>
    unfold firstMatch at h ih
    rw [List.find?_cons] at h
    cases hm : a.nameMatches t with
    | true =>
      rw [hm] at h
      simp only [Option.some.injEq] at h
      subst h
      have hc : (OptionPtr.valueOption v).CanPopulate (t :: x :: xs) = true := by
        rw [OptionPtr_canPopulate_value_cons]; exact hm
      have hc2 : v.CanPopulate (t :: x :: xs) = true := hc
      refine ⟨(OptionPtr.Populate (OptionPtr.valueOption v) (t :: x :: xs)).2.1 :: os, ?_, ?_⟩
      · have hq : (OptionPtr.Populate (OptionPtr.valueOption v) (t :: x :: xs)).2.2 = xs := by
          simp only [OptionPtr.Populate, ValueOption.Populate, hc2, if_true]
          cases hp : NameValuePair.new x <;> simp [hp]
        simp [populateFirstOption, hc, hq]
      · simp [OptionPtr_populate_sig]
    | false =>
      rw [hm] at h
      obtain ⟨opts2, h1, h2⟩ := ih h
      refine ⟨a :: opts2, ?_, ?_⟩
      · simp [populateFirstOption,
          OptionPtr_canPopulate_false_of_not_nameMatches a t (x :: xs) hm, h1]
      · simp [h2]

theorem ProgParam_canPopulate_specified (p : ProgParam) (q : List String)
    (h : p.mIsSpecified = true) : p.CanPopulate q = false := by
  simp [ProgParam.CanPopulate, h]

theorem Parser_loop_nil (fuel : Nat) (P : Parser) (h : P.mArgQueue = []) :
    Parser.PopulateArgParamsLoop fuel P = Except.ok (Status.Success, P) := by
  cases fuel <;> simp [Parser.PopulateArgParamsLoop, h]

theorem Parser_loop_step (fuel : Nat) (P P1 : Parser) (a : String) (rest : List String)
    (hq : P.mArgQueue = a :: rest) (hstep : P.PopulateFirst P.mArgParams = (true, P1))
    (hlen : P1.mArgQueue.length < (a :: rest).length) :
    Parser.PopulateArgParamsLoop (fuel + 1) P = Parser.PopulateArgParamsLoop fuel P1 := by
  have hne : ¬ P1.mArgQueue.length = rest.length + 1 := by
    simp only [List.length_cons] at hlen
    omega
  simp [Parser.PopulateArgParamsLoop, hq, hstep, hne]

theorem Parser_loop_options (n : Nat) :
    ∀ (toks : List String), toks.length ≤ n →
    ∀ (fuel : Nat) (P : Parser) (rest : List String),
      P.mArgParams
        = stdArgParams P.mOptions.length P.mPosParams.length P.mMultiPosParam.isSome →
      P.mProgParam.mIsSpecified = true →
      acceptedOptionTokens P.mOptions toks = true →
      P.mArgQueue = toks ++ rest →
      (toks ++ rest).length ≤ fuel →
      ∃ opts2 fuel2, opts2.map OptionPtr.sig = P.mOptions.map OptionPtr.sig
        ∧ rest.length ≤ fuel2
        ∧ Parser.PopulateArgParamsLoop fuel P
          = Parser.PopulateArgParamsLoop fuel2 { P with mOptions := opts2, mArgQueue := rest } := by
  induction n with
  | zero =>
    intro toks hlen fuel P rest _ _ _ hq hfuel
    cases toks with
    | cons a r => simp at hlen
    | nil =>
      refine ⟨P.mOptions, fuel, rfl, by simpa using hfuel, ?_⟩
      simp only [List.nil_append] at hq
      rw [← hq]
  | succ n ih =>
    intro toks hlen fuel P rest hstd hprog hacc hq hfuel
    rcases toks with _ | ⟨t, _ | ⟨value, rest2⟩⟩
    · refine ⟨P.mOptions, fuel, rfl, by simpa using hfuel, ?_⟩
      simp only [List.nil_append] at hq
      rw [← hq]
    · cases fuel with
      | zero => simp at hfuel
      | succ f =>
        simp only [acceptedOptionTokens, Bool.and_eq_true] at hacc
        cases hf : firstMatch P.mOptions t with
        | none => simp [hf] at hacc
        | some o =>
          cases o with
          | valueOption v => simp [hf] at hacc
          | option o =>
            obtain ⟨opts2, h1, h2⟩ := populateFirstOption_flag P.mOptions t rest o hf
            have hstep : P.PopulateFirst P.mArgParams
                = (true, { P with mOptions := opts2, mArgQueue := rest }) := by
              rw [Parser_populateFirst_std P hstd, hq,
                ProgParam_canPopulate_specified _ _ hprog]
              simp only [List.cons_append, List.nil_append]
              rw [h1]
              simp
            refine ⟨opts2, f, h2, ?_, ?_⟩
            · simp only [List.cons_append, List.length_cons, List.nil_append] at hfuel
              omega
            · exact Parser_loop_step f P _ t rest (by simpa using hq) hstep (by simp)
    · cases fuel with
      | zero => simp at hfuel
      | succ f =>
        simp only [acceptedOptionTokens, Bool.and_eq_true] at hacc
        cases hf : firstMatch P.mOptions t with
        | none => simp [hf] at hacc
        | some o =>
          cases o with
          | valueOption v =>
            simp only [hf] at hacc
            obtain ⟨opts2, h1, h2⟩ :=
              populateFirstOption_value P.mOptions t value (rest2 ++ rest) v hf
            have hstep : P.PopulateFirst P.mArgParams
                = (true, { P with mOptions := opts2, mArgQueue := rest2 ++ rest }) := by
              rw [Parser_populateFirst_std P hstd, hq,
                ProgParam_canPopulate_specified _ _ hprog]
              simp only [List.cons_append]
              rw [h1]
              simp
            rw [Parser_loop_step f P _ t (value :: (rest2 ++ rest)) (by simpa using hq) hstep
              (by simp; omega)]
            have hlen2 : rest2.length ≤ n := by
              simp only [List.length_cons] at hlen
              omega
            have hlen3 : opts2.length = P.mOptions.length := by
              have := congrArg List.length h2
              simpa using this
            obtain ⟨opts3, fuel3, h3, h4, h5⟩ := ih rest2 hlen2 f
              { P with mOptions := opts2, mArgQueue := rest2 ++ rest } rest
              (by simp [hstd, hlen3]) hprog
              (by
                show acceptedOptionTokens opts2 rest2 = true
                rw [acceptedOptionTokens_congr P.mOptions opts2 h2]
                exact hacc.2)
              rfl
              (by
                simp only [List.cons_append, List.length_cons] at hfuel
                omega)
            exact ⟨opts3, fuel3, h3.trans h2, h4, h5⟩
          | option o =>
            simp only [hf] at hacc
            obtain ⟨opts2, h1, h2⟩ :=
              populateFirstOption_flag P.mOptions t (value :: (rest2 ++ rest)) o hf
            have hstep : P.PopulateFirst P.mArgParams
                = (true, { P with mOptions := opts2, mArgQueue := value :: (rest2 ++ rest) }) := by
              rw [Parser_populateFirst_std P hstd, hq,
                ProgParam_canPopulate_specified _ _ hprog]
              simp only [List.cons_append]
              rw [h1]
              simp
            rw [Parser_loop_step f P _ t (value :: (rest2 ++ rest)) (by simpa using hq) hstep
              (by simp)]
            have hlen2 : (value :: rest2).length ≤ n := by
              simp only [List.length_cons] at hlen ⊢
              omega
            have hlen3 : opts2.length = P.mOptions.length := by
              have := congrArg List.length h2
              simpa using this
            obtain ⟨opts3, fuel3, h3, h4, h5⟩ := ih (value :: rest2) hlen2 f
              { P with mOptions := opts2, mArgQueue := value :: (rest2 ++ rest) } rest
              (by simp [hstd, hlen3]) hprog
              (by
                show acceptedOptionTokens opts2 (value :: rest2) = true
                rw [acceptedOptionTokens_congr P.mOptions opts2 h2]
                exact hacc.2)
              rfl
              (by
                simp only [List.cons_append, List.length_cons] at hfuel ⊢
                omega)
            exact ⟨opts3, fuel3, h3.trans h2, h4, h5⟩

/-! ### Parse on option tokens followed by positional tokens -/

theorem Parser_fillArgParamVector_std (P : Parser) :
    P.FillArgParamVector.mArgParams
      = stdArgParams P.FillArgParamVector.mOptions.length
          P.FillArgParamVector.mPosParams.length P.FillArgParamVector.mMultiPosParam.isSome := by
  cases hm : P.mMultiPosParam <;> simp [Parser.FillArgParamVector, stdArgParams, hm]

/-- Claim C4, as stated, fails: for the copy Parser and [copy, Source1.txt,
Source2.txt] it is not the case that Parse returns Success with
AllMandatoryParamsSpecified false afterwards. -/
theorem copy_two_sources_not_unspecified :
    ((copyParser ["copy", "Source1.txt", "Source2.txt"]).bind Parser.Parse).map
        (fun r => (r.1, r.2.AllMandatoryParamsSpecified))
      ≠ Except.ok (Status.Success, false) := by
  decide

/-- Claim C4, amended: for the copy Parser, Parse of [copy, Source1.txt,
Source2.txt] returns Success; the last token Source2.txt becomes the value of
destination, source holds [Source1.txt], and AllMandatoryParamsSpecified is
true afterwards. -/
theorem copy_two_sources_last_is_destination :
    ((copyParser ["copy", "Source1.txt", "Source2.txt"]).bind Parser.Parse).map
        (fun r => (r.1, r.2.AllMandatoryParamsSpecified, r.2.posValues, r.2.multiValues))
      = Except.ok (Status.Success, true, ["Source2.txt"], ["Source1.txt"]) := by
  decide

/-- Claim C5, the code at the failing input: with the Option -? and the
ValueOption -p registered, the vector [prog, -?, -p, -?, --unknown] holds the
option-shaped token --unknown, which is no registered name and does not follow
a ValueOption token; Parse returns Success and --unknown becomes a value of -p. -/
theorem Parse_unknown_option_accepted :
    IsOption "--unknown" = true
    ∧ IsOption "-?" = false
    ∧ ((questionParser ["prog", "-?", "-p", "-?", "--unknown"]).bind Parser.Parse).map
        (fun r => (r.1, r.2.optionsSpecified, r.2.optionValues))
      = Except.ok (Status.Success, [false, true, true], [[], [], ["--unknown"]])
    ∧ ((questionParser ["prog", "--unknown"]).bind Parser.Parse).map (fun r => r.1)
      = Except.ok Status.Failure := by
  decide

/-- Claim C6, the code at the failing input: with the Option -? and the
ValueOption -p registered, the last token of [prog, -?, -p] is the name of the
ValueOption and no value follows it; Parse returns Success and the value list
of -p becomes [-?], while [prog, -p] returns Failure with the list unchanged. -/
theorem Parse_value_option_without_value_accepted :
    ((questionParser ["prog", "-?", "-p"]).bind Parser.Parse).map
        (fun r => (r.1, r.2.optionsSpecified, r.2.optionValues))
      = Except.ok (Status.Success, [false, false, true], [[], [], ["-?"]])
    ∧ ((questionParser ["prog", "-p"]).bind Parser.Parse).map
        (fun r => (r.1, r.2.optionsSpecified, r.2.optionValues))
      = Except.ok (Status.Failure, [false, false, false], [[], [], []]) := by
  decide

/-- Claim C7, the code at the failing input: on the namelookup Parser, whose
PosParam hostname is mandatory and not specified, AllMandatoryParamsSpecified
returns true before Parse, and also after the Parse of [namelookup, --unknown]
that returned Failure; after the successful Parse of [namelookup, -v] it
returns false. -/
theorem AllMandatoryParamsSpecified_true_before_Parse :
    (nameLookupParser ["namelookup", "-v"]).map
        (fun P => (P.AllMandatoryParamsSpecified, P.mPosParams.map (fun p =>
          (p.mDefinition.isMandatory, p.mIsSpecified))))
      = Except.ok (true, [(true, false)])
    ∧ ((nameLookupParser ["namelookup", "--unknown"]).bind Parser.Parse).map
        (fun r => (r.1, r.2.AllMandatoryParamsSpecified, r.2.posSpecified))
      = Except.ok (Status.Failure, true, [false])
    ∧ ((nameLookupParser ["namelookup", "-v"]).bind Parser.Parse).map
        (fun r => (r.1, r.2.AllMandatoryParamsSpecified, r.2.posSpecified))
      = Except.ok (Status.Success, false, [false]) := by
  decide

/-! ### Parse does not read the mandatory flags -/

theorem CmdOption_canPopulate_clearMandatory (o : CmdOption) (args : List String) :
    o.clearMandatory.CanPopulate args = o.CanPopulate args := by
  cases args <;> rfl

theorem CmdOption_populate_clearMandatory (o : CmdOption) (args : List String) :
    o.clearMandatory.Populate args
      = ((o.Populate args).1, (o.Populate args).2.1.clearMandatory, (o.Populate args).2.2) := by
  unfold CmdOption.Populate
  rw [CmdOption_canPopulate_clearMandatory]
  split <;> rfl

theorem OptionParam_populate_clearMandatory (p : OptionParam) (pair : NameValuePair) :
    p.clearMandatory.Populate pair
      = ((p.Populate pair).1, (p.Populate pair).2.clearMandatory) := by
  have hc : p.clearMandatory.CanPopulate pair = p.CanPopulate pair := rfl
  unfold OptionParam.Populate
  rw [hc]
  split <;> rfl

theorem OptionParam_populateFirstParam_clearMandatory (pair : NameValuePair)
    (ps : List OptionParam) :
    ValueOption.populateFirstParam pair (ps.map OptionParam.clearMandatory)
      = (ValueOption.populateFirstParam pair ps).map OptionParam.clearMandatory := by
  induction ps with
  | nil => rfl
  | cons p ps ih =>
    have hc : p.clearMandatory.CanPopulate pair = p.CanPopulate pair := rfl
    simp only [List.map_cons, ValueOption.populateFirstParam, hc]
    split
    · simp [OptionParam_populate_clearMandatory]
    · simp [ih]

theorem ValueOption_canPopulate_clearMandatory (v : ValueOption) (args : List String) :
    v.clearMandatory.CanPopulate args = v.CanPopulate args := by
  unfold ValueOption.CanPopulate
  have h : v.clearMandatory.toCmdOption = v.toCmdOption.clearMandatory := rfl
  rw [h, CmdOption_canPopulate_clearMandatory]

theorem ValueOption_populate_clearMandatory (v : ValueOption) (args : List String) :
    v.clearMandatory.Populate args
      = ((v.Populate args).1, (v.Populate args).2.1.clearMandatory, (v.Populate args).2.2) := by
  unfold ValueOption.Populate
  rw [ValueOption_canPopulate_clearMandatory]
  by_cases h : v.CanPopulate args = true
  · simp only [h, if_true]
    rcases args with _ | ⟨a, _ | ⟨value, rest⟩⟩
    · rfl
    · rfl
    · cases hp : NameValuePair.new value with
      | error e => simp [hp, ValueOption.clearMandatory, CmdOption.clearMandatory]
      | ok pair =>
        simp [hp, ValueOption.clearMandatory, CmdOption.clearMandatory,
          OptionParam_populateFirstParam_clearMandatory]
  · simp only [h]
    rfl

theorem OptionPtr_canPopulate_clearMandatory (o : OptionPtr) (args : List String) :
    o.clearMandatory.CanPopulate args = o.CanPopulate args := by
  cases o with
  | option o => exact CmdOption_canPopulate_clearMandatory o args
  | valueOption v => exact ValueOption_canPopulate_clearMandatory v args

theorem OptionPtr_consumes_clearMandatory (o : OptionPtr) (args : List String) :
    o.clearMandatory.Consumes args = o.Consumes args := by
  cases o <;> rfl

theorem OptionPtr_populate_clearMandatory (o : OptionPtr) (args : List String) :
    o.clearMandatory.Populate args
      = ((o.Populate args).1, (o.Populate args).2.1.clearMandatory, (o.Populate args).2.2) := by
  cases o with
  | option o =>
    simp [OptionPtr.Populate, OptionPtr.clearMandatory, CmdOption_populate_clearMandatory]
  | valueOption v =>
    simp [OptionPtr.Populate, OptionPtr.clearMandatory, ValueOption_populate_clearMandatory]

theorem Parser_argsToConsume_clearMandatory (opts : List OptionPtr) (source : List String) :
    Parser.argsToConsume (opts.map OptionPtr.clearMandatory) source
      = Parser.argsToConsume opts source := by
  induction opts with
  | nil => rfl
  | cons o os ih =>
    unfold Parser.argsToConsume at ih ⊢
    simp only [List.map_cons, List.find?_cons, OptionPtr_canPopulate_clearMandatory]
    cases h : o.CanPopulate source with
    | true => simp [OptionPtr_consumes_clearMandatory]
    | false => simpa using ih

theorem Parser_moveOptionsLoop_clearMandatory_aux (opts : List OptionPtr) (n : Nat) :
    ∀ (rest : List String), rest.length ≤ n → ∀ (skipped queue : List String),
    Parser.MoveOptionsLoop (opts.map OptionPtr.clearMandatory) skipped rest queue
      = Parser.MoveOptionsLoop opts skipped rest queue := by
  induction n with
  | zero =>
    intro rest hlen skipped queue
    cases rest with
    | nil => simp [Parser.MoveOptionsLoop]
    | cons a r => simp at hlen
  | succ n ih =>
    intro rest hlen skipped queue
    cases rest with
    | nil => simp [Parser.MoveOptionsLoop]
    | cons a r =>
      have hr : r.length ≤ n := by simpa using hlen
      cases r with
      | nil =>
        simp only [Parser.MoveOptionsLoop, Parser_argsToConsume_clearMandatory]
      | cons b r2 =>
        have hr2 : r2.length ≤ n := by
          simp only [List.length_cons] at hr
          omega
        simp only [Parser.MoveOptionsLoop, Parser_argsToConsume_clearMandatory,
          ih (b :: r2) hr, ih r2 hr2]

theorem Parser_moveOptionsLoop_clearMandatory (opts : List OptionPtr)
    (skipped rest queue : List String) :
    Parser.MoveOptionsLoop (opts.map OptionPtr.clearMandatory) skipped rest queue
      = Parser.MoveOptionsLoop opts skipped rest queue :=
  Parser_moveOptionsLoop_clearMandatory_aux opts rest.length rest (Nat.le_refl _) skipped queue

theorem Parser_fillArgQueue_clearMandatory (P : Parser) :
    P.clearMandatory.FillArgQueue
      = P.FillArgQueue.map (fun r => (r.1, r.2.clearMandatory)) := by
  unfold Parser.FillArgQueue
  have hargs : P.clearMandatory.mArgs = P.mArgs := rfl
  rw [hargs]
  cases hA : P.mArgs with
  | nil => rfl
  | cons programArg workingArgQueue =>
    simp only [Parser.MoveOptionsToArgQueue]
    have hopts : P.clearMandatory.mOptions = P.mOptions.map OptionPtr.clearMandatory := rfl
    simp only [hopts, Parser_moveOptionsLoop_clearMandatory]
    cases hM : Parser.MoveOptionsLoop P.mOptions [] workingArgQueue [programArg] with
    | error e => rfl
    | ok r =>
      obtain ⟨st, source, queue⟩ := r
      cases st with
      | Failure => rfl
      | Success =>
        cases hm : P.mMultiPosParam with
        | none =>
          simp [Parser.clearMandatory, hm, Parser.MovePosArgsToArgQueue, Except.map]
        | some m =>
          have hord : (MultiPosParam.clearMandatory m).Order = m.Order := rfl
          by_cases ho : m.Order = ParsingOrder.AfterOptions
          · simp [Parser.clearMandatory, hm, ho, hord, Parser.ReverseMovePosArgsToArgQueue,
              Except.map]
          · simp [Parser.clearMandatory, hm, ho, hord, Parser.MovePosArgsToArgQueue,
              Except.map]

theorem Parser_fillArgParamVector_clearMandatory (P : Parser) :
    P.clearMandatory.FillArgParamVector = P.FillArgParamVector.clearMandatory := by
  cases hm : P.mMultiPosParam <;>
    simp [Parser.FillArgParamVector, Parser.clearMandatory, hm]

theorem Parser_canPopulate_clearMandatory (P : Parser) (p : ArgParamPtr) :
    P.clearMandatory.CanPopulate p = P.CanPopulate p := by
  cases p with
  | progParam => rfl
  | option i =>
    simp only [Parser.CanPopulate, Parser.clearMandatory, List.getElem?_map]
    cases P.mOptions[i]? with
    | none => rfl
    | some o => exact OptionPtr_canPopulate_clearMandatory o _
  | posParam i =>
    simp only [Parser.CanPopulate, Parser.clearMandatory, List.getElem?_map]
    cases P.mPosParams[i]? with
    | none => rfl
    | some o => rfl
  | multiPosParam =>
    simp only [Parser.CanPopulate, Parser.clearMandatory]
    cases P.mMultiPosParam with
    | none => rfl
    | some o => rfl

theorem Parser_populate_clearMandatory (P : Parser) (p : ArgParamPtr) :
    P.clearMandatory.Populate p = ((P.Populate p).1, (P.Populate p).2.clearMandatory) := by
  cases p with
  | progParam =>
    simp only [Parser.Populate, Parser.clearMandatory, ProgParam.Populate]
    have hc : P.mProgParam.clearMandatory.CanPopulate P.mArgQueue
        = P.mProgParam.CanPopulate P.mArgQueue := rfl
    rw [hc]
    split
    · cases P.mArgQueue <;> rfl
    · rfl
  | option i =>
    simp only [Parser.Populate, Parser.clearMandatory, List.getElem?_map]
    cases P.mOptions[i]? with
    | none => rfl
    | some o =>
      simp [OptionPtr_populate_clearMandatory, List.map_set]
  | posParam i =>
    simp only [Parser.Populate, Parser.clearMandatory, List.getElem?_map]
    cases P.mPosParams[i]? with
    | none => rfl
    | some o =>
      have hc : o.clearMandatory.CanPopulate P.mArgQueue = o.CanPopulate P.mArgQueue := rfl
      simp only [Option.map_some', PosParam.Populate, hc]
      split
      · cases P.mArgQueue <;> simp [List.map_set, PosParam.clearMandatory]
      · simp [List.map_set]
  | multiPosParam =>
    simp only [Parser.Populate, Parser.clearMandatory]
    cases hm : P.mMultiPosParam with
    | none => simp [hm]
    | some o =>
      have hc : o.clearMandatory.CanPopulate P.mArgQueue = o.CanPopulate P.mArgQueue := rfl
      simp only [Option.map_some', MultiPosParam.Populate, hc]
      split <;> simp [hm, MultiPosParam.clearMandatory]

theorem Parser_populateFirst_clearMandatory (P : Parser) (ps : List ArgParamPtr) :
    P.clearMandatory.PopulateFirst ps
      = ((P.PopulateFirst ps).1, (P.PopulateFirst ps).2.clearMandatory) := by
  induction ps with
  | nil => rfl
  | cons p ps ih =>
    simp only [Parser.PopulateFirst, Parser_canPopulate_clearMandatory]
    split
    · exact Parser_populate_clearMandatory P p
    · exact ih

theorem Parser_populateArgParamsLoop_clearMandatory (fuel : Nat) :
    ∀ (P : Parser), Parser.PopulateArgParamsLoop fuel P.clearMandatory
      = (Parser.PopulateArgParamsLoop fuel P).map (fun r => (r.1, r.2.clearMandatory)) := by
  induction fuel with
  | zero =>
    intro P
    have hq : P.clearMandatory.mArgQueue = P.mArgQueue := rfl
    unfold Parser.PopulateArgParamsLoop
    rw [hq]
    cases P.mArgQueue <;> rfl
  | succ fuel ih =>
    intro P
    have hq : P.clearMandatory.mArgQueue = P.mArgQueue := rfl
    have hp : P.clearMandatory.mArgParams = P.mArgParams := rfl
    unfold Parser.PopulateArgParamsLoop
    rw [hq]
    cases hQ : P.mArgQueue with
    | nil => rfl
    | cons a q =>
      simp only [hp, Parser_populateFirst_clearMandatory]
      have hq2 : (P.PopulateFirst P.mArgParams).2.clearMandatory.mArgQueue
          = (P.PopulateFirst P.mArgParams).2.mArgQueue := rfl
      rw [hq2]
      split
      · rfl
      · exact ih _

theorem Parser_parse_clearMandatory (P : Parser) :
    P.clearMandatory.Parse = P.Parse.map (fun r => (r.1, r.2.clearMandatory)) := by
  unfold Parser.Parse
  rw [Parser_fillArgQueue_clearMandatory]
  cases hF : P.FillArgQueue with
  | error e => rfl
  | ok r =>
    obtain ⟨st, P1⟩ := r
    cases st with
    | Failure => rfl
    | Success =>
      simp only [Except.map, Parser.PopulateArgParams, Parser_fillArgParamVector_clearMandatory]
      have hq : P1.FillArgParamVector.clearMandatory.mArgQueue
          = P1.FillArgParamVector.mArgQueue := rfl
      rw [hq, Parser_populateArgParamsLoop_clearMandatory]
      rfl

/-- Claim C8: Parse does not depend on the mandatory flags. Two Parsers that
are the same once every mandatory flag is cleared (same arguments, same
registered parameters in the same order and state) give the same outcome of
Parse: the same Status, and Parsers afterwards that again differ in nothing
but the mandatory flags, so with the same specified flags and values. -/
theorem Parse_independent_of_mandatory (P Q : Parser)
    (h : P.clearMandatory = Q.clearMandatory) :
    P.Parse.map (fun r => (r.1, r.2.clearMandatory))
      = Q.Parse.map (fun r => (r.1, r.2.clearMandatory)) := by
  rw [← Parser_parse_clearMandatory, ← Parser_parse_clearMandatory, h]

/-- Witness of C8: the namelookup Parser for [namelookup, -v] with the
mandatory PosParam hostname and the same Parser with hostname optional; Parse
returns Success on the first although hostname stays unspecified. -/
theorem Parse_independent_of_mandatory_witness :
    nameLookupParser ["namelookup", "-v"]
      = Except.ok (nameLookupParserState true ["namelookup", "-v"])
    ∧ (nameLookupParserState true ["namelookup", "-v"]).Parse.map
        (fun r => (r.1, r.2.optionsSpecified, r.2.posSpecified))
      = Except.ok (Status.Success, [false, true], [false])
    ∧ (nameLookupParserState true ["namelookup", "-v"]).Parse.map
        (fun r => (r.1, r.2.clearMandatory))
      = (nameLookupParserState false ["namelookup", "-v"]).Parse.map
        (fun r => (r.1, r.2.clearMandatory)) :=
  ⟨by decide, by decide,
   Parse_independent_of_mandatory (nameLookupParserState true ["namelookup", "-v"])
     (nameLookupParserState false ["namelookup", "-v"]) (by decide)⟩

/-- Option.cpp, Populate in the terms of the code: it returns true exactly
when the queue is not empty and its front token is PrefixShortName() or
PrefixLongName() of the option, the latter being the empty string for an
option without a long name; then exactly the front token is removed and the
option is specified (nothing else of it changes); when it returns false the
option and the queue are unchanged. -/
theorem Option_Populate_iff_front_matches (o : CmdOption) (args : List String) :
    ((o.Populate args).1 = true ↔
      ∃ a rest, args = a :: rest ∧ (a = o.PrefixShortName ∨ a = o.PrefixLongName))
    ∧ ((o.Populate args).1 = true →
      ∃ a rest, args = a :: rest ∧ (o.Populate args).2.2 = rest
        ∧ (o.Populate args).2.1.mIsSpecified = true
        ∧ (o.Populate args).2.1.mDefinition = o.mDefinition)
    ∧ ((o.Populate args).1 = false →
      (o.Populate args).2.1 = o ∧ (o.Populate args).2.2 = args) := by
  cases args with
  | nil => simp [CmdOption.Populate, CmdOption.CanPopulate]
  | cons a rest =>
    by_cases h : a = o.PrefixShortName ∨ a = o.PrefixLongName
    · simp [CmdOption.Populate, CmdOption.CanPopulate, h]
    · simp [CmdOption.Populate, CmdOption.CanPopulate, h]

/-- The Option -v, --verbose on the queue [-v, x]. -/
theorem Option_Populate_iff_front_matches_witness :
    (CmdOption.Populate { mDefinition := verboseDef } ["-v", "x"]).1 = true
    ∧ ∃ a rest, ["-v", "x"] = a :: rest
        ∧ (CmdOption.Populate { mDefinition := verboseDef } ["-v", "x"]).2.2 = rest
        ∧ (CmdOption.Populate { mDefinition := verboseDef } ["-v", "x"]).2.1.mIsSpecified = true
        ∧ (CmdOption.Populate { mDefinition := verboseDef } ["-v", "x"]).2.1.mDefinition
            = verboseDef :=
  ⟨by decide,
   (Option_Populate_iff_front_matches { mDefinition := verboseDef } ["-v", "x"]).2.1 (by decide)⟩

/-- Claim C9, the code at the failing input: the Option -v defined with a
short name only is populated by the queue whose front is the empty token,
which is neither its prefixed short name -v nor a prefixed long name (it has
no long name): Populate returns true, removes the empty token and marks the
option specified, because PrefixLongName() is the empty string for such an
option. Parse of [prog, empty token] with the short-only Option -? registered
returns Success with -? specified. An option that has a long name refuses the
empty token and is left unchanged. -/
theorem Option_Populate_empty_token :
    CmdOption.new { shortName := 'v' }
      = Except.ok { mDefinition := { shortName := 'v' } }
    ∧ CmdOption.PrefixShortName { mDefinition := { shortName := 'v' } } = "-v"
    ∧ OptionDefinition.longName { shortName := 'v' } = ""
    ∧ CmdOption.PrefixLongName { mDefinition := { shortName := 'v' } } = ""
    ∧ CmdOption.Populate { mDefinition := { shortName := 'v' } } ["", "x"]
      = (true, { mDefinition := { shortName := 'v' }, mIsSpecified := true }, ["x"])
    ∧ ((questionParser ["prog", ""]).bind Parser.Parse).map
        (fun r => (r.1, r.2.optionsSpecified, r.2.mArgQueue))
      = Except.ok (Status.Success, [false, true, false], [])
    ∧ CmdOption.Populate { mDefinition := verboseDef } ["", "x"]
      = (false, { mDefinition := verboseDef }, ["", "x"])
    ∧ CmdOption.Populate { mDefinition := verboseDef } ["-v", "x"]
      = (true, { mDefinition := verboseDef, mIsSpecified := true }, ["x"]) := by
  refine ⟨by decide, by decide, rfl, by decide, by decide, by decide, by decide, by decide⟩

/-- Claim C10: Option.Populate on an already specified Option whose prefixed
short or long name is the front token returns true, removes exactly that token
and leaves the option as it is, specified; and Parse of [prog, -v, -v] with
the Option -v registered returns Success with -v specified. -/
theorem Option_Populate_repeated_flag :
    (∀ (o : CmdOption) (a : String) (rest : List String),
      o.mIsSpecified = true → (a = o.PrefixShortName ∨ a = o.PrefixLongName) →
      o.Populate (a :: rest) = (true, o, rest))
    ∧ ((flagParser ["prog", "-v", "-v"]).bind Parser.Parse).map
        (fun r => (r.1, r.2.optionsSpecified, r.2.mArgQueue))
      = Except.ok (Status.Success, [false, true], []) := by
  refine ⟨?_, by decide⟩
  intro o a rest hs hm
  cases o with
  | mk d sp =>
    simp only at hs
    subst hs
    simp [CmdOption.Populate, CmdOption.CanPopulate, hm]

/-- Witness of C10 at the specified Option -v and the queue [-v, -v]. -/
theorem Option_Populate_repeated_flag_witness :
    CmdOption.Populate { mDefinition := verboseDef, mIsSpecified := true } ["-v", "-v"]
      = (true, { mDefinition := verboseDef, mIsSpecified := true }, ["-v"]) :=
  Option_Populate_repeated_flag.1 { mDefinition := verboseDef, mIsSpecified := true } "-v" ["-v"]
    rfl (Or.inl (by decide))

/-! ### The style of an option -/

/-- ValueOption.cpp, CanPopulate in the terms of the code: it is true exactly
when the front token is PrefixShortName() or PrefixLongName() of the option,
the latter being the empty string for an option without a long name, and the
queue holds at least 2 tokens; Consumes is 2 for every queue. -/
theorem ValueOption_CanPopulate_iff (v : ValueOption) (args : List String) :
    (v.CanPopulate args = true ↔
      (∃ a rest, args = a :: rest
        ∧ (a = v.toCmdOption.PrefixShortName ∨ a = v.toCmdOption.PrefixLongName))
      ∧ 2 ≤ args.length)
    ∧ v.Consumes args = 2 := by
  refine ⟨?_, rfl⟩
  rcases args with _ | ⟨a, _ | ⟨b, rest⟩⟩
  · simp [ValueOption.CanPopulate, CmdOption.CanPopulate]
  · simp [ValueOption.CanPopulate, CmdOption.CanPopulate]
  · simp [ValueOption.CanPopulate, CmdOption.CanPopulate]

/-- Claim C12, the code at the failing input: the ValueOption -p defined with
a short name only answers CanPopulate with true on the queue [empty token, x],
whose front token is neither its prefixed short name -p nor a prefixed long
name (it has no long name), and Populate takes x as its value; the empty
PrefixLongName() of such an option equals the empty token. A ValueOption that
has a long name refuses that queue. Consumes is 2, also on queues with fewer
than 2 tokens. -/
theorem ValueOption_CanPopulate_empty_token :
    ValueOption.new { shortName := 'p' }
      = Except.ok { mDefinition := { shortName := 'p' } }
    ∧ CmdOption.PrefixShortName { mDefinition := { shortName := 'p' } } = "-p"
    ∧ OptionDefinition.longName { shortName := 'p' } = ""
    ∧ CmdOption.PrefixLongName { mDefinition := { shortName := 'p' } } = ""
    ∧ ValueOption.CanPopulate { mDefinition := { shortName := 'p' } } ["", "x"] = true
    ∧ ValueOption.Populate { mDefinition := { shortName := 'p' } } ["", "x"]
      = (true, { mDefinition := { shortName := 'p' }, mIsSpecified := true, mValues := ["x"] }, [])
    ∧ ValueOption.CanPopulate { mDefinition := { shortName := 'p', longName := "print" } }
        ["", "x"] = false
    ∧ ValueOption.CanPopulate { mDefinition := { shortName := 'p', longName := "print" } }
        ["-p", "x"] = true
    ∧ ValueOption.CanPopulate { mDefinition := { shortName := 'p', longName := "print" } }
        ["-p"] = false
    ∧ ValueOption.Consumes { mDefinition := { shortName := 'p' } } [] = 2
    ∧ ValueOption.Consumes { mDefinition := { shortName := 'p' } } ["-p"] = 2 := by
  refine ⟨by decide, by decide, rfl, by decide, by decide, by decide, by decide, by decide,
    by decide, rfl, rfl⟩

theorem ValueOption_populate_of_canPopulate (v : ValueOption) (t0 value : String)
    (rest : List String) (h : v.CanPopulate (t0 :: value :: rest) = true) :
    v.Populate (t0 :: value :: rest)
      = (true,
         { v with mIsSpecified := true, mValues := v.mValues ++ [value],
                  mParams :=
                    match NameValuePair.new value with
                    | Except.ok pair => ValueOption.populateFirstParam pair v.mParams
                    | Except.error _ => v.mParams },
         rest) := by
  unfold ValueOption.Populate
  simp only [h, if_true]
  cases hp : NameValuePair.new value <;> simp

theorem ValueOption_canPopulate_of_populate (v : ValueOption) (args : List String)
    (h : (v.Populate args).1 = true) : v.CanPopulate args = true := by
  unfold ValueOption.Populate at h
  by_cases hc : v.CanPopulate args = true
  · exact hc
  · simp [hc] at h

theorem ValueOption_populateAll_values (steps : List (String × String × List String)) :
    ∀ (v : ValueOption),
      (∀ b ∈ (v.PopulateAll (steps.map (fun s => s.1 :: s.2.1 :: s.2.2))).1, b = true) →
      (v.PopulateAll (steps.map (fun s => s.1 :: s.2.1 :: s.2.2))).2.mValues
        = v.mValues ++ steps.map (fun s => s.2.1) := by
  induction steps with
  | nil => intro v _; simp [ValueOption.PopulateAll]
  | cons s steps ih =>
    intro v hall
    simp only [List.map_cons, ValueOption.PopulateAll] at hall ⊢
    have h1 : (v.Populate (s.1 :: s.2.1 :: s.2.2)).1 = true :=
      hall _ (List.mem_cons_self _ _)
    have hc := ValueOption_canPopulate_of_populate v _ h1
    have hp := ValueOption_populate_of_canPopulate v s.1 s.2.1 s.2.2 hc
    rw [ih _ (fun b hb => hall b (List.mem_cons_of_mem _ hb))]
    rw [hp]
    simp

/-- Claim C13: whenever ValueOption.Populate returns true on a queue
t0 :: v :: rest, the queue becomes rest, the option is specified and its values
are the previous values with v appended at the end; so n successful
populations, on queues with the values v1..vn in second place, leave the values
of the option as the previous values followed by v1, ..., vn. -/
theorem ValueOption_values_accumulate :
    (∀ (v : ValueOption) (t0 value : String) (rest : List String),
      (v.Populate (t0 :: value :: rest)).1 = true →
      (v.Populate (t0 :: value :: rest)).2.2 = rest
        ∧ (v.Populate (t0 :: value :: rest)).2.1.mIsSpecified = true
        ∧ (v.Populate (t0 :: value :: rest)).2.1.mValues = v.mValues ++ [value])
    ∧ (∀ (v : ValueOption) (steps : List (String × String × List String)),
      (∀ b ∈ (v.PopulateAll (steps.map (fun s => s.1 :: s.2.1 :: s.2.2))).1, b = true) →
      (v.PopulateAll (steps.map (fun s => s.1 :: s.2.1 :: s.2.2))).2.mValues
        = v.mValues ++ steps.map (fun s => s.2.1)) := by
  refine ⟨?_, fun v steps => ValueOption_populateAll_values steps v⟩
  intro v t0 value rest h
  have hc := ValueOption_canPopulate_of_populate v _ h
  rw [ValueOption_populate_of_canPopulate v t0 value rest hc]
  exact ⟨rfl, rfl, rfl⟩

/-- Witness of C13: the ValueOption -e, --edit populated from --edit
album=Testing the Testers and then from -e artist=The Testers. -/
theorem ValueOption_values_accumulate_witness :
    editOption = Except.ok editOptionState
    ∧ ((editOptionState.Populate
          ["--edit", "album=Testing the Testers", "-e", "artist=The Testers"]).2.2
        = ["-e", "artist=The Testers"]
      ∧ (editOptionState.Populate
          ["--edit", "album=Testing the Testers", "-e", "artist=The Testers"]).2.1.mIsSpecified
        = true
      ∧ (editOptionState.Populate
          ["--edit", "album=Testing the Testers", "-e", "artist=The Testers"]).2.1.mValues
        = [] ++ ["album=Testing the Testers"])
    ∧ (editOptionState.PopulateAll
        ([("--edit", "album=Testing the Testers", ["-e", "artist=The Testers"]),
          ("-e", "artist=The Testers", [])].map (fun s => s.1 :: s.2.1 :: s.2.2))).2.mValues
      = [] ++ [("--edit", "album=Testing the Testers", ["-e", "artist=The Testers"]),
          ("-e", "artist=The Testers", [])].map (fun s => s.2.1) :=
  ⟨by decide,
   ValueOption_values_accumulate.1 editOptionState "--edit" "album=Testing the Testers"
     ["-e", "artist=The Testers"] (by decide),
   ValueOption_values_accumulate.2 editOptionState
     [("--edit", "album=Testing the Testers", ["-e", "artist=The Testers"]),
      ("-e", "artist=The Testers", [])] (by decide)⟩

theorem populateFirstParam_first (pair : NameValuePair) (pre post : List OptionParam)
    (c : OptionParam) (hpre : ∀ d ∈ pre, d.mDefinition.name ≠ pair.mName)
    (hc : c.mDefinition.name = pair.mName) :
    ValueOption.populateFirstParam pair (pre ++ c :: post)
      = pre ++ { c with mValue := pair.mValue, mIsSpecified := true } :: post := by
  induction pre with
  | nil =>
    simp [ValueOption.populateFirstParam, OptionParam.CanPopulate, OptionParam.Populate, hc]
  | cons a pre ih =>
    have ha : ¬ pair.mName = a.mDefinition.name :=
      fun h => hpre a (List.mem_cons_self _ _) h.symm
    have ih2 := ih (fun d hd => hpre d (List.mem_cons_of_mem _ hd))
    simp [ValueOption.populateFirstParam, OptionParam.CanPopulate, ha, ih2]

theorem populateFirstParam_none (pair : NameValuePair) (ps : List OptionParam)
    (h : ∀ d ∈ ps, d.mDefinition.name ≠ pair.mName) :
    ValueOption.populateFirstParam pair ps = ps := by
  induction ps with
  | nil => rfl
  | cons a ps ih =>
    have ha : ¬ pair.mName = a.mDefinition.name :=
      fun h2 => h a (List.mem_cons_self _ _) h2.symm
    simp [ValueOption.populateFirstParam, OptionParam.CanPopulate, ha,
      ih (fun d hd => h d (List.mem_cons_of_mem _ hd))]

/-- Claim C14: when the queue t0 :: v :: rest can populate a ValueOption,
Populate returns true and appends v to the values. If v parses as a
NameValuePair and a child has the name of the pair (the first such child, the
only one when the names are unique as `Add` keeps them), that child becomes
specified with the value of the pair and every other child is unchanged. If v
is no valid NameValuePair, or no child has the name of the pair, no child
changes. -/
theorem ValueOption_Populate_children (v : ValueOption) (t0 value : String)
    (rest : List String) (hcan : v.CanPopulate (t0 :: value :: rest) = true) :
    (v.Populate (t0 :: value :: rest)).1 = true
    ∧ (v.Populate (t0 :: value :: rest)).2.1.mValues = v.mValues ++ [value]
    ∧ (∀ (pair : NameValuePair) (pre post : List OptionParam) (c : OptionParam),
        NameValuePair.new value = Except.ok pair →
        v.mParams = pre ++ c :: post →
        (∀ d ∈ pre, d.mDefinition.name ≠ pair.mName) →
        c.mDefinition.name = pair.mName →
        (v.Populate (t0 :: value :: rest)).2.1.mParams
          = pre ++ { c with mValue := pair.mValue, mIsSpecified := true } :: post)
    ∧ ((∀ (pair : NameValuePair), NameValuePair.new value = Except.ok pair →
          ∀ d ∈ v.mParams, d.mDefinition.name ≠ pair.mName) →
        (v.Populate (t0 :: value :: rest)).2.1.mParams = v.mParams) := by
  rw [ValueOption_populate_of_canPopulate v t0 value rest hcan]
  refine ⟨rfl, rfl, ?_, ?_⟩
  · intro pair pre post c hp hv hpre hc
    simp only [hp, hv]
    exact populateFirstParam_first pair pre post c hpre hc
  · intro h
    cases hp : NameValuePair.new value with
    | error e => rfl
    | ok pair =>
      simp only
      exact populateFirstParam_none pair v.mParams (h pair hp)

/-- Witness of C14: the ValueOption -p, --print on
-p Is,valid,value,but,not,valid,name, a value that is no NameValuePair, and
the ValueOption -e, --edit on --edit album=Testing the Testers, where the
child album takes the value Testing the Testers. -/
theorem ValueOption_Populate_children_witness :
    printOption = Except.ok printOptionState
    ∧ (printOptionState.Populate ["-p", "Is,valid,value,but,not,valid,name"]).1 = true
    ∧ (printOptionState.Populate ["-p", "Is,valid,value,but,not,valid,name"]).2.1.mValues
        = [] ++ ["Is,valid,value,but,not,valid,name"]
    ∧ (printOptionState.Populate ["-p", "Is,valid,value,but,not,valid,name"]).2.1.mParams
        = [songParam, artistParam, albumParam]
    ∧ (editOptionState.Populate ["--edit", "album=Testing the Testers"]).2.1.mParams
        = [songParam, artistParam]
          ++ { albumParam with mValue := "Testing the Testers", mIsSpecified := true } :: [] :=
  ⟨by decide,
   (ValueOption_Populate_children printOptionState "-p" "Is,valid,value,but,not,valid,name" []
      (by decide)).1,
   (ValueOption_Populate_children printOptionState "-p" "Is,valid,value,but,not,valid,name" []
      (by decide)).2.1,
   (ValueOption_Populate_children printOptionState "-p" "Is,valid,value,but,not,valid,name" []
      (by decide)).2.2.2
      (by
        intro pair hp
        have h0 : NameValuePair.new "Is,valid,value,but,not,valid,name"
            = Except.error Error.InvalidPair := by decide
        rw [h0] at hp
        cases hp),
   (ValueOption_Populate_children editOptionState "--edit" "album=Testing the Testers" []
      (by decide)).2.2.1
      { mName := "album", mValue := "Testing the Testers" } [songParam, artistParam] []
      albumParam (by decide) rfl (by decide) rfl⟩

/-! ### NameValuePair -/

/-- Claim C15, the code at the failing input: for the token album=a=b the
constructor stores the value a, the text between the first and the second `=`,
not the whole text a=b after the first `=`; on the tokens of
NameValuePairTests it gives (album, Testing the Testers) and (song, empty). -/
theorem NameValuePair_value_stops_at_second_eq :
    NameValuePair.new "album=a=b" = Except.ok { mName := "album", mValue := "a" }
    ∧ textAfterEq "album=a=b" = "a=b"
    ∧ NameValuePair.new "album=Testing the Testers"
      = Except.ok { mName := "album", mValue := "Testing the Testers" }
    ∧ NameValuePair.new "song" = Except.ok { mName := "song", mValue := "" } := by
  decide

theorem getline_fst (l : List Char) (delim : Char) :
    (getline l delim).1 = l.takeWhile (fun c => c != delim) := by
  induction l with
  | nil => rfl
  | cons c cs ih =>
    by_cases h : c = delim
    · simp [getline, h]
    · simp [getline, h, ih]

theorem takeWhile_ne_of_not_contains (l : List Char) (delim : Char)
    (h : l.contains delim = false) : l.takeWhile (fun c => c != delim) = l := by
  induction l with
  | nil => rfl
  | cons c cs ih =>
    simp only [List.contains_cons, Bool.or_eq_false_iff] at h
    have hc : c ≠ delim := by
      intro heq
      have := h.1
      simp [heq] at this
    simp [hc, ih h.2]

theorem IsNameValuePair_eq (token : String) :
    IsNameValuePair token
      = (decide (token ≠ "") && IsValidNonOptionName (textBeforeEq token)) := by
  obtain ⟨l⟩ := token
  have hlen : (String.mk l).length = l.length := rfl
  unfold IsNameValuePair textBeforeEq
  simp only [hlen, getline_fst]
  cases l with
  | nil => rfl
  | cons a l =>
    have hne : (String.mk (a :: l)) ≠ "" := by
      intro h
      have := congrArg String.data h
      simp at this
    have hdec : decide (String.mk (a :: l) ≠ "") = true := decide_eq_true hne
    rw [hdec, Bool.true_and]
    simp only [List.length_cons, Nat.succ_ne_zero, if_false]
    by_cases hc : (a :: l).contains '=' = true
    · rw [if_pos hc]
      cases IsValidNonOptionName (String.mk (List.takeWhile (fun c => c != '=') (a :: l))) <;> rfl
    · rw [if_neg hc]
      simp only [Bool.not_eq_true] at hc
      rw [takeWhile_ne_of_not_contains (a :: l) '=' hc]
      cases IsValidNonOptionName (String.mk (a :: l)) <;> rfl

/-- Claim C16: the NameValuePair constructor throws InvalidPair exactly when
the token is empty or the text before its first `=` (the whole token when it
has none) is no legal parameter name; it throws nothing else; and
IsNameValuePair is true exactly when the constructor does not throw. The
tokens of the tests, the empty one and =value, are rejected. -/
theorem NameValuePair_new_throws_iff (token : String) :
    (NameValuePair.new token = Except.error Error.InvalidPair ↔
      token = "" ∨ IsValidNonOptionName (textBeforeEq token) = false)
    ∧ ((∃ pair, NameValuePair.new token = Except.ok pair)
        ∨ NameValuePair.new token = Except.error Error.InvalidPair)
    ∧ (IsNameValuePair token = true ↔ ∃ pair, NameValuePair.new token = Except.ok pair)
    ∧ NameValuePair.new "" = Except.error Error.InvalidPair
    ∧ NameValuePair.new "=value" = Except.error Error.InvalidPair := by
  have hnew : NameValuePair.new token
      = if IsNameValuePair token = true then
          (if token.data.contains '=' then
            Except.ok { mName := String.mk (getline token.data '=').1,
                        mValue := String.mk (getline (getline token.data '=').2 '=').1 }
           else Except.ok { mName := token, mValue := "" })
        else Except.error Error.InvalidPair := by
    unfold NameValuePair.new
    cases h : IsNameValuePair token <;> simp
  refine ⟨?_, ?_, ?_, by decide, by decide⟩
  · rw [hnew, IsNameValuePair_eq]
    by_cases h1 : token = ""
    · simp [h1]
    · cases h2 : IsValidNonOptionName (textBeforeEq token) with
      | false => simp [h1]
      | true =>
        simp only [h1, h2, ne_eq, not_false_eq_true, decide_True, Bool.and_self, if_true]
        split <;> simp
  · rw [hnew]
    cases h : IsNameValuePair token with
    | false => right; simp
    | true =>
      left
      simp only [if_true]
      split
      · exact ⟨_, rfl⟩
      · exact ⟨_, rfl⟩
  · rw [hnew]
    cases h : IsNameValuePair token with
    | false => simp
    | true =>
      simp only [if_true, true_iff]
      split
      · exact ⟨_, rfl⟩
      · exact ⟨_, rfl⟩

/-! ### Validation.cpp and IsOption -/

theorem uint32_le_iff (a b : UInt32) : a ≤ b ↔ a.toNat ≤ b.toNat := by
  rw [UInt32.le_def, BitVec.le_def]
  rfl

theorem isalnum_eq_isAsciiLetterOrDigit (c : Char) : isalnum c = isAsciiLetterOrDigit c := by
  simp only [isalnum, isAsciiLetterOrDigit, Char.isAlphanum, Char.isAlpha, Char.isUpper,
    Char.isLower, Char.isDigit, Char.toNat, GE.ge, uint32_le_iff]
  have h1 : (65 : UInt32).toNat = 65 := rfl
  have h2 : (90 : UInt32).toNat = 90 := rfl
  have h3 : (97 : UInt32).toNat = 97 := rfl
  have h4 : (122 : UInt32).toNat = 122 := rfl
  have h5 : (48 : UInt32).toNat = 48 := rfl
  have h6 : (57 : UInt32).toNat = 57 := rfl
  rw [h1, h2, h3, h4, h5, h6]

/-- Claim C17: IsValidNonOptionName is defined for every string, and it is
true exactly when the string has between 1 and 20 characters, every character
is an ASCII letter, an ASCII digit, `-` or `_`, and the string starts neither
with `-` nor with `/`. -/
theorem IsValidNonOptionName_iff (s : String) :
    IsValidNonOptionName s = true ↔
      1 ≤ s.length ∧ s.length ≤ 20
      ∧ (∀ c ∈ s.data, isAsciiLetterOrDigit c = true ∨ c = '-' ∨ c = '_')
      ∧ s.data.head? ≠ some '-' ∧ s.data.head? ≠ some '/' := by
  obtain ⟨l⟩ := s
  have hlen : (String.mk l).length = l.length := rfl
  simp only [IsValidNonOptionName, rfindAtZero, minNameSize, maxNameSize, hlen,
    unixOptionShortPrefix, unixOptionLongPrefix, windowsOptionShortPrefix,
    windowsOptionLongPrefix, isalnum_eq_isAsciiLetterOrDigit]
  cases l with
  | nil => simp
  | cons a l =>
    by_cases hlen2 : l.length + 1 ≤ 20
    · by_cases hall : ∀ c ∈ a :: l, isAsciiLetterOrDigit c = true ∨ c = '-' ∨ c = '_'
      · have hany : (a :: l).any (fun c => !isAsciiLetterOrDigit c && c != '-' && c != '_')
            = false := by
          rw [List.any_eq_false]
          intro c hc
          rcases hall c hc with h | h | h <;> simp [h]
        by_cases ha : a = '-'
        · simp [ha, hany]
        · by_cases hb : a = '/'
          · simp [hb, hany]
          · simp [hlen2, hany, ha, hb, hall, List.isPrefixOf]
            have hall2 := List.forall_mem_cons.mp hall
            constructor
            · intro _
              refine ⟨?_, hall2.2⟩
              rcases hall2.1 with h | h | h
              · exact Or.inl h
              · exact absurd h ha
              · exact Or.inr h
            · intro _
              exact ⟨fun h => ha h.symm, Or.inl (fun h => ha h.symm), fun h => hb h.symm⟩
      · have hany : (a :: l).any (fun c => !isAsciiLetterOrDigit c && c != '-' && c != '_')
            = true := by
          rw [List.any_eq_true]
          simp only [not_forall] at hall
          obtain ⟨c, hc, hn⟩ := hall
          refine ⟨c, hc, ?_⟩
          simp only [not_or] at hn
          simp [hn.1, hn.2.1, hn.2.2]
        simp only [hany]
        simp [hall]
        intro _ h2 h3
        refine absurd ?_ hall
        intro c hc
        rcases List.mem_cons.mp hc with h | h
        · rw [h]; exact h2
        · exact h3 c h
    · simp [hlen2]

/-- Claim C18, the code at the failing input: IsOption is true for //tmp, /-v
and -/v, although none of them is one of the prefixes -, -- or / followed by a
legal parameter name (after their only prefix what is left is /tmp, -v or /v,
no legal name): IsOption removes a second prefix character whatever the first
one was. On the tokens of OptionTests.DetectsOptionArguemntsProperly it
answers as the claim says. -/
theorem IsOption_two_prefix_characters :
    IsOption "//tmp" = true ∧ IsOption "/-v" = true ∧ IsOption "-/v" = true
    ∧ IsValidNonOptionName "/tmp" = false ∧ IsValidNonOptionName "-v" = false
    ∧ IsValidNonOptionName "/v" = false
    ∧ rfindAtZero "//tmp" "-" = false ∧ rfindAtZero "/-v" "-" = false
    ∧ rfindAtZero "-/v" "/" = false ∧ rfindAtZero "-/v" "--" = false
    ∧ IsOption "-p" = true ∧ IsOption "--print" = true ∧ IsOption "/p" = true
    ∧ IsOption "/print" = true ∧ IsOption "test_pattern" = false
    ∧ IsOption "/tmp/test/file" = false := by
  decide

/-! ### PosParam and MultiPosParam -/

/-- PosParam.cpp, Populate in the terms of the code: it returns true exactly
when the PosParam is not yet specified, the queue is not empty and IsOption is
false for its front token; then exactly the front token is removed, it becomes
the value and the PosParam is specified; when it returns false the PosParam
and the queue are unchanged. After a successful Populate every further
Populate returns false and changes nothing, so the first value is kept. -/
theorem PosParam_Populate_iff (p : PosParam) (args : List String) :
    ((p.Populate args).1 = true ↔
      p.mIsSpecified = false ∧ ∃ a rest, args = a :: rest ∧ IsOption a = false)
    ∧ ((p.Populate args).1 = true →
      ∃ a rest, args = a :: rest ∧ (p.Populate args).2.2 = rest
        ∧ (p.Populate args).2.1 = { p with mValue := a, mIsSpecified := true })
    ∧ ((p.Populate args).1 = false →
      (p.Populate args).2.1 = p ∧ (p.Populate args).2.2 = args)
    ∧ ((p.Populate args).1 = true → ∀ (args2 : List String),
      (p.Populate args).2.1.Populate args2 = (false, (p.Populate args).2.1, args2)) := by
  cases hs : p.mIsSpecified with
  | true => simp [PosParam.Populate, PosParam.CanPopulate, hs]
  | false =>
    cases args with
    | nil => simp [PosParam.Populate, PosParam.CanPopulate, hs]
    | cons a rest =>
      cases ho : IsOption a with
      | true => simp [PosParam.Populate, PosParam.CanPopulate, hs, ho]
      | false =>
        simp [PosParam.Populate, PosParam.CanPopulate, hs, ho]
        exact ⟨a, rest, ⟨rfl, rfl⟩, rfl, rfl⟩

/-- The PosParam pattern on [test_pattern, FileToSearch1.txt], and a second
Populate on the rest. -/
theorem PosParam_Populate_iff_witness :
    (∃ a rest, ["test_pattern", "FileToSearch1.txt"] = a :: rest
      ∧ (PosParam.Populate { mDefinition := { name := "pattern" } }
          ["test_pattern", "FileToSearch1.txt"]).2.2 = rest
      ∧ (PosParam.Populate { mDefinition := { name := "pattern" } }
          ["test_pattern", "FileToSearch1.txt"]).2.1
        = { mDefinition := { name := "pattern" }, mValue := a, mIsSpecified := true })
    ∧ PosParam.Populate
        (PosParam.Populate { mDefinition := { name := "pattern" } }
          ["test_pattern", "FileToSearch1.txt"]).2.1 ["FileToSearch1.txt"]
      = (false, { mDefinition := { name := "pattern" }, mValue := "test_pattern",
                  mIsSpecified := true }, ["FileToSearch1.txt"]) :=
  ⟨(PosParam_Populate_iff { mDefinition := { name := "pattern" } }
      ["test_pattern", "FileToSearch1.txt"]).2.1 (by decide),
   (PosParam_Populate_iff { mDefinition := { name := "pattern" } }
      ["test_pattern", "FileToSearch1.txt"]).2.2.2 (by decide) ["FileToSearch1.txt"]⟩

/-- Claim C19, the code at the failing input: the token //tmp is not
option-shaped (it is none of the prefixes -, -- or / followed by a legal
parameter name), yet the PosParam path, not specified, refuses the queue
[//tmp]: Populate returns false and leaves the PosParam and the queue
unchanged, because IsOption of the code is true for //tmp. On /tmp/test/file
and on test_pattern, where IsOption and the specification agree, Populate
takes the token, and a second Populate returns false and keeps the value. -/
theorem PosParam_Populate_refuses_double_slash :
    optionShaped "//tmp" = false ∧ IsOption "//tmp" = true
    ∧ PosParam.new { name := "path" } = Except.ok { mDefinition := { name := "path" } }
    ∧ PosParam.Populate { mDefinition := { name := "path" } } ["//tmp"]
      = (false, { mDefinition := { name := "path" } }, ["//tmp"])
    ∧ optionShaped "/tmp/test/file" = false
    ∧ PosParam.Populate { mDefinition := { name := "path" } } ["/tmp/test/file"]
      = (true, { mDefinition := { name := "path" }, mValue := "/tmp/test/file",
                 mIsSpecified := true }, [])
    ∧ optionShaped "test_pattern" = false
    ∧ PosParam.Populate { mDefinition := { name := "path" } } ["test_pattern", "x"]
      = (true, { mDefinition := { name := "path" }, mValue := "test_pattern",
                 mIsSpecified := true }, ["x"])
    ∧ PosParam.Populate { mDefinition := { name := "path" }, mValue := "test_pattern",
                          mIsSpecified := true } ["x"]
      = (false, { mDefinition := { name := "path" }, mValue := "test_pattern",
                  mIsSpecified := true }, ["x"])
    ∧ optionShaped "-v" = true
    ∧ PosParam.Populate { mDefinition := { name := "path" } } ["-v"]
      = (false, { mDefinition := { name := "path" } }, ["-v"]) := by
  refine ⟨by decide, by decide, by decide, by decide, by decide, by decide, by decide,
    by decide, by decide, by decide, by decide⟩

/-- MultiPosParam.cpp, Populate in the terms of the code: it returns true
exactly when the queue is not empty and IsOption is false for every token of
it; then the values are the previous values followed by all tokens of the
queue in order, the queue is empty and the parameter is specified; when it
returns false, as on every queue with a token for which IsOption is true, the
parameter and the queue are unchanged. -/
theorem MultiPosParam_Populate_iff (m : MultiPosParam) (args : List String) :
    ((m.Populate args).1 = true ↔ args ≠ [] ∧ ∀ t ∈ args, IsOption t = false)
    ∧ ((m.Populate args).1 = true →
      (m.Populate args).2.2 = []
        ∧ (m.Populate args).2.1 = { m with mIsSpecified := true, mValues := m.mValues ++ args })
    ∧ ((m.Populate args).1 = false →
      (m.Populate args).2.1 = m ∧ (m.Populate args).2.2 = args)
    ∧ (∀ (pre post : List String) (t : String), IsOption t = true →
      m.Populate (pre ++ t :: post) = (false, m, pre ++ t :: post)) := by
  have hcan : ∀ (q : List String),
      m.CanPopulate q = true ↔ q ≠ [] ∧ ∀ t ∈ q, IsOption t = false := by
    intro q
    cases q with
    | nil => simp [MultiPosParam.CanPopulate]
    | cons a rest =>
      simp only [MultiPosParam.CanPopulate, List.length_cons, Nat.succ_ne_zero, if_false]
      by_cases hany : (a :: rest).any IsOption = true
      · simp only [hany, if_true]
        rw [List.any_eq_true] at hany
        obtain ⟨t, ht, ho⟩ := hany
        constructor
        · intro h; cases h
        · intro h
          rw [h.2 t ht] at ho
          cases ho
      · simp only [hany]
        simp only [Bool.not_eq_true] at hany
        rw [List.any_eq_false] at hany
        constructor
        · intro _
          refine ⟨by simp, ?_⟩
          intro t ht
          simpa using hany t ht
        · intro _; rfl
  refine ⟨?_, ?_, ?_, ?_⟩
  · rw [← hcan args]
    unfold MultiPosParam.Populate
    split <;> simp_all
  · unfold MultiPosParam.Populate
    split <;> simp_all
  · unfold MultiPosParam.Populate
    split <;> simp_all
  · intro pre post t ht
    have hno : m.CanPopulate (pre ++ t :: post) = false := by
      cases h : m.CanPopulate (pre ++ t :: post) with
      | false => rfl
      | true =>
        have := ((hcan _).mp h).2 t (by simp)
        rw [ht] at this
        cases this
    simp [MultiPosParam.Populate, hno]

/-- The MultiPosParam filenames takes both file names of
[FileToSearch1.txt, FileToSearch2.txt] and refuses [-v, FileToSearch1.txt]. -/
theorem MultiPosParam_Populate_iff_witness :
    ((MultiPosParam.Populate { mDefinition := { name := "filenames" } }
        ["FileToSearch1.txt", "FileToSearch2.txt"]).2.2 = []
      ∧ (MultiPosParam.Populate { mDefinition := { name := "filenames" } }
          ["FileToSearch1.txt", "FileToSearch2.txt"]).2.1
        = { mDefinition := { name := "filenames" }, mIsSpecified := true,
            mValues := [] ++ ["FileToSearch1.txt", "FileToSearch2.txt"] })
    ∧ MultiPosParam.Populate { mDefinition := { name := "filenames" } }
        ([] ++ "-v" :: ["FileToSearch1.txt"])
      = (false, { mDefinition := { name := "filenames" } }, [] ++ "-v" :: ["FileToSearch1.txt"]) :=
  ⟨(MultiPosParam_Populate_iff { mDefinition := { name := "filenames" } }
      ["FileToSearch1.txt", "FileToSearch2.txt"]).2.1 (by decide),
   (MultiPosParam_Populate_iff { mDefinition := { name := "filenames" } } []).2.2.2
      [] ["FileToSearch1.txt"] "-v" (by decide)⟩

/-- Claim C20, the code at the failing input: no token of the queue [a, //tmp]
is option-shaped (//tmp is none of the prefixes -, -- or / followed by a legal
parameter name), yet the MultiPosParam filenames refuses it: Populate returns
false and leaves the parameter and the queue unchanged, because IsOption of
the code is true for //tmp. On two file names Populate takes both tokens in
order, and on [-v, FileToSearch1.txt] and on the empty queue it returns false
and changes nothing. -/
theorem MultiPosParam_Populate_refuses_double_slash :
    optionShaped "a" = false ∧ optionShaped "//tmp" = false ∧ IsOption "//tmp" = true
    ∧ MultiPosParam.new { name := "filenames" }
      = Except.ok { mDefinition := { name := "filenames" } }
    ∧ MultiPosParam.Populate { mDefinition := { name := "filenames" } } ["a", "//tmp"]
      = (false, { mDefinition := { name := "filenames" } }, ["a", "//tmp"])
    ∧ MultiPosParam.Populate { mDefinition := { name := "filenames" }, mValues := ["x"] }
        ["FileToSearch1.txt", "FileToSearch2.txt"]
      = (true, { mDefinition := { name := "filenames" }, mIsSpecified := true,
                 mValues := ["x", "FileToSearch1.txt", "FileToSearch2.txt"] }, [])
    ∧ optionShaped "-v" = true
    ∧ MultiPosParam.Populate { mDefinition := { name := "filenames" } }
        ["-v", "FileToSearch1.txt"]
      = (false, { mDefinition := { name := "filenames" } }, ["-v", "FileToSearch1.txt"])
    ∧ MultiPosParam.Populate { mDefinition := { name := "filenames" } } []
      = (false, { mDefinition := { name := "filenames" } }, []) := by
  refine ⟨by decide, by decide, by decide, by decide, by decide, by decide, by decide,
    by decide, by decide⟩

/-! ### Consumes -/

theorem countP_add_countP_not (args : List String) :
    args.countP (fun a => !IsOption a) + args.countP IsOption = args.length := by
  induction args with
  | nil => rfl
  | cons a as ih =>
    rw [List.countP_cons, List.countP_cons, List.length_cons]
    cases h : IsOption a <;> simp <;> omega

/-- MultiPosParam.cpp, Consumes in the terms of the code: it is the number of
tokens of the queue for which IsOption is false; the number of tokens for
which IsOption is true never exceeds the length of the queue, so the
subtraction of the source does not underflow. It is 0 for the empty queue and
for [-v, -e], 1 for [-v, FileToSearch1.txt] and 2 for two file names. -/
theorem MultiPosParam_Consumes_counts (m : MultiPosParam) (args : List String) :
    m.Consumes args = args.countP (fun a => !IsOption a)
    ∧ args.countP IsOption ≤ args.length
    ∧ m.Consumes args + args.countP IsOption = args.length
    ∧ m.Consumes [] = 0
    ∧ m.Consumes ["-v", "-e"] = 0
    ∧ m.Consumes ["-v", "FileToSearch1.txt"] = 1
    ∧ m.Consumes ["FileToSearch1.txt", "FileToSearch2.txt"] = 2 := by
  have h := countP_add_countP_not args
  have e1 : IsOption "-v" = true := by decide
  have e2 : IsOption "-e" = true := by decide
  have e3 : IsOption "FileToSearch1.txt" = false := by decide
  have e4 : IsOption "FileToSearch2.txt" = false := by decide
  refine ⟨?_, ?_, ?_, rfl, ?_, ?_, ?_⟩
  · simp only [MultiPosParam.Consumes]; omega
  · omega
  · simp only [MultiPosParam.Consumes]; omega
  · simp [MultiPosParam.Consumes, List.countP_cons, e1, e2]
  · simp [MultiPosParam.Consumes, List.countP_cons, e1, e3]
  · simp [MultiPosParam.Consumes, List.countP_cons, e3, e4]

/-- Claim C21, the code at the failing input: in the queue [a, //tmp] two
tokens are not option-shaped (//tmp is none of the prefixes -, -- or /
followed by a legal parameter name), but Consumes returns 1, because IsOption
of the code is true for //tmp. On the four queues of
MultiPosParamTests.ReportsCorrectNumberOfArgumentsConsumed, where IsOption and
the specification agree on every token, Consumes is the number of tokens that
are not option-shaped: 0, 0, 1 and 2. -/
theorem MultiPosParam_Consumes_double_slash :
    optionShaped "a" = false ∧ optionShaped "//tmp" = false ∧ IsOption "//tmp" = true
    ∧ List.countP (fun t => !optionShaped t) ["a", "//tmp"] = 2
    ∧ MultiPosParam.Consumes { mDefinition := { name := "filenames" } } ["a", "//tmp"] = 1
    ∧ MultiPosParam.Consumes { mDefinition := { name := "filenames" } } [] = 0
    ∧ List.countP (fun t => !optionShaped t) ["-v", "-e"] = 0
    ∧ MultiPosParam.Consumes { mDefinition := { name := "filenames" } } ["-v", "-e"] = 0
    ∧ List.countP (fun t => !optionShaped t) ["-v", "FileToSearch1.txt"] = 1
    ∧ MultiPosParam.Consumes { mDefinition := { name := "filenames" } }
        ["-v", "FileToSearch1.txt"] = 1
    ∧ List.countP (fun t => !optionShaped t) ["FileToSearch1.txt", "FileToSearch2.txt"] = 2
    ∧ MultiPosParam.Consumes { mDefinition := { name := "filenames" } }
        ["FileToSearch1.txt", "FileToSearch2.txt"] = 2 := by
  refine ⟨by decide, by decide, by decide, by decide, by decide, by decide, by decide,
    by decide, by decide, by decide, by decide, by decide⟩

/-- Claim C22: for an Option, a ValueOption, a PosParam and a MultiPosParam
and every queue, a Populate that returns true leaves the queue without its
first Consumes tokens (Consumes taken on the queue before the call), and a
Populate that returns false leaves the queue as it was. -/
theorem Populate_removes_Consumes (q : List String) :
    (∀ o : CmdOption,
        (o.Populate q).2.2 = if (o.Populate q).1 = true then q.drop (o.Consumes q) else q)
    ∧ (∀ v : ValueOption,
        (v.Populate q).2.2 = if (v.Populate q).1 = true then q.drop (v.Consumes q) else q)
    ∧ (∀ p : PosParam,
        (p.Populate q).2.2 = if (p.Populate q).1 = true then q.drop (p.Consumes q) else q)
    ∧ (∀ m : MultiPosParam,
        (m.Populate q).2.2 = if (m.Populate q).1 = true then q.drop (m.Consumes q) else q) := by
  refine ⟨?_, ?_, ?_, ?_⟩
  · intro o
    simp only [CmdOption.Populate, CmdOption.Consumes]
    split <;> simp
  · intro v
    by_cases hcan : v.CanPopulate q = true
    · have hlen : 2 ≤ q.length := by
        simp only [ValueOption.CanPopulate] at hcan
        split at hcan
        · split at hcan
          · assumption
          · cases hcan
        · cases hcan
      match q, hcan, hlen with
      | t0 :: value :: rest, hcan, _ =>
        rw [ValueOption_populate_of_canPopulate v t0 value rest hcan]
        simp [ValueOption.Consumes]
    · have hp : v.Populate q = (false, v, q) := by
        unfold ValueOption.Populate
        simp [hcan]
      rw [hp]
      simp
  · intro p
    simp only [PosParam.Populate, PosParam.Consumes]
    split
    · split <;> simp
    · simp
  · intro m
    simp only [MultiPosParam.Populate, MultiPosParam.Consumes]
    split
    · rename_i hcan
      have hno : q.countP IsOption = 0 := by
        simp only [MultiPosParam.CanPopulate] at hcan
        split at hcan
        · cases hcan
        · split at hcan
          · cases hcan
          · rename_i hany
            rw [List.countP_eq_zero]
            intro a ha hopt
            exact hany (List.any_eq_true.mpr ⟨a, ha, hopt⟩)
      simp [hno]
    · simp

/-! ### Registration on the Parser -/

/-- Claim C23, the behaviour of the code: Parser::Add throws DuplicateOption
for the Option -b on a Parser that holds the built-in help option and the
Option -a. Neither the prefixed short names (-a, -b) nor the names `Name()`
are the same; `LongName()` is the empty string for both, and the comparison
`option->LongName() == o->LongName()` takes that for a match. With a long name
on either of them (-a, --all) the second Add succeeds. -/
theorem Add_second_short_only_option_throws :
    (CmdOption.new { shortName := 'a' }).map
        (fun o => (o.PrefixShortName, o.Name, o.LongName)) = Except.ok ("-a", "-a", "")
    ∧ (CmdOption.new { shortName := 'b' }).map
        (fun o => (o.PrefixShortName, o.Name, o.LongName)) = Except.ok ("-b", "-b", "")
    ∧ ((Parser.new (some { mDefinition := { name := "prog" } }) ["prog"]).bind
        (fun P => P.Add (some (OptionPtr.option { mDefinition := { shortName := 'a' } })))).map
        (fun P => P.mOptions.map OptionPtr.Name) = Except.ok ["-h", "-a"]
    ∧ shortOnlyParser ["prog"] = Except.error Error.DuplicateOption
    ∧ (((Parser.new (some { mDefinition := { name := "prog" } }) ["prog"]).bind
        (fun P => P.Add (some (OptionPtr.option
          { mDefinition := { shortName := 'a', longName := "all" } })))).bind
        (fun P => P.Add (some (OptionPtr.option { mDefinition := { shortName := 'b' } })))).map
        (fun P => P.mOptions.map OptionPtr.Name) = Except.ok ["-h", "-a", "-b"] := by
  refine ⟨by decide, by decide, by decide, by decide, by decide⟩

/-- Claim C24: Parser::Add(PosParam*) throws NullParameter for a null pointer;
for a PosParam p it throws DuplicatePosParam exactly when a registered
PosParam has the name of p, and otherwise the Parser afterwards is the Parser
before with p after the PosParams registered so far. A call that throws gives
no new Parser: the throw comes before the `push_back`, the Parser stays as it
was. -/
theorem Parser_AddPosParam_iff (P : Parser) (p : PosParam) :
    P.AddPosParam none = Except.error Error.NullParameter
    ∧ (P.AddPosParam (some p) = Except.error Error.DuplicatePosParam
        ↔ ∃ d ∈ P.mPosParams, d.mDefinition.name = p.mDefinition.name)
    ∧ P.AddPosParam (some p)
        = if (∃ d ∈ P.mPosParams, d.mDefinition.name = p.mDefinition.name)
          then Except.error Error.DuplicatePosParam
          else Except.ok { P with mPosParams := P.mPosParams ++ [p] } := by
  have hany : (P.mPosParams.any (fun positional =>
      decide (positional.mDefinition.name = p.mDefinition.name)) = true)
      ↔ ∃ d ∈ P.mPosParams, d.mDefinition.name = p.mDefinition.name := by
    simp [List.any_eq_true]
  refine ⟨rfl, ?_, ?_⟩
  · simp only [Parser.AddPosParam]
    by_cases h : ∃ d ∈ P.mPosParams, d.mDefinition.name = p.mDefinition.name
    · simp [hany.mpr h, h]
    · have h2 : ¬ (P.mPosParams.any (fun positional =>
          decide (positional.mDefinition.name = p.mDefinition.name)) = true) :=
        fun hh => h (hany.mp hh)
      simp only [h2, if_false, h, iff_false]
      intro hcontra
      cases hcontra
  · simp only [Parser.AddPosParam]
    by_cases h : ∃ d ∈ P.mPosParams, d.mDefinition.name = p.mDefinition.name
    · rw [if_pos (hany.mpr h), if_pos h]
    · have h2 : ¬ (P.mPosParams.any (fun positional =>
          decide (positional.mDefinition.name = p.mDefinition.name)) = true) :=
        fun hh => h (hany.mp hh)
      rw [if_neg h2, if_neg h]

/-- Claim C25: the constructor of Parser throws NullParameter for a null
ProgParam, whatever the arguments (the empty list too); for a ProgParam and
the empty argument list it throws EmptyArguments; for a ProgParam and at least
one argument it succeeds, and the Parser holds the arguments, the ProgParam
and the built-in help option as its only option. -/
theorem Parser_new_throws (prog : ProgParam) (a : String) (rest args : List String) :
    Parser.new none args = Except.error Error.NullParameter
    ∧ Parser.new none [] = Except.error Error.NullParameter
    ∧ Parser.new (some prog) [] = Except.error Error.EmptyArguments
    ∧ Parser.new (some prog) (a :: rest)
        = Except.ok { mArgs := a :: rest, mProgParam := prog,
                      mOptions := [OptionPtr.option builtInHelpOption] } := by
  refine ⟨rfl, rfl, rfl, ?_⟩
  have hhelp : CmdOption.new builtInHelpOption.mDefinition = Except.ok builtInHelpOption := by
    decide
  have hlen : ¬ (a :: rest).length < 1 := by simp
  show (if (a :: rest).length < 1 then Except.error Error.EmptyArguments
    else match CmdOption.new builtInHelpOption.mDefinition with
      | Except.error e => Except.error e
      | Except.ok builtInHelpOption =>
        Parser.Add { mArgs := a :: rest, mArgParams := [], mOptions := [], mPosParams := [],
                     mArgQueue := [], mMultiPosParam := none, mProgParam := prog }
          (some (OptionPtr.option builtInHelpOption))) = _
  rw [if_neg hlen, hhelp]
  rfl

/-! ### What Parse keeps: invariants of the two phases -/

theorem Parser_populateFirst_preserves (I : Parser → Prop)
    (hpop : ∀ (P : Parser) (p : ArgParamPtr), I P → P.CanPopulate p = true → I (P.Populate p).2)
    (P : Parser) (hI : I P) : ∀ (ps : List ArgParamPtr), I (P.PopulateFirst ps).2 := by
  intro ps
  induction ps with
  | nil => exact hI
  | cons p ps ih =>
    simp only [Parser.PopulateFirst]
    split
    · rename_i hc
      exact hpop P p hI hc
    · exact ih

theorem Parser_loop_preserves (I : Parser → Prop)
    (hpop : ∀ (P : Parser) (p : ArgParamPtr), I P → P.CanPopulate p = true → I (P.Populate p).2) :
    ∀ (fuel : Nat) (P : Parser) (r : Status × Parser), I P →
      Parser.PopulateArgParamsLoop fuel P = Except.ok r → I r.2 := by
  intro fuel
  induction fuel with
  | zero =>
    intro P r hI h
    unfold Parser.PopulateArgParamsLoop at h
    cases hq : P.mArgQueue with
    | nil =>
      simp only [hq] at h
      cases h
      exact hI
    | cons a rest =>
      simp only [hq] at h
      cases h
  | succ fuel ih =>
    intro P r hI h
    unfold Parser.PopulateArgParamsLoop at h
    cases hq : P.mArgQueue with
    | nil =>
      simp only [hq] at h
      cases h
      exact hI
    | cons a rest =>
      simp only [hq] at h
      have hstep := Parser_populateFirst_preserves I hpop P hI P.mArgParams
      split at h
      · cases h
        exact hstep
      · exact ih _ r hstep h

theorem Parser_moveOptionsLoop_mem (opts : List OptionPtr) (n : Nat) :
    ∀ (rest : List String), rest.length ≤ n →
    ∀ (skipped queue : List String) (r : Status × List String × List String),
      Parser.MoveOptionsLoop opts skipped rest queue = Except.ok r →
      (∀ t ∈ r.2.1, t ∈ skipped ∨ t ∈ rest)
      ∧ (∀ t ∈ r.2.2, t ∈ queue ∨ t ∈ rest) := by
  induction n with
  | zero =>
    intro rest hlen skipped queue r h
    cases rest with
    | nil =>
      simp only [Parser.MoveOptionsLoop] at h
      cases h
      exact ⟨fun t ht => Or.inl ht, fun t ht => Or.inl ht⟩
    | cons a rs => simp at hlen
  | succ n ih =>
    intro rest hlen skipped queue r h
    cases rest with
    | nil =>
      simp only [Parser.MoveOptionsLoop] at h
      cases h
      exact ⟨fun t ht => Or.inl ht, fun t ht => Or.inl ht⟩
    | cons a rs =>
      have hrs : rs.length ≤ n := by simpa using hlen
      unfold Parser.MoveOptionsLoop at h
      split at h
      · obtain ⟨h1, h2⟩ := ih rs hrs _ _ r h
        refine ⟨fun t ht => ?_, fun t ht => ?_⟩
        · rcases h1 t ht with h3 | h3
          · rcases List.mem_append.mp h3 with h4 | h4
            · exact Or.inl h4
            · rw [List.mem_singleton] at h4
              exact Or.inr (h4 ▸ List.mem_cons_self _ _)
          · exact Or.inr (List.mem_cons_of_mem _ h3)
        · rcases h2 t ht with h3 | h3
          · exact Or.inl h3
          · exact Or.inr (List.mem_cons_of_mem _ h3)
      · simp only at h
        split at h
        · cases h
          refine ⟨fun t ht => ?_, fun t ht => Or.inl ht⟩
          rcases List.mem_append.mp ht with h4 | h4
          · exact Or.inl h4
          · exact Or.inr h4
        · split at h
          · cases rs with
            | nil =>
              simp only at h
              cases h
            | cons b rs2 =>
              simp only at h
              have hrs2 : rs2.length ≤ n := by
                simp only [List.length_cons] at hrs
                omega
              obtain ⟨h1, h2⟩ := ih rs2 hrs2 _ _ r h
              refine ⟨fun t ht => ?_, fun t ht => ?_⟩
              · rcases h1 t ht with h3 | h3
                · exact Or.inl h3
                · exact Or.inr (List.mem_cons_of_mem _ (List.mem_cons_of_mem _ h3))
              · rcases h2 t ht with h3 | h3
                · rcases List.mem_append.mp h3 with h4 | h4
                  · exact Or.inl h4
                  · refine Or.inr ?_
                    rcases List.mem_cons.mp h4 with h5 | h5
                    · exact h5 ▸ List.mem_cons_self _ _
                    · rw [List.mem_singleton] at h5
                      exact h5 ▸ List.mem_cons_of_mem _ (List.mem_cons_self _ _)
                · exact Or.inr (List.mem_cons_of_mem _ (List.mem_cons_of_mem _ h3))
          · obtain ⟨h1, h2⟩ := ih rs hrs _ _ r h
            refine ⟨fun t ht => ?_, fun t ht => ?_⟩
            · rcases h1 t ht with h3 | h3
              · exact Or.inl h3
              · exact Or.inr (List.mem_cons_of_mem _ h3)
            · rcases h2 t ht with h3 | h3
              · rcases List.mem_append.mp h3 with h4 | h4
                · exact Or.inl h4
                · rw [List.mem_singleton] at h4
                  exact Or.inr (h4 ▸ List.mem_cons_self _ _)
              · exact Or.inr (List.mem_cons_of_mem _ h3)

theorem OptionPtr_populate_queue_mem (o : OptionPtr) (q : List String) :
    ∀ t ∈ (o.Populate q).2.2, t ∈ q := by
  intro t ht
  cases o with
  | option o =>
    simp only [OptionPtr.Populate, CmdOption.Populate] at ht
    split at ht
    · exact List.mem_of_mem_drop ht
    · exact ht
  | valueOption v =>
    simp only [OptionPtr.Populate] at ht
    by_cases hcan : v.CanPopulate q = true
    · have hlen : 2 ≤ q.length := by
        simp only [ValueOption.CanPopulate] at hcan
        split at hcan
        · split at hcan
          · assumption
          · cases hcan
        · cases hcan
      match q, hcan, hlen, ht with
      | t0 :: value :: rest, hcan, _, ht =>
        rw [ValueOption_populate_of_canPopulate v t0 value rest hcan] at ht
        exact List.mem_cons_of_mem _ (List.mem_cons_of_mem _ ht)
    · have hp : v.Populate q = (false, v, q) := by
        unfold ValueOption.Populate
        simp [hcan]
      rw [hp] at ht
      exact ht

theorem ProgParam_populate_frame (p : ProgParam) (q : List String) :
    (p.Populate q).2.1.mDefinition = p.mDefinition ∧ ∀ t ∈ (p.Populate q).2.2, t ∈ q := by
  simp only [ProgParam.Populate]
  split
  · cases q with
    | nil => exact ⟨rfl, fun t ht => ht⟩
    | cons a rest => exact ⟨rfl, fun t ht => List.mem_cons_of_mem _ ht⟩
  · exact ⟨rfl, fun t ht => ht⟩

theorem PosParam_populate_frame (p : PosParam) (q : List String) :
    (p.Populate q).2.1.mDefinition = p.mDefinition ∧ ∀ t ∈ (p.Populate q).2.2, t ∈ q := by
  simp only [PosParam.Populate]
  split
  · cases q with
    | nil => exact ⟨rfl, fun t ht => ht⟩
    | cons a rest => exact ⟨rfl, fun t ht => List.mem_cons_of_mem _ ht⟩
  · exact ⟨rfl, fun t ht => ht⟩

theorem MultiPosParam_populate_frame (m : MultiPosParam) (q : List String) :
    (m.Populate q).2.1.mDefinition = m.mDefinition ∧ ∀ t ∈ (m.Populate q).2.2, t ∈ q := by
  simp only [MultiPosParam.Populate]
  split
  · refine ⟨rfl, fun t ht => ?_⟩
    cases ht
  · exact ⟨rfl, fun t ht => ht⟩

theorem map_set_of_eq {α β : Type} (f : α → β) (l : List α) (i : Nat) (a b : α)
    (hi : l[i]? = some a) (hf : f b = f a) : (l.set i b).map f = l.map f := by
  induction l generalizing i with
  | nil => rfl
  | cons x xs ih =>
    cases i with
    | zero =>
      simp only [List.getElem?_cons_zero, Option.some.injEq] at hi
      simp [List.set, hf, hi]
    | succ j =>
      simp only [List.getElem?_cons_succ] at hi
      simp [List.set, ih j hi]

/-- What a virtual `Populate` through a pointer of `mArgParams` keeps: the
arguments, the vector itself, every definition, and the queue afterwards holds
only tokens of the queue before. -/
theorem Parser_populate_frame (P : Parser) (p : ArgParamPtr) :
    (P.Populate p).2.mArgs = P.mArgs
    ∧ (P.Populate p).2.mArgParams = P.mArgParams
    ∧ (P.Populate p).2.mProgParam.mDefinition = P.mProgParam.mDefinition
    ∧ (P.Populate p).2.mPosParams.map (fun d => d.mDefinition)
        = P.mPosParams.map (fun d => d.mDefinition)
    ∧ (P.Populate p).2.mMultiPosParam.map (fun d => d.mDefinition)
        = P.mMultiPosParam.map (fun d => d.mDefinition)
    ∧ (P.Populate p).2.mOptions.map OptionPtr.sig = P.mOptions.map OptionPtr.sig
    ∧ ∀ t ∈ (P.Populate p).2.mArgQueue, t ∈ P.mArgQueue := by
  cases p with
  | progParam =>
    exact ⟨rfl, rfl, (ProgParam_populate_frame _ _).1, rfl, rfl, rfl,
      (ProgParam_populate_frame _ _).2⟩
  | option i =>
    simp only [Parser.Populate]
    cases hi : P.mOptions[i]? with
    | none => exact ⟨rfl, rfl, rfl, rfl, rfl, rfl, fun t ht => ht⟩
    | some o =>
      exact ⟨rfl, rfl, rfl, rfl, rfl,
        map_set_of_eq OptionPtr.sig P.mOptions i o _ hi (OptionPtr_populate_sig o _),
        OptionPtr_populate_queue_mem o _⟩
  | posParam i =>
    simp only [Parser.Populate]
    cases hi : P.mPosParams[i]? with
    | none => exact ⟨rfl, rfl, rfl, rfl, rfl, rfl, fun t ht => ht⟩
    | some d =>
      exact ⟨rfl, rfl, rfl,
        map_set_of_eq (fun d => d.mDefinition) P.mPosParams i d _ hi
          (PosParam_populate_frame d _).1,
        rfl, rfl, (PosParam_populate_frame d _).2⟩
  | multiPosParam =>
    simp only [Parser.Populate]
    cases hm : P.mMultiPosParam with
    | none => exact ⟨rfl, rfl, rfl, rfl, hm.symm ▸ rfl, rfl, fun t ht => ht⟩
    | some m =>
      refine ⟨rfl, rfl, rfl, rfl, ?_, rfl, (MultiPosParam_populate_frame m _).2⟩
      simp only [Option.map_some', (MultiPosParam_populate_frame m _).1]

theorem Parser_fillArgQueue_frame (P : Parser) (r : Status × Parser)
    (h : P.FillArgQueue = Except.ok r) :
    r.2 = { P with mArgQueue := r.2.mArgQueue } ∧ ∀ t ∈ r.2.mArgQueue, t ∈ P.mArgs := by
  unfold Parser.FillArgQueue at h
  cases hA : P.mArgs with
  | nil =>
    simp only [hA] at h
    cases h
  | cons programArg workingArgQueue =>
    simp only [hA, Parser.MoveOptionsToArgQueue] at h
    cases hM : Parser.MoveOptionsLoop P.mOptions [] workingArgQueue [programArg] with
    | error e =>
      simp only [hM] at h
      cases h
    | ok r0 =>
      obtain ⟨st, source, queue⟩ := r0
      obtain ⟨h1, h2⟩ := Parser_moveOptionsLoop_mem P.mOptions workingArgQueue.length
        workingArgQueue (Nat.le_refl _) [] [programArg] _ hM
      simp only [hM] at h
      have hsrc : ∀ t ∈ source, t ∈ programArg :: workingArgQueue := by
        intro t ht
        rcases h1 t ht with h3 | h3
        · cases h3
        · exact List.mem_cons_of_mem _ h3
      have hque : ∀ t ∈ queue, t ∈ programArg :: workingArgQueue := by
        intro t ht
        rcases h2 t ht with h3 | h3
        · rw [List.mem_singleton] at h3
          exact h3 ▸ List.mem_cons_self _ _
        · exact List.mem_cons_of_mem _ h3
      cases st with
      | Failure =>
        simp only at h
        cases h
        exact ⟨rfl, hque⟩
      | Success =>
        simp only at h
        cases hm : P.mMultiPosParam with
        | none =>
          simp only [hm, Parser.MovePosArgsToArgQueue] at h
          cases h
          refine ⟨by simp [hm], fun t ht => ?_⟩
          rcases List.mem_append.mp ht with h3 | h3
          · exact hque t h3
          · exact hsrc t h3
        | some m =>
          simp only [hm] at h
          split at h
          · simp only [Parser.ReverseMovePosArgsToArgQueue, Parser_splitPosArgs_eq] at h
            cases h
            refine ⟨by simp [hm], fun t ht => ?_⟩
            simp only [List.mem_append] at ht
            rcases ht with (h3 | h3) | h3
            · exact hque t h3
            · exact hsrc t (List.mem_of_mem_drop h3)
            · exact hsrc t (List.mem_of_mem_take h3)
          · simp only [Parser.MovePosArgsToArgQueue] at h
            cases h
            refine ⟨by simp [hm], fun t ht => ?_⟩
            rcases List.mem_append.mp ht with h3 | h3
            · exact hque t h3
            · exact hsrc t h3

/-! ### The built-in help option -/

theorem Parser_helpFirst_cases (P : Parser) (h : P.helpFirst = true) :
    ∃ (h0 : CmdOption) (rest : List OptionPtr),
      P.mOptions = OptionPtr.option h0 :: rest
      ∧ h0.mDefinition = builtInHelpOption.mDefinition := by
  unfold Parser.helpFirst at h
  split at h
  · rename_i h0 rest heq
    exact ⟨h0, rest, heq, of_decide_eq_true h⟩
  · cases h

theorem CmdOption_help_canPopulate (h0 : CmdOption)
    (hdef : h0.mDefinition = builtInHelpOption.mDefinition) (t : String) (rest : List String) :
    h0.CanPopulate (t :: rest) = true ↔ t = "-h" ∨ t = "--help" := by
  have hs : h0.PrefixShortName = "-h" := by
    simp only [CmdOption.PrefixShortName, hdef]
    decide
  have hl : h0.PrefixLongName = "--help" := by
    simp only [CmdOption.PrefixLongName, hdef]
    decide
  simp [CmdOption.CanPopulate, hs, hl]

theorem Parser_parse_help_token (P : Parser) (prog t : String) (hfirst : P.helpFirst = true)
    (hprog : P.mProgParam.mIsSpecified = false) (hargs : P.mArgs = [prog, t])
    (ht : t = "-h" ∨ t = "--help") :
    ∃ P2, P.Parse = Except.ok (Status.Success, P2) ∧ P2.BuiltInHelpOptionIsSpecified = true := by
  obtain ⟨h0, rest, hopts, hdef⟩ := Parser_helpFirst_cases P hfirst
  have hcan : ∀ xs, (OptionPtr.option h0).CanPopulate (t :: xs) = true := fun xs =>
    (CmdOption_help_canPopulate h0 hdef t xs).mpr ht
  have hisopt : IsOption t = true := by
    rcases ht with h | h <;> rw [h] <;> decide
  -- phase 1: the queue is the program name and the help token
  have hmove : Parser.MoveOptionsLoop P.mOptions [] [t] [prog]
      = Except.ok (Status.Success, [], [prog, t]) := by
    have hcons : Parser.argsToConsume P.mOptions [t] = 1 := by
      simp [Parser.argsToConsume, hopts, List.find?, hcan, OptionPtr.Consumes,
        CmdOption.Consumes]
    simp [Parser.MoveOptionsLoop, hisopt, hcons]
  have hfill : P.FillArgQueue = Except.ok (Status.Success, { P with mArgQueue := [prog, t] }) := by
    unfold Parser.FillArgQueue
    simp only [hargs, Parser.MoveOptionsToArgQueue, hmove]
    cases hm : P.mMultiPosParam with
    | none => simp [Parser.MovePosArgsToArgQueue]
    | some m =>
      by_cases ho : m.Order = ParsingOrder.AfterOptions
      · simp [ho, Parser.ReverseMovePosArgsToArgQueue, Parser.splitPosArgs]
      · simp [ho, Parser.MovePosArgsToArgQueue]
  -- phase 2: the ProgParam takes the name, the help option the token
  let Q0 : Parser := ({ P with mArgQueue := [prog, t] } : Parser).FillArgParamVector
  have hQ0params : ∃ tail, Q0.mArgParams
      = ArgParamPtr.progParam :: ArgParamPtr.option 0 :: tail := by
    refine ⟨Q0.mArgParams.drop 2, ?_⟩
    cases hm : P.mMultiPosParam <;>
      simp [Q0, Parser.FillArgParamVector, hopts, hm, List.range_succ_eq_map]
  obtain ⟨tail, hparams⟩ := hQ0params
  let prog1 : ProgParam := { P.mProgParam with mValue := prog, mIsSpecified := true }
  let help1 : CmdOption := { h0 with mIsSpecified := true }
  let Q1 : Parser := { Q0 with mProgParam := prog1, mArgQueue := [t] }
  let Q2 : Parser := { Q1 with mOptions := OptionPtr.option help1 :: rest, mArgQueue := [] }
  have hstep1 : Q0.PopulateFirst Q0.mArgParams = (true, Q1) := by
    rw [hparams]
    simp [Parser.PopulateFirst, Parser.CanPopulate, Parser.Populate, ProgParam.CanPopulate,
      ProgParam.Populate, hprog, Q0, Q1, prog1, Parser.FillArgParamVector]
  have hstep2 : Q1.PopulateFirst Q1.mArgParams = (true, Q2) := by
    have hp : Q1.mArgParams = ArgParamPtr.progParam :: ArgParamPtr.option 0 :: tail := hparams
    have hcan0 : (OptionPtr.option h0).CanPopulate [t] = true := hcan []
    have hcan1 : h0.CanPopulate [t] = true := hcan0
    rw [hp]
    simp [Parser.PopulateFirst, Parser.CanPopulate, Parser.Populate, ProgParam.CanPopulate,
      Q0, Q1, Q2, prog1, help1, Parser.FillArgParamVector, hopts, hcan0, OptionPtr.Populate,
      CmdOption.Populate, hcan1]
  refine ⟨Q2, ?_, ?_⟩
  · unfold Parser.Parse
    rw [hfill]
    show Parser.PopulateArgParamsLoop 2 Q0 = _
    rw [Parser_loop_step 1 Q0 Q1 prog [t] rfl hstep1 (by simp [Q1]),
      Parser_loop_step 0 Q1 Q2 t [] rfl hstep2 (by simp [Q2]),
      Parser_loop_nil 0 Q2 rfl]
  · rfl

theorem Parser_populate_keeps_help (h0 : CmdOption)
    (hdef : h0.mDefinition = builtInHelpOption.mDefinition) (Q : Parser) (p : ArgParamPtr)
    (hI : (∃ rest, Q.mOptions = OptionPtr.option h0 :: rest)
      ∧ ∀ t ∈ Q.mArgQueue, t ≠ "-h" ∧ t ≠ "--help")
    (hc : Q.CanPopulate p = true) :
    (∃ rest, (Q.Populate p).2.mOptions = OptionPtr.option h0 :: rest)
      ∧ ∀ t ∈ (Q.Populate p).2.mArgQueue, t ≠ "-h" ∧ t ≠ "--help" := by
  obtain ⟨⟨rest, hopts⟩, hq⟩ := hI
  refine ⟨?_, fun t ht => hq t ((Parser_populate_frame Q p).2.2.2.2.2.2 t ht)⟩
  cases p with
  | progParam => exact ⟨rest, hopts⟩
  | posParam i =>
    simp only [Parser.Populate]
    cases Q.mPosParams[i]? with
    | none => exact ⟨rest, hopts⟩
    | some d => exact ⟨rest, hopts⟩
  | multiPosParam =>
    simp only [Parser.Populate]
    cases Q.mMultiPosParam with
    | none => exact ⟨rest, hopts⟩
    | some m => exact ⟨rest, hopts⟩
  | option i =>
    cases i with
    | zero =>
      exfalso
      simp only [Parser.CanPopulate, hopts, List.getElem?_cons_zero, OptionPtr.CanPopulate] at hc
      cases hqueue : Q.mArgQueue with
      | nil =>
        rw [hqueue] at hc
        simp [CmdOption.CanPopulate] at hc
      | cons a xs =>
        rw [hqueue] at hc
        have ha := (CmdOption_help_canPopulate h0 hdef a xs).mp hc
        have hne := hq a (hqueue ▸ List.mem_cons_self _ _)
        rcases ha with h | h
        · exact hne.1 h
        · exact hne.2 h
    | succ j =>
      simp only [Parser.Populate, hopts, List.getElem?_cons_succ]
      cases rest[j]? with
      | none => exact ⟨rest, hopts⟩
      | some o => exact ⟨rest.set j _, rfl⟩

theorem Parser_parse_no_help_token (P : Parser) (h0 : CmdOption) (rest : List OptionPtr)
    (hopts : P.mOptions = OptionPtr.option h0 :: rest)
    (hdef : h0.mDefinition = builtInHelpOption.mDefinition)
    (h1 : ¬ "-h" ∈ P.mArgs) (h2 : ¬ "--help" ∈ P.mArgs)
    (r : Status × Parser) (hparse : P.Parse = Except.ok r) :
    ∃ rest2, r.2.mOptions = OptionPtr.option h0 :: rest2 := by
  unfold Parser.Parse at hparse
  cases hfill : P.FillArgQueue with
  | error e =>
    rw [hfill] at hparse
    cases hparse
  | ok r1 =>
    obtain ⟨hframe, hmem⟩ := Parser_fillArgQueue_frame P r1 hfill
    have hq : ∀ t ∈ r1.2.mArgQueue, t ≠ "-h" ∧ t ≠ "--help" := by
      intro t ht
      have htm := hmem t ht
      exact ⟨fun h => h1 (h ▸ htm), fun h => h2 (h ▸ htm)⟩
    have hopts1 : r1.2.mOptions = OptionPtr.option h0 :: rest := by
      rw [hframe]
      exact hopts
    obtain ⟨st, P1⟩ := r1
    rw [hfill] at hparse
    cases st with
    | Failure =>
      simp only at hparse
      cases hparse
      exact ⟨rest, hopts1⟩
    | Success =>
      simp only at hparse
      have hI : (∃ rest, P1.FillArgParamVector.mOptions = OptionPtr.option h0 :: rest)
          ∧ ∀ t ∈ P1.FillArgParamVector.mArgQueue, t ≠ "-h" ∧ t ≠ "--help" :=
        ⟨⟨rest, hopts1⟩, hq⟩
      exact (Parser_loop_preserves
        (fun Q => (∃ rest, Q.mOptions = OptionPtr.option h0 :: rest)
          ∧ ∀ t ∈ Q.mArgQueue, t ≠ "-h" ∧ t ≠ "--help")
        (fun Q p hQ hc => Parser_populate_keeps_help h0 hdef Q p hQ hc)
        _ _ r hI hparse).1

theorem Parser_add_help_name_throws (P : Parser) (o : OptionPtr) (hfirst : P.helpFirst = true)
    (hstyle : o.base.mDefinition.style = Style.Unix)
    (hname : o.base.mDefinition.shortName = 'h' ∨ o.base.mDefinition.longName = "help") :
    P.Add (some o) = Except.error Error.DuplicateOption := by
  obtain ⟨h0, rest, hopts, hdef⟩ := Parser_helpFirst_cases P hfirst
  have hn0 : (OptionPtr.option h0).Name = "-h" := by
    simp only [OptionPtr.Name, OptionPtr.base, CmdOption.Name, CmdOption.PrefixShortName,
      CmdOption.PrefixLongName, hdef]
    decide
  have hl0 : (OptionPtr.option h0).LongName = "--help" := by
    simp only [OptionPtr.LongName, OptionPtr.base, CmdOption.LongName, CmdOption.PrefixLongName,
      hdef]
    decide
  have hmatch : ((OptionPtr.option h0).Name = o.Name) ∨ ((OptionPtr.option h0).LongName = o.LongName) := by
    rcases hname with hs | hl
    · left
      rw [hn0]
      have hne : o.base.mDefinition.shortName ≠ Char.ofNat 0 := by
        rw [hs]
        decide
      have hps : o.base.PrefixShortName = "-h" := by
        simp only [CmdOption.PrefixShortName, hstyle, hs]
        decide
      simp only [OptionPtr.Name, CmdOption.Name]
      by_cases hL : o.base.mDefinition.longName = ""
      · simp [hL, hps]
      · simp [hL, hne, hps]
    · right
      rw [hl0]
      simp only [OptionPtr.LongName, CmdOption.LongName, CmdOption.PrefixLongName, hstyle, hl]
      decide
  simp only [Parser.Add, hopts, List.any_cons]
  rcases hmatch with h | h
  · simp [h]
  · simp [h]

/-- Claim C26: the constructor registers the built-in help option (short name
h, long name help) as the only option, and Add puts every further option
behind the registered ones, so the help option stays first. For a Parser with
the help option first in its default Unix style and a ProgParam not yet
specified: Parse of [prog, -h] and of [prog, --help] returns Success and
BuiltInHelpOptionIsSpecified() is then true; when the help option is not
specified before and the arguments hold neither -h nor --help, it is false
after a successful Parse; and Add of an option of Unix style with short name h
or long name help throws DuplicateOption. -/
theorem Parser_builtInHelpOption :
    (∀ (prog : ProgParam) (a : String) (rest : List String),
        (Parser.new (some prog) (a :: rest)).map (fun P => (P.mOptions, P.helpFirst))
          = Except.ok ([OptionPtr.option builtInHelpOption], true))
    ∧ (∀ (P P2 : Parser) (o : OptionPtr), P.Add (some o) = Except.ok P2 →
        P2.mOptions = P.mOptions ++ [o] ∧ (P.helpFirst = true → P2.helpFirst = true))
    ∧ (∀ (P : Parser) (prog t : String), P.helpFirst = true →
        P.mProgParam.mIsSpecified = false → P.mArgs = [prog, t] → (t = "-h" ∨ t = "--help") →
        ∃ P2, P.Parse = Except.ok (Status.Success, P2) ∧ P2.BuiltInHelpOptionIsSpecified = true)
    ∧ (∀ (P P2 : Parser), P.helpFirst = true → P.BuiltInHelpOptionIsSpecified = false →
        ¬ "-h" ∈ P.mArgs → ¬ "--help" ∈ P.mArgs → P.Parse = Except.ok (Status.Success, P2) →
        P2.BuiltInHelpOptionIsSpecified = false)
    ∧ (∀ (P : Parser) (o : OptionPtr), P.helpFirst = true →
        o.base.mDefinition.style = Style.Unix →
        (o.base.mDefinition.shortName = 'h' ∨ o.base.mDefinition.longName = "help") →
        P.Add (some o) = Except.error Error.DuplicateOption) := by
  refine ⟨?_, ?_, ?_, ?_, ?_⟩
  · intro prog a rest
    have hhelp : CmdOption.new builtInHelpOption.mDefinition = Except.ok builtInHelpOption := by
      decide
    have hlen : ¬ (a :: rest).length < 1 := by simp
    show Except.map _ (if (a :: rest).length < 1 then Except.error Error.EmptyArguments
      else match CmdOption.new builtInHelpOption.mDefinition with
        | Except.error e => Except.error e
        | Except.ok builtInHelpOption =>
          Parser.Add { mArgs := a :: rest, mArgParams := [], mOptions := [], mPosParams := [],
                       mArgQueue := [], mMultiPosParam := none, mProgParam := prog }
            (some (OptionPtr.option builtInHelpOption))) = _
    rw [if_neg hlen, hhelp]
    rfl
  · intro P P2 o hadd
    simp only [Parser.Add] at hadd
    split at hadd
    · cases hadd
    · cases hadd
      refine ⟨rfl, fun hfirst => ?_⟩
      obtain ⟨h0, rest, hopts, hdef⟩ := Parser_helpFirst_cases P hfirst
      simp [Parser.helpFirst, hopts, hdef]
  · intro P prog t hfirst hprog hargs ht
    exact Parser_parse_help_token P prog t hfirst hprog hargs ht
  · intro P P2 hfirst hunspec h1 h2 hparse
    obtain ⟨h0, rest, hopts, hdef⟩ := Parser_helpFirst_cases P hfirst
    obtain ⟨rest2, hopts3⟩ :=
      Parser_parse_no_help_token P h0 rest hopts hdef h1 h2 _ hparse
    have hopts2 : P2.mOptions = OptionPtr.option h0 :: rest2 := hopts3
    simp only [Parser.BuiltInHelpOptionIsSpecified, hopts, OptionPtr.IsSpecified,
      OptionPtr.base] at hunspec
    simp only [Parser.BuiltInHelpOptionIsSpecified, hopts2, OptionPtr.IsSpecified,
      OptionPtr.base]
    exact hunspec
  · intro P o hfirst hstyle hname
    exact Parser_add_help_name_throws P o hfirst hstyle hname

theorem Parser_builtInHelpOption_witness :
    (∃ P2, (nameLookupParserState true ["namelookup", "-h"]).Parse
        = Except.ok (Status.Success, P2) ∧ P2.BuiltInHelpOptionIsSpecified = true)
    ∧ (∃ P2, (nameLookupParserState true ["namelookup", "--help"]).Parse
        = Except.ok (Status.Success, P2) ∧ P2.BuiltInHelpOptionIsSpecified = true)
    ∧ (∃ P2, (nameLookupParserState true ["namelookup", "-v", "test.example.com"]).Parse
        = Except.ok (Status.Success, P2) ∧ P2.BuiltInHelpOptionIsSpecified = false)
    ∧ (nameLookupParserState true ["namelookup"]).Add
        (some (OptionPtr.option { mDefinition := { shortName := 'h', longName := "host" } }))
        = Except.error Error.DuplicateOption
    ∧ (nameLookupParserState true ["namelookup"]).Add
        (some (OptionPtr.valueOption { mDefinition := { shortName := 'x', longName := "help" } }))
        = Except.error Error.DuplicateOption :=
  have hparse : (nameLookupParserState true ["namelookup", "-v", "test.example.com"]).Parse
      = Except.ok (Status.Success,
          { nameLookupParserState true ["namelookup", "-v", "test.example.com"] with
            mArgParams := [ArgParamPtr.progParam, ArgParamPtr.option 0, ArgParamPtr.option 1,
                           ArgParamPtr.posParam 0],
            mOptions := [OptionPtr.option builtInHelpOption,
                         OptionPtr.option { mDefinition := verboseDef, mIsSpecified := true }],
            mPosParams := [{ mDefinition := { name := "hostname", isMandatory := true },
                             mValue := "test.example.com", mIsSpecified := true }],
            mProgParam := { mDefinition := { name := "namelookup" }, mIsSpecified := true,
                            mValue := "namelookup" } }) := by decide
  ⟨Parser_builtInHelpOption.2.2.1 _ "namelookup" "-h" (by decide) rfl rfl (Or.inl rfl),
   Parser_builtInHelpOption.2.2.1 _ "namelookup" "--help" (by decide) rfl rfl (Or.inr rfl),
   ⟨_, hparse, Parser_builtInHelpOption.2.2.2.1 _ _ (by decide) (by decide) (by decide)
      (by decide) hparse⟩,
   Parser_builtInHelpOption.2.2.2.2 _ _ (by decide) rfl (Or.inl rfl),
   Parser_builtInHelpOption.2.2.2.2 _ _ (by decide) rfl (Or.inr rfl)⟩

/-! ### Construction of options and children of a ValueOption -/

/-- Claim C27: the constructor of Option throws InvalidDefinition exactly when
(a) the short name is 0 and the long name is empty, or (b) the short name is
not 0 and is neither an ASCII letter or digit nor `?`, or (c) the long name is
not empty and is no legal parameter name; otherwise it gives the option with
that definition, not specified. The constructor of ValueOption throws in the
same cases and otherwise gives a ValueOption that is not specified and has no
values and no children. -/
theorem Option_new_throws_iff (d : OptionDefinition) :
    (CmdOption.new d = Except.error Error.InvalidDefinition
      ↔ (d.shortName = Char.ofNat 0 ∧ d.longName = "")
        ∨ (d.shortName ≠ Char.ofNat 0 ∧ isAsciiLetterOrDigit d.shortName = false
            ∧ d.shortName ≠ '?')
        ∨ (d.longName ≠ "" ∧ IsValidNonOptionName d.longName = false))
    ∧ (CmdOption.new d = Except.error Error.InvalidDefinition
        ∨ CmdOption.new d = Except.ok { mDefinition := d, mIsSpecified := false })
    ∧ (ValueOption.new d = Except.error Error.InvalidDefinition
        ↔ CmdOption.new d = Except.error Error.InvalidDefinition)
    ∧ (ValueOption.new d = Except.error Error.InvalidDefinition
        ∨ ValueOption.new d
            = Except.ok { mDefinition := d, mIsSpecified := false, mValues := [],
                          mParams := [] }) := by
  have hnew : CmdOption.new d =
      if (d.shortName = Char.ofNat 0 ∧ d.longName = "")
          ∨ (d.shortName ≠ Char.ofNat 0 ∧ isAsciiLetterOrDigit d.shortName = false
              ∧ d.shortName ≠ '?')
          ∨ (d.longName ≠ "" ∧ IsValidNonOptionName d.longName = false)
      then Except.error Error.InvalidDefinition
      else Except.ok { mDefinition := d, mIsSpecified := false } := by
    simp only [CmdOption.new, isalnum_eq_isAsciiLetterOrDigit]
    by_cases h0 : d.shortName = Char.ofNat 0 <;> by_cases hL : d.longName = ""
      <;> by_cases hq : d.shortName = '?'
      <;> cases ha : isAsciiLetterOrDigit d.shortName
      <;> cases hv : IsValidNonOptionName d.longName
      <;> simp [h0, hL, hq, ha, hv]
  have hval : ValueOption.new d =
      match CmdOption.new d with
      | Except.ok o => Except.ok { toCmdOption := o, mValues := [], mParams := [] }
      | Except.error e => Except.error e := rfl
  by_cases hc : (d.shortName = Char.ofNat 0 ∧ d.longName = "")
      ∨ (d.shortName ≠ Char.ofNat 0 ∧ isAsciiLetterOrDigit d.shortName = false
          ∧ d.shortName ≠ '?')
      ∨ (d.longName ≠ "" ∧ IsValidNonOptionName d.longName = false)
  · rw [if_pos hc] at hnew
    rw [hnew] at hval
    exact ⟨⟨fun _ => hc, fun _ => hnew⟩, Or.inl hnew, ⟨fun _ => hnew, fun _ => hval⟩,
      Or.inl hval⟩
  · rw [if_neg hc] at hnew
    rw [hnew] at hval
    refine ⟨⟨fun h => ?_, fun h => absurd h hc⟩, Or.inr hnew, ⟨fun h => ?_, fun h => ?_⟩,
      Or.inr hval⟩
    · rw [hnew] at h
      cases h
    · rw [hval] at h
      cases h
    · rw [hnew] at h
      cases h

/-! ### The usage text -/

theorem spaced_append (xs ys : List String) : spaced (xs ++ ys) = spaced xs ++ spaced ys := by
  induction xs with
  | nil =>
    apply String.ext
    simp [spaced, String.data_append]
  | cons x xs ih =>
    apply String.ext
    simp [spaced, ih, String.data_append]

theorem GenerateBracketedUsageLabel_eq (name : String) (m : Bool) :
    Parser.GenerateBracketedUsageLabel name m = bracketedLabel name m := by
  cases m <;> rfl

theorem foldl_spaced (g : PosParam → String) (ps : List PosParam) :
    ∀ (usage : String),
      ps.foldl (fun usage p => usage ++ " " ++ g p) usage = usage ++ spaced (ps.map g) := by
  induction ps with
  | nil =>
    intro usage
    apply String.ext
    simp [spaced, String.data_append]
  | cons p ps ih =>
    intro usage
    rw [List.foldl_cons, ih]
    apply String.ext
    simp [spaced, String.data_append]

theorem Parser_generateUsage_eq (P : Parser) :
    P.GenerateUsage = usageText P.mProgParam.mDefinition.name P.usageLabels := by
  unfold Parser.GenerateUsage Parser.GeneratePlainUsage Parser.usagePosParams usageText
    Parser.usageLabels
  simp only [foldl_spaced, GenerateBracketedUsageLabel_eq]
  cases hm : P.mMultiPosParam with
  | none =>
    apply String.ext
    simp [usageLabelsOf, String.data_append, usageHeader, endl, optionsLabel,
      optionalOpenBracket, optionalCloseBracket, helpMessagePrefix, helpMessagePostfix,
      List.map_map, Function.comp_def]
  | some m =>
    cases ho : m.mDefinition.order with
    | End =>
      apply String.ext
      simp [usageLabelsOf, ho, MultiPosParam.Order, spaced_append, spaced, String.data_append,
        usageHeader, endl, optionsLabel, optionalOpenBracket, optionalCloseBracket,
        helpMessagePrefix, helpMessagePostfix, multiPosParamIndicator, List.map_map,
        Function.comp_def]
    | AfterOptions =>
      apply String.ext
      simp [usageLabelsOf, ho, MultiPosParam.Order, spaced, String.data_append,
        usageHeader, endl, optionsLabel, optionalOpenBracket, optionalCloseBracket,
        helpMessagePrefix, helpMessagePostfix, multiPosParamIndicator, List.map_map,
        Function.comp_def]

theorem Parser_parse_keeps_definitions (P : Parser) (r : Status × Parser)
    (h : P.Parse = Except.ok r) :
    r.2.mProgParam.mDefinition = P.mProgParam.mDefinition
    ∧ r.2.mPosParams.map (fun d => d.mDefinition) = P.mPosParams.map (fun d => d.mDefinition)
    ∧ r.2.mMultiPosParam.map (fun d => d.mDefinition)
        = P.mMultiPosParam.map (fun d => d.mDefinition) := by
  unfold Parser.Parse at h
  cases hfill : P.FillArgQueue with
  | error e =>
    rw [hfill] at h
    cases h
  | ok r1 =>
    obtain ⟨hframe, _⟩ := Parser_fillArgQueue_frame P r1 hfill
    obtain ⟨st, P1⟩ := r1
    have hP1 : P1 = { P with mArgQueue := P1.mArgQueue } := hframe
    rw [hfill] at h
    cases st with
    | Failure =>
      simp only at h
      cases h
      rw [hP1]
      exact ⟨rfl, rfl, rfl⟩
    | Success =>
      simp only at h
      have hI : P1.FillArgParamVector.mProgParam.mDefinition = P.mProgParam.mDefinition
          ∧ P1.FillArgParamVector.mPosParams.map (fun d => d.mDefinition)
              = P.mPosParams.map (fun d => d.mDefinition)
          ∧ P1.FillArgParamVector.mMultiPosParam.map (fun d => d.mDefinition)
              = P.mMultiPosParam.map (fun d => d.mDefinition) := by
        rw [hP1]
        exact ⟨rfl, rfl, rfl⟩
      exact Parser_loop_preserves
        (fun Q => Q.mProgParam.mDefinition = P.mProgParam.mDefinition
          ∧ Q.mPosParams.map (fun d => d.mDefinition) = P.mPosParams.map (fun d => d.mDefinition)
          ∧ Q.mMultiPosParam.map (fun d => d.mDefinition)
              = P.mMultiPosParam.map (fun d => d.mDefinition))
        (fun Q p hQ _ =>
          ⟨(Parser_populate_frame Q p).2.2.1.trans hQ.1,
           (Parser_populate_frame Q p).2.2.2.1.trans hQ.2.1,
           (Parser_populate_frame Q p).2.2.2.2.1.trans hQ.2.2⟩)
        _ _ r hI h

/-- Claim C28: GenerateUsage returns the text `Usage:`, a line feed, two
spaces, the program name and ` [options]`, then each label after one space,
then a blank line and the line `Try '<program name> --help' for more info`. A
mandatory parameter has the label <name>, an optional one [name]; the labels
of the PosParams stand in registration order, the label of the MultiPosParam
carries the suffix `...` and stands before them when its order is AfterOptions
and after them when its order is End. A Parse that returns leaves the text as
it was. For the copy and filesearch programs of the tests the texts are the
expected ones. -/
theorem GenerateUsage_text (P : Parser) :
    P.GenerateUsage = usageText P.mProgParam.mDefinition.name P.usageLabels
    ∧ (∀ (r : Status × Parser), P.Parse = Except.ok r → r.2.GenerateUsage = P.GenerateUsage)
    ∧ (copyParserState ["copy"]).GenerateUsage
        = "Usage:\n  copy [options] <source>... <destination>\n\nTry 'copy --help' for more info\n"
    ∧ (searchParserState ["filesearch"]).GenerateUsage
        = "Usage:\n  filesearch [options] <pattern> <filenames>...\n\nTry 'filesearch --help' for more info\n"
    ∧ (nameLookupParserState false ["namelookup"]).GenerateUsage
        = "Usage:\n  namelookup [options] [hostname]\n\nTry 'namelookup --help' for more info\n" := by
  refine ⟨Parser_generateUsage_eq P, ?_, by decide, by decide, by decide⟩
  intro r h
  obtain ⟨h1, h2, h3⟩ := Parser_parse_keeps_definitions P r h
  rw [Parser_generateUsage_eq, Parser_generateUsage_eq]
  unfold Parser.usageLabels
  rw [h1, h2, h3]

theorem GenerateUsage_text_witness :
    (copyParserState ["copy", "Source1.txt", "Destination.txt"]).Parse
      = Except.ok (Status.Success,
          { copyParserState ["copy", "Source1.txt", "Destination.txt"] with
            mArgParams := [ArgParamPtr.progParam, ArgParamPtr.option 0, ArgParamPtr.option 1,
                           ArgParamPtr.posParam 0, ArgParamPtr.multiPosParam],
            mPosParams := [{ mDefinition := { name := "destination", isMandatory := true },
                             mValue := "Destination.txt", mIsSpecified := true }],
            mMultiPosParam :=
              some { mDefinition := { name := "source", isMandatory := true,
                                      order := ParsingOrder.AfterOptions },
                     mIsSpecified := true, mValues := ["Source1.txt"] },
            mProgParam := { mDefinition := { name := "copy" }, mIsSpecified := true,
                            mValue := "copy" } })
    ∧ Parser.GenerateUsage
        { copyParserState ["copy", "Source1.txt", "Destination.txt"] with
          mArgParams := [ArgParamPtr.progParam, ArgParamPtr.option 0, ArgParamPtr.option 1,
                         ArgParamPtr.posParam 0, ArgParamPtr.multiPosParam],
          mPosParams := [{ mDefinition := { name := "destination", isMandatory := true },
                           mValue := "Destination.txt", mIsSpecified := true }],
          mMultiPosParam :=
            some { mDefinition := { name := "source", isMandatory := true,
                                    order := ParsingOrder.AfterOptions },
                   mIsSpecified := true, mValues := ["Source1.txt"] },
          mProgParam := { mDefinition := { name := "copy" }, mIsSpecified := true,
                          mValue := "copy" } }
      = (copyParserState ["copy", "Source1.txt", "Destination.txt"]).GenerateUsage :=
  have hparse : (copyParserState ["copy", "Source1.txt", "Destination.txt"]).Parse
      = Except.ok (Status.Success,
          { copyParserState ["copy", "Source1.txt", "Destination.txt"] with
            mArgParams := [ArgParamPtr.progParam, ArgParamPtr.option 0, ArgParamPtr.option 1,
                           ArgParamPtr.posParam 0, ArgParamPtr.multiPosParam],
            mPosParams := [{ mDefinition := { name := "destination", isMandatory := true },
                             mValue := "Destination.txt", mIsSpecified := true }],
            mMultiPosParam :=
              some { mDefinition := { name := "source", isMandatory := true,
                                      order := ParsingOrder.AfterOptions },
                     mIsSpecified := true, mValues := ["Source1.txt"] },
            mProgParam := { mDefinition := { name := "copy" }, mIsSpecified := true,
                            mValue := "copy" } }) := by decide
  ⟨hparse, (GenerateUsage_text _).2.1 _ hparse⟩

/-- Claim C29: ValueOption::Add throws NullOptionParam for a null pointer; for
an OptionParam p it throws DuplicateOptionParam exactly when a child with the
name of p was added before, and otherwise the ValueOption afterwards is the
one before with p after the children it had. A call that throws gives no new
ValueOption: the throw comes before the `push_back`, the children stay as they
were. -/
theorem ValueOption_Add_iff (v : ValueOption) (p : OptionParam) :
    v.Add none = Except.error Error.NullOptionParam
    ∧ (v.Add (some p) = Except.error Error.DuplicateOptionParam
        ↔ ∃ c ∈ v.mParams, c.mDefinition.name = p.mDefinition.name)
    ∧ v.Add (some p)
        = if (∃ c ∈ v.mParams, c.mDefinition.name = p.mDefinition.name)
          then Except.error Error.DuplicateOptionParam
          else Except.ok { v with mParams := v.mParams ++ [p] } := by
  have hany : (v.mParams.any (fun param =>
      decide (param.mDefinition.name = p.mDefinition.name)) = true)
      ↔ ∃ c ∈ v.mParams, c.mDefinition.name = p.mDefinition.name := by
    simp [List.any_eq_true]
  refine ⟨rfl, ?_, ?_⟩
  · simp only [ValueOption.Add]
    by_cases h : ∃ c ∈ v.mParams, c.mDefinition.name = p.mDefinition.name
    · simp [hany.mpr h, h]
    · have h2 : ¬ (v.mParams.any (fun param =>
          decide (param.mDefinition.name = p.mDefinition.name)) = true) :=
        fun hh => h (hany.mp hh)
      simp only [h2, if_false, h, iff_false]
      intro hcontra
      cases hcontra
  · simp only [ValueOption.Add]
    by_cases h : ∃ c ∈ v.mParams, c.mDefinition.name = p.mDefinition.name
    · rw [if_pos (hany.mpr h), if_pos h]
    · have h2 : ¬ (v.mParams.any (fun param =>
          decide (param.mDefinition.name = p.mDefinition.name)) = true) :=
        fun hh => h (hany.mp hh)
      rw [if_neg h2, if_neg h]

/-! ### Mandatory OptionParams -/

/-- Claim C30, the behaviour of the code: on a Parser whose ValueOption
--edit owns the mandatory OptionParam song, Parse of [prog, --edit, artist=x]
and Parse of [prog] succeed and leave song unspecified, and
AllMandatoryParamsSpecified() returns true: it asks the parameters of
`mArgParams` only, and no OptionParam is ever put there. -/
theorem AllMandatoryParamsSpecified_ignores_OptionParam :
    ((mandatoryChildParser ["prog", "--edit", "artist=x"]).bind Parser.Parse).map
        (fun r => (r.1, r.2.AllMandatoryParamsSpecified))
      = Except.ok (Status.Success, true)
    ∧ ((mandatoryChildParser ["prog", "--edit", "artist=x"]).bind Parser.Parse).map
        (fun r => r.2.childFlags)
      = Except.ok [[], [("song", true, false), ("artist", false, true)]]
    ∧ ((mandatoryChildParser ["prog", "--edit", "artist=x"]).bind Parser.Parse).map
        (fun r => r.2.mArgParams)
      = Except.ok [ArgParamPtr.progParam, ArgParamPtr.option 0, ArgParamPtr.option 1]
    ∧ ((mandatoryChildParser ["prog"]).bind Parser.Parse).map
        (fun r => (r.1, r.2.AllMandatoryParamsSpecified))
      = Except.ok (Status.Success, true)
    ∧ ((mandatoryChildParser ["prog"]).bind Parser.Parse).map (fun r => r.2.childFlags)
      = Except.ok [[], [("song", true, false), ("artist", false, false)]] := by
  refine ⟨by decide, by decide, by decide, by decide, by decide⟩

/-! ### The specified flag never goes back -/

theorem CmdOption_populate_flag (o : CmdOption) (q : List String) :
    (o.mIsSpecified = true → (o.Populate q).2.1.mIsSpecified = true)
    ∧ ((o.Populate q).1 = false → (o.Populate q).2.1 = o) := by
  simp only [CmdOption.Populate]
  split
  · exact ⟨fun _ => rfl, fun h => by cases h⟩
  · exact ⟨fun h => h, fun _ => rfl⟩

theorem ValueOption_populate_flag (v : ValueOption) (q : List String) :
    (v.mIsSpecified = true → (v.Populate q).2.1.mIsSpecified = true)
    ∧ ((v.Populate q).1 = false → (v.Populate q).2.1 = v) := by
  by_cases hcan : v.CanPopulate q = true
  · have hlen : 2 ≤ q.length := by
      simp only [ValueOption.CanPopulate] at hcan
      split at hcan
      · split at hcan
        · assumption
        · cases hcan
      · cases hcan
    match q, hcan, hlen with
    | t0 :: value :: rest, hcan, _ =>
      rw [ValueOption_populate_of_canPopulate v t0 value rest hcan]
      exact ⟨fun _ => rfl, fun h => by cases h⟩
  · have hp : v.Populate q = (false, v, q) := by
      unfold ValueOption.Populate
      simp [hcan]
    rw [hp]
    exact ⟨fun h => h, fun _ => rfl⟩

theorem PosParam_populate_flag (p : PosParam) (q : List String) :
    (p.mIsSpecified = true → (p.Populate q).2.1.mIsSpecified = true)
    ∧ ((p.Populate q).1 = false → (p.Populate q).2.1 = p) := by
  simp only [PosParam.Populate]
  split
  · cases q with
    | nil => exact ⟨fun h => h, fun _ => rfl⟩
    | cons a rest => exact ⟨fun _ => rfl, fun h => by cases h⟩
  · exact ⟨fun h => h, fun _ => rfl⟩

theorem MultiPosParam_populate_flag (m : MultiPosParam) (q : List String) :
    (m.mIsSpecified = true → (m.Populate q).2.1.mIsSpecified = true)
    ∧ ((m.Populate q).1 = false → (m.Populate q).2.1 = m) := by
  simp only [MultiPosParam.Populate]
  split
  · exact ⟨fun _ => rfl, fun h => by cases h⟩
  · exact ⟨fun h => h, fun _ => rfl⟩

theorem OptionPtr_populate_flag (o : OptionPtr) (q : List String) :
    o.IsSpecified = true → (o.Populate q).2.1.IsSpecified = true := by
  cases o with
  | option o => exact (CmdOption_populate_flag o q).1
  | valueOption v => exact (ValueOption_populate_flag v q).1

theorem getElem?_map_set_true {α : Type} (f : α → Bool) (l : List α) (i : Nat) (a b : α)
    (hi : l[i]? = some a) (hf : f a = true → f b = true) :
    ∀ (j : Nat), (l.map f)[j]? = some true → ((l.set i b).map f)[j]? = some true := by
  intro j hj
  rw [List.getElem?_map] at hj ⊢
  rw [List.getElem?_set]
  by_cases hij : i = j
  · subst hij
    rw [hi] at hj
    simp only [Option.map_some', Option.some.injEq] at hj
    have hlt : i < l.length := by
      rcases Nat.lt_or_ge i l.length with h | h
      · exact h
      · rw [List.getElem?_eq_none h] at hi
        cases hi
    simp [hlt, hf hj]
  · simp only [hij, if_false]
    exact hj

/-- What a virtual `Populate` through a pointer of `mArgParams` does to the
specified flags: none goes from true to false, and the numbers of registered
options and PosParams stay. -/
theorem Parser_populate_flags (Q : Parser) (p : ArgParamPtr) :
    (Q.Populate p).2.optionsSpecified.length = Q.optionsSpecified.length
    ∧ (∀ (j : Nat), Q.optionsSpecified[j]? = some true →
        (Q.Populate p).2.optionsSpecified[j]? = some true)
    ∧ (Q.Populate p).2.posSpecified.length = Q.posSpecified.length
    ∧ (∀ (j : Nat), Q.posSpecified[j]? = some true →
        (Q.Populate p).2.posSpecified[j]? = some true)
    ∧ (Q.multiSpecified = true → (Q.Populate p).2.multiSpecified = true) := by
  cases p with
  | progParam => exact ⟨rfl, fun _ h => h, rfl, fun _ h => h, fun h => h⟩
  | option i =>
    simp only [Parser.Populate]
    cases hi : Q.mOptions[i]? with
    | none => exact ⟨rfl, fun _ h => h, rfl, fun _ h => h, fun h => h⟩
    | some o =>
      refine ⟨by simp [Parser.optionsSpecified], ?_, rfl, fun _ h => h, fun h => h⟩
      exact getElem?_map_set_true OptionPtr.IsSpecified Q.mOptions i o _ hi
        (OptionPtr_populate_flag o _)
  | posParam i =>
    simp only [Parser.Populate]
    cases hi : Q.mPosParams[i]? with
    | none => exact ⟨rfl, fun _ h => h, rfl, fun _ h => h, fun h => h⟩
    | some d =>
      refine ⟨rfl, fun _ h => h, by simp [Parser.posSpecified], ?_, fun h => h⟩
      exact getElem?_map_set_true (fun p => p.mIsSpecified) Q.mPosParams i d _ hi
        (PosParam_populate_flag d _).1
  | multiPosParam =>
    simp only [Parser.Populate]
    cases hm : Q.mMultiPosParam with
    | none => exact ⟨rfl, fun _ h => h, rfl, fun _ h => h, fun h => h⟩
    | some m =>
      refine ⟨rfl, fun _ h => h, rfl, fun _ h => h, ?_⟩
      intro h
      simp only [Parser.multiSpecified, hm] at h
      simp only [Parser.multiSpecified]
      exact (MultiPosParam_populate_flag m _).1 h

theorem Parser_parse_flags (P : Parser) (r : Status × Parser) (h : P.Parse = Except.ok r) :
    r.2.optionsSpecified.length = P.optionsSpecified.length
    ∧ (∀ (j : Nat), P.optionsSpecified[j]? = some true → r.2.optionsSpecified[j]? = some true)
    ∧ r.2.posSpecified.length = P.posSpecified.length
    ∧ (∀ (j : Nat), P.posSpecified[j]? = some true → r.2.posSpecified[j]? = some true)
    ∧ (P.multiSpecified = true → r.2.multiSpecified = true) := by
  unfold Parser.Parse at h
  cases hfill : P.FillArgQueue with
  | error e =>
    rw [hfill] at h
    cases h
  | ok r1 =>
    obtain ⟨hframe, _⟩ := Parser_fillArgQueue_frame P r1 hfill
    obtain ⟨st, P1⟩ := r1
    have hP1 : P1 = { P with mArgQueue := P1.mArgQueue } := hframe
    rw [hfill] at h
    cases st with
    | Failure =>
      simp only at h
      cases h
      rw [hP1]
      exact ⟨rfl, fun _ hj => hj, rfl, fun _ hj => hj, fun hj => hj⟩
    | Success =>
      simp only at h
      have hI : P1.FillArgParamVector.optionsSpecified.length = P.optionsSpecified.length
          ∧ (∀ (j : Nat), P.optionsSpecified[j]? = some true →
              P1.FillArgParamVector.optionsSpecified[j]? = some true)
          ∧ P1.FillArgParamVector.posSpecified.length = P.posSpecified.length
          ∧ (∀ (j : Nat), P.posSpecified[j]? = some true →
              P1.FillArgParamVector.posSpecified[j]? = some true)
          ∧ (P.multiSpecified = true → P1.FillArgParamVector.multiSpecified = true) := by
        rw [hP1]
        exact ⟨rfl, fun _ hj => hj, rfl, fun _ hj => hj, fun hj => hj⟩
      exact Parser_loop_preserves
        (fun Q => Q.optionsSpecified.length = P.optionsSpecified.length
          ∧ (∀ (j : Nat), P.optionsSpecified[j]? = some true →
              Q.optionsSpecified[j]? = some true)
          ∧ Q.posSpecified.length = P.posSpecified.length
          ∧ (∀ (j : Nat), P.posSpecified[j]? = some true → Q.posSpecified[j]? = some true)
          ∧ (P.multiSpecified = true → Q.multiSpecified = true))
        (fun Q p hQ _ =>
          ⟨(Parser_populate_flags Q p).1.trans hQ.1,
           fun j hj => (Parser_populate_flags Q p).2.1 j (hQ.2.1 j hj),
           (Parser_populate_flags Q p).2.2.1.trans hQ.2.2.1,
           fun j hj => (Parser_populate_flags Q p).2.2.2.1 j (hQ.2.2.2.1 j hj),
           fun hj => (Parser_populate_flags Q p).2.2.2.2 (hQ.2.2.2.2 hj)⟩)
        _ _ r hI h

/-- Claim C31: the specified flag of an Option, a ValueOption, a PosParam and
a MultiPosParam never goes from true to false. Populate keeps a flag that is
true, and a Populate that returns false leaves the whole object as it was
(CanPopulate and Consumes are const and return a value only); Set(Style) and
ValueOption::Add keep the flag; on a Parser, Set(Style) keeps every flag, Add
keeps the flags of the parameters registered before, and a Parse that returns,
whatever the state of the Parser before it (a repeated Parse too), keeps the
number of registered options and PosParams and leaves every flag that was true
true. -/
theorem IsSpecified_never_reverts :
    (∀ (o : CmdOption) (q : List String),
        (o.mIsSpecified = true → (o.Populate q).2.1.mIsSpecified = true)
        ∧ ((o.Populate q).1 = false → (o.Populate q).2.1 = o))
    ∧ (∀ (v : ValueOption) (q : List String),
        (v.mIsSpecified = true → (v.Populate q).2.1.mIsSpecified = true)
        ∧ ((v.Populate q).1 = false → (v.Populate q).2.1 = v))
    ∧ (∀ (p : PosParam) (q : List String),
        (p.mIsSpecified = true → (p.Populate q).2.1.mIsSpecified = true)
        ∧ ((p.Populate q).1 = false → (p.Populate q).2.1 = p))
    ∧ (∀ (m : MultiPosParam) (q : List String),
        (m.mIsSpecified = true → (m.Populate q).2.1.mIsSpecified = true)
        ∧ ((m.Populate q).1 = false → (m.Populate q).2.1 = m))
    ∧ (∀ (o : OptionPtr) (s : Style), (o.Set s).IsSpecified = o.IsSpecified)
    ∧ (∀ (v v2 : ValueOption) (c : Option OptionParam), v.Add c = Except.ok v2 →
        v2.mIsSpecified = v.mIsSpecified)
    ∧ (∀ (P : Parser) (s : Style), (P.Set s).optionsSpecified = P.optionsSpecified
        ∧ (P.Set s).posSpecified = P.posSpecified
        ∧ (P.Set s).multiSpecified = P.multiSpecified)
    ∧ (∀ (P P2 : Parser) (o : OptionPtr), P.Add (some o) = Except.ok P2 →
        P2.optionsSpecified = P.optionsSpecified ++ [o.IsSpecified]
        ∧ P2.posSpecified = P.posSpecified ∧ P2.multiSpecified = P.multiSpecified)
    ∧ (∀ (P P2 : Parser) (p : PosParam), P.AddPosParam (some p) = Except.ok P2 →
        P2.posSpecified = P.posSpecified ++ [p.mIsSpecified]
        ∧ P2.optionsSpecified = P.optionsSpecified ∧ P2.multiSpecified = P.multiSpecified)
    ∧ (∀ (P : Parser) (r : Status × Parser), P.Parse = Except.ok r →
        r.2.optionsSpecified.length = P.optionsSpecified.length
        ∧ (∀ (j : Nat), P.optionsSpecified[j]? = some true →
            r.2.optionsSpecified[j]? = some true)
        ∧ r.2.posSpecified.length = P.posSpecified.length
        ∧ (∀ (j : Nat), P.posSpecified[j]? = some true → r.2.posSpecified[j]? = some true)
        ∧ (P.multiSpecified = true → r.2.multiSpecified = true)) := by
  refine ⟨CmdOption_populate_flag, ValueOption_populate_flag, PosParam_populate_flag,
    MultiPosParam_populate_flag, ?_, ?_, ?_, ?_, ?_, Parser_parse_flags⟩
  · intro o s
    cases o <;> rfl
  · intro v v2 c h
    cases c with
    | none => cases h
    | some c =>
      simp only [ValueOption.Add] at h
      split at h
      · cases h
      · cases h
        rfl
  · intro P s
    refine ⟨?_, rfl, rfl⟩
    simp only [Parser.optionsSpecified, Parser.Set, List.map_map]
    apply List.map_congr_left
    intro o _
    cases o <;> rfl
  · intro P P2 o h
    simp only [Parser.Add] at h
    split at h
    · cases h
    · cases h
      exact ⟨by simp [Parser.optionsSpecified], rfl, rfl⟩
  · intro P P2 p h
    simp only [Parser.AddPosParam] at h
    split at h
    · cases h
    · cases h
      exact ⟨by simp [Parser.posSpecified], rfl, rfl⟩

theorem IsSpecified_never_reverts_witness :
    (nameLookupParserState true ["namelookup", "-v", "test.example.com"]).Parse
      = Except.ok (Status.Success, nameLookupParsedState)
    ∧ nameLookupParsedState.Parse
      = Except.ok (Status.Failure,
          { nameLookupParsedState with
            mArgQueue := ["namelookup", "-v", "test.example.com"] })
    ∧ nameLookupParsedState.optionsSpecified[1]? = some true
    ∧ Parser.optionsSpecified
        { nameLookupParsedState with
          mArgQueue := ["namelookup", "-v", "test.example.com"] } = [false, true]
    ∧ (Parser.optionsSpecified
        { nameLookupParsedState with
          mArgQueue := ["namelookup", "-v", "test.example.com"] })[1]? = some true
    ∧ (Parser.posSpecified
        { nameLookupParsedState with
          mArgQueue := ["namelookup", "-v", "test.example.com"] })[0]? = some true :=
  have hparse : nameLookupParsedState.Parse
      = Except.ok (Status.Failure,
          { nameLookupParsedState with
            mArgQueue := ["namelookup", "-v", "test.example.com"] }) := by decide
  ⟨by decide, hparse, by decide, by decide,
   (IsSpecified_never_reverts.2.2.2.2.2.2.2.2.2 _ _ hparse).2.1 1 (by decide),
   (IsSpecified_never_reverts.2.2.2.2.2.2.2.2.2 _ _ hparse).2.2.2.1 0 (by decide)⟩

/-! ### Termination of the population loop -/

theorem OptionPtr_populate_queue_length (o : OptionPtr) (q : List String) :
    (o.Populate q).2.2.length ≤ q.length := by
  cases o with
  | option o =>
    simp only [OptionPtr.Populate, CmdOption.Populate]
    split
    · simp
    · exact Nat.le_refl _
  | valueOption v =>
    simp only [OptionPtr.Populate]
    by_cases hcan : v.CanPopulate q = true
    · have hlen : 2 ≤ q.length := by
        simp only [ValueOption.CanPopulate] at hcan
        split at hcan
        · split at hcan
          · assumption
          · cases hcan
        · cases hcan
      match q, hcan, hlen with
      | t0 :: value :: rest, hcan, _ =>
        rw [ValueOption_populate_of_canPopulate v t0 value rest hcan]
        simp only [List.length_cons]
        omega
    · have hp : v.Populate q = (false, v, q) := by
        unfold ValueOption.Populate
        simp [hcan]
      exact hp ▸ Nat.le_refl _

theorem Parser_populate_queue_length (Q : Parser) (p : ArgParamPtr) :
    (Q.Populate p).2.mArgQueue.length ≤ Q.mArgQueue.length := by
  cases p with
  | progParam =>
    simp only [Parser.Populate, ProgParam.Populate]
    split
    · cases Q.mArgQueue with
      | nil => exact Nat.le_refl _
      | cons a rest => simp
    · exact Nat.le_refl _
  | option i =>
    simp only [Parser.Populate]
    cases Q.mOptions[i]? with
    | none => exact Nat.le_refl _
    | some o => exact OptionPtr_populate_queue_length o _
  | posParam i =>
    simp only [Parser.Populate]
    cases Q.mPosParams[i]? with
    | none => exact Nat.le_refl _
    | some d =>
      simp only [PosParam.Populate]
      split
      · cases Q.mArgQueue with
        | nil => exact Nat.le_refl _
        | cons a rest => simp
      · exact Nat.le_refl _
  | multiPosParam =>
    simp only [Parser.Populate]
    cases Q.mMultiPosParam with
    | none => exact Nat.le_refl _
    | some m =>
      simp only [MultiPosParam.Populate]
      split
      · simp
      · exact Nat.le_refl _

theorem Parser_populateFirst_queue_length (Q : Parser) (ps : List ArgParamPtr) :
    (Q.PopulateFirst ps).2.mArgQueue.length ≤ Q.mArgQueue.length := by
  induction ps with
  | nil => exact Nat.le_refl _
  | cons p ps ih =>
    simp only [Parser.PopulateFirst]
    split
    · exact Parser_populate_queue_length Q p
    · exact ih

theorem Parser_loop_unfold (fuel : Nat) (Q : Parser) (a : String) (rest : List String)
    (hq : Q.mArgQueue = a :: rest) :
    Parser.PopulateArgParamsLoop (fuel + 1) Q
      = if (!(Q.PopulateFirst Q.mArgParams).1
            || decide ((Q.PopulateFirst Q.mArgParams).2.mArgQueue.length = Q.mArgQueue.length))
            = true
        then Except.ok (Status.Failure, (Q.PopulateFirst Q.mArgParams).2)
        else Parser.PopulateArgParamsLoop fuel (Q.PopulateFirst Q.mArgParams).2 := by
  conv_lhs => unfold Parser.PopulateArgParamsLoop
  simp only [hq]

theorem Parser_loop_decrease (Q : Parser)
    (h : ¬ (!(Q.PopulateFirst Q.mArgParams).1
            || decide ((Q.PopulateFirst Q.mArgParams).2.mArgQueue.length = Q.mArgQueue.length))
            = true) :
    (Q.PopulateFirst Q.mArgParams).2.mArgQueue.length < Q.mArgQueue.length := by
  have hle := Parser_populateFirst_queue_length Q Q.mArgParams
  simp only [Bool.or_eq_true, Bool.not_eq_true', decide_eq_true_eq, not_or] at h
  omega

theorem Parser_loop_returns (fuel : Nat) :
    ∀ (Q : Parser), Q.mArgQueue.length ≤ fuel →
      ∃ r, Parser.PopulateArgParamsLoop fuel Q = Except.ok r
        ∧ (r.1 = Status.Success → r.2.mArgQueue = []) := by
  induction fuel with
  | zero =>
    intro Q hlen
    have hq : Q.mArgQueue = [] := List.length_eq_zero.mp (Nat.le_zero.mp hlen)
    exact ⟨(Status.Success, Q), Parser_loop_nil 0 Q hq, fun _ => hq⟩
  | succ fuel ih =>
    intro Q hlen
    cases hq : Q.mArgQueue with
    | nil => exact ⟨(Status.Success, Q), Parser_loop_nil _ Q hq, fun _ => hq⟩
    | cons a rest =>
      rw [Parser_loop_unfold fuel Q a rest hq]
      split
      · exact ⟨_, rfl, fun hs => by cases hs⟩
      · rename_i hc
        have hlt := Parser_loop_decrease Q hc
        exact ih _ (by omega)

theorem Parser_loop_fuel (fuel1 : Nat) :
    ∀ (fuel2 : Nat) (Q : Parser), Q.mArgQueue.length ≤ fuel1 → Q.mArgQueue.length ≤ fuel2 →
      Parser.PopulateArgParamsLoop fuel1 Q = Parser.PopulateArgParamsLoop fuel2 Q := by
  induction fuel1 with
  | zero =>
    intro fuel2 Q h1 _
    have hq : Q.mArgQueue = [] := List.length_eq_zero.mp (Nat.le_zero.mp h1)
    rw [Parser_loop_nil 0 Q hq, Parser_loop_nil fuel2 Q hq]
  | succ fuel1 ih =>
    intro fuel2 Q h1 h2
    cases hq : Q.mArgQueue with
    | nil => rw [Parser_loop_nil _ Q hq, Parser_loop_nil fuel2 Q hq]
    | cons a rest =>
      cases fuel2 with
      | zero =>
        rw [hq] at h2
        simp at h2
      | succ fuel2 =>
        rw [Parser_loop_unfold fuel1 Q a rest hq, Parser_loop_unfold fuel2 Q a rest hq]
        split
        · rfl
        · rename_i hc
          have hlt := Parser_loop_decrease Q hc
          exact ih fuel2 _ (by omega) (by omega)

theorem Parser_moveOptionsLoop_error (opts : List OptionPtr) (n : Nat) :
    ∀ (rest : List String), rest.length ≤ n →
    ∀ (skipped queue : List String) (e : Error),
      Parser.MoveOptionsLoop opts skipped rest queue = Except.error e →
      e = Error.OutOfBounds := by
  induction n with
  | zero =>
    intro rest hlen skipped queue e h
    cases rest with
    | nil =>
      simp only [Parser.MoveOptionsLoop] at h
      cases h
    | cons a rs => simp at hlen
  | succ n ih =>
    intro rest hlen skipped queue e h
    cases rest with
    | nil =>
      simp only [Parser.MoveOptionsLoop] at h
      cases h
    | cons a rs =>
      have hrs : rs.length ≤ n := by simpa using hlen
      unfold Parser.MoveOptionsLoop at h
      split at h
      · exact ih rs hrs _ _ e h
      · simp only at h
        split at h
        · cases h
        · split at h
          · cases rs with
            | nil =>
              simp only at h
              cases h
              rfl
            | cons b rs2 =>
              simp only at h
              have hrs2 : rs2.length ≤ n := by
                simp only [List.length_cons] at hrs
                omega
              exact ih rs2 hrs2 _ _ e h
          · exact ih rs hrs _ _ e h

theorem Parser_fillArgQueue_error (P : Parser) (e : Error)
    (h : P.FillArgQueue = Except.error e) : e = Error.OutOfBounds := by
  unfold Parser.FillArgQueue at h
  cases hA : P.mArgs with
  | nil =>
    simp only [hA] at h
    cases h
    rfl
  | cons programArg workingArgQueue =>
    simp only [hA, Parser.MoveOptionsToArgQueue] at h
    cases hM : Parser.MoveOptionsLoop P.mOptions [] workingArgQueue [programArg] with
    | error e2 =>
      simp only [hM] at h
      cases h
      exact Parser_moveOptionsLoop_error P.mOptions workingArgQueue.length workingArgQueue
        (Nat.le_refl _) _ _ _ hM
    | ok r0 =>
      obtain ⟨st, source, queue⟩ := r0
      simp only [hM] at h
      cases st with
      | Failure =>
        simp only at h
        cases h
      | Success =>
        simp only at h
        cases hm : P.mMultiPosParam with
        | none =>
          simp only [hm] at h
          cases h
        | some m =>
          simp only [hm] at h
          split at h <;> cases h

/-- Claim C32, the code at the failing input: with the ValueOption -p defined
with a short name only, Parse of [prog, empty token, x, -p] returns no Status:
MoveOptionsToArgQueue reads past the end of the working queue. Everything else
of the claim holds for every state of the Parser: every iteration of the loop
of PopulateArgParams on a queue that is not empty returns Failure or makes the
queue strictly shorter and goes on; so PopulateArgParams returns (the length
of the queue is fuel enough, and any larger fuel gives the same result), and
when it returns Success the queue is empty. Whenever FillArgQueue returns,
Parse returns a Status; the read past the end is the only way in which Parse
has no result; and when Parse returns Success the queue is empty. -/
theorem Parse_terminates_unless_read_past_end (P : Parser) :
    (∀ (fuel : Nat) (a : String) (rest : List String), P.mArgQueue = a :: rest →
        Parser.PopulateArgParamsLoop (fuel + 1) P
            = Except.ok (Status.Failure, (P.PopulateFirst P.mArgParams).2)
        ∨ ((P.PopulateFirst P.mArgParams).2.mArgQueue.length < P.mArgQueue.length
            ∧ Parser.PopulateArgParamsLoop (fuel + 1) P
                = Parser.PopulateArgParamsLoop fuel (P.PopulateFirst P.mArgParams).2))
    ∧ (∃ r, P.PopulateArgParams = Except.ok r)
    ∧ (∀ (fuel : Nat), P.mArgQueue.length ≤ fuel →
        Parser.PopulateArgParamsLoop fuel P = P.PopulateArgParams)
    ∧ (∀ (P2 : Parser), P.PopulateArgParams = Except.ok (Status.Success, P2) →
        P2.mArgQueue = [])
    ∧ (∀ (r1 : Status × Parser), P.FillArgQueue = Except.ok r1 → ∃ r, P.Parse = Except.ok r)
    ∧ (∀ (e : Error), P.FillArgQueue = Except.error e →
        e = Error.OutOfBounds ∧ P.Parse = Except.error Error.OutOfBounds)
    ∧ (∀ (P2 : Parser), P.Parse = Except.ok (Status.Success, P2) → P2.mArgQueue = [])
    ∧ (shortValueParser ["prog", "", "x", "-p"]).bind Parser.FillArgQueue
        = Except.error Error.OutOfBounds
    ∧ (shortValueParser ["prog", "", "x", "-p"]).bind Parser.Parse
        = Except.error Error.OutOfBounds
    ∧ ((shortValueParser ["prog", "-p", "x", ""]).bind Parser.Parse).map
        (fun r => (r.1, r.2.mArgQueue))
        = Except.ok (Status.Failure, [""]) := by
  refine ⟨?_, ?_, ?_, ?_, ?_, ?_, ?_, by decide, by decide, by decide⟩
  · intro fuel a rest hq
    rw [Parser_loop_unfold fuel P a rest hq]
    split
    · exact Or.inl rfl
    · rename_i hc
      exact Or.inr ⟨Parser_loop_decrease P hc, rfl⟩
  · obtain ⟨r, hr, _⟩ := Parser_loop_returns P.mArgQueue.length P (Nat.le_refl _)
    exact ⟨r, hr⟩
  · intro fuel hfuel
    exact Parser_loop_fuel fuel P.mArgQueue.length P hfuel (Nat.le_refl _)
  · intro P2 h
    obtain ⟨r, hr, hs⟩ := Parser_loop_returns P.mArgQueue.length P (Nat.le_refl _)
    unfold Parser.PopulateArgParams at h
    rw [hr] at h
    cases h
    exact hs rfl
  · intro r1 hfill
    unfold Parser.Parse
    rw [hfill]
    obtain ⟨st, P1⟩ := r1
    cases st with
    | Failure => exact ⟨_, rfl⟩
    | Success =>
      obtain ⟨r, hr, _⟩ := Parser_loop_returns P1.FillArgParamVector.mArgQueue.length
        P1.FillArgParamVector (Nat.le_refl _)
      exact ⟨r, hr⟩
  · intro e hfill
    have he := Parser_fillArgQueue_error P e hfill
    subst he
    refine ⟨rfl, ?_⟩
    unfold Parser.Parse
    rw [hfill]
  · intro P2 h
    unfold Parser.Parse at h
    cases hfill : P.FillArgQueue with
    | error e =>
      rw [hfill] at h
      cases h
    | ok r1 =>
      obtain ⟨st, P1⟩ := r1
      rw [hfill] at h
      cases st with
      | Failure =>
        simp only at h
        cases h
      | Success =>
        simp only at h
        obtain ⟨r, hr, hs⟩ := Parser_loop_returns P1.FillArgParamVector.mArgQueue.length
          P1.FillArgParamVector (Nat.le_refl _)
        unfold Parser.PopulateArgParams at h
        rw [hr] at h
        cases h
        exact hs rfl

theorem Parse_terminates_unless_read_past_end_witness :
    (nameLookupParserState true ["namelookup", "-v", "test.example.com"]).Parse
      = Except.ok (Status.Success, nameLookupParsedState)
    ∧ Parser.mArgQueue nameLookupParsedState = [] :=
  have hparse : (nameLookupParserState true ["namelookup", "-v", "test.example.com"]).Parse
      = Except.ok (Status.Success, nameLookupParsedState) := by decide
  ⟨hparse, (Parse_terminates_unless_read_past_end
    (nameLookupParserState true ["namelookup", "-v", "test.example.com"])).2.2.2.2.2.2.1
      nameLookupParsedState hparse⟩

/-! ### Positional tokens and PosParams, token by token -/

theorem optionGroups_cons (a : String) (m : List String) (ha : IsOption a = true)
    (hm : optionGroups m = true) : optionGroups (a :: m) = true := by
  cases m with
  | nil => simp [optionGroups, ha]
  | cons x rest => simp [optionGroups, ha, hm]

theorem optionGroups_cons_cons (a b : String) (m : List String) (ha : IsOption a = true)
    (hm : optionGroups m = true) : optionGroups (a :: b :: m) = true := by
  simp [optionGroups, ha, hm]

/-- What the loop of MoveOptionsToArgQueue does when it returns Success: the
moved tokens go to the back of the queue and the others stay in the working
queue, both in the order in which the scan met them. -/
theorem Parser_moveOptionsLoop_split (opts : List OptionPtr) (n : Nat) :
    ∀ (rest : List String), rest.length ≤ n →
    ∀ (skipped queue source queue2 : List String),
      Parser.MoveOptionsLoop opts skipped rest queue
        = Except.ok (Status.Success, source, queue2) →
      ∃ moved remaining, queue2 = queue ++ moved ∧ source = skipped ++ remaining
        ∧ moved.Sublist rest ∧ remaining.Sublist rest
        ∧ (moved ++ remaining).Perm rest
        ∧ (∀ t ∈ remaining, IsOption t = false)
        ∧ optionGroups moved = true := by
  induction n with
  | zero =>
    intro rest hlen skipped queue source queue2 h
    cases rest with
    | nil =>
      simp only [Parser.MoveOptionsLoop] at h
      cases h
      exact ⟨[], [], by simp, by simp, List.Sublist.refl _, List.Sublist.refl _,
        List.Perm.refl _, (fun t ht => absurd ht (List.not_mem_nil t)), rfl⟩
    | cons a rs => simp at hlen
  | succ n ih =>
    intro rest hlen skipped queue source queue2 h
    cases rest with
    | nil =>
      simp only [Parser.MoveOptionsLoop] at h
      cases h
      exact ⟨[], [], by simp, by simp, List.Sublist.refl _, List.Sublist.refl _,
        List.Perm.refl _, (fun t ht => absurd ht (List.not_mem_nil t)), rfl⟩
    | cons a rs =>
      have hrs : rs.length ≤ n := by simpa using hlen
      unfold Parser.MoveOptionsLoop at h
      split at h
      · rename_i hnot
        have ha : IsOption a = false := by simpa using hnot
        obtain ⟨moved, remaining, h1, h2, h3, h4, h5, h6, h7⟩ := ih rs hrs _ _ _ _ h
        refine ⟨moved, a :: remaining, h1, by simp [h2], List.Sublist.cons a h3,
          List.Sublist.cons₂ a h4, ?_, ?_, h7⟩
        · exact List.perm_middle.trans (List.Perm.cons a h5)
        · intro t ht
          rcases List.mem_cons.mp ht with h8 | h8
          · rw [h8]
            exact ha
          · exact h6 t h8
      · rename_i hnot
        have ha : IsOption a = true := by simpa using hnot
        simp only at h
        split at h
        · cases h
        · split at h
          · cases rs with
            | nil =>
              simp only at h
              cases h
            | cons b rs2 =>
              simp only at h
              have hrs2 : rs2.length ≤ n := by
                simp only [List.length_cons] at hrs
                omega
              obtain ⟨moved, remaining, h1, h2, h3, h4, h5, h6, h7⟩ := ih rs2 hrs2 _ _ _ _ h
              refine ⟨a :: b :: moved, remaining, by simp [h1], h2,
                List.Sublist.cons₂ a (List.Sublist.cons₂ b h3),
                List.Sublist.cons a (List.Sublist.cons b h4), ?_, h6,
                optionGroups_cons_cons a b moved ha h7⟩
              exact List.Perm.cons a (List.Perm.cons b h5)
          · obtain ⟨moved, remaining, h1, h2, h3, h4, h5, h6, h7⟩ := ih rs hrs _ _ _ _ h
            refine ⟨a :: moved, remaining, by simp [h1], h2, List.Sublist.cons₂ a h3,
              List.Sublist.cons a h4, ?_, h6, optionGroups_cons a moved ha h7⟩
            exact List.Perm.cons a h5

/-- Claim C35, the behaviour of the code: with the ValueOption -p (short name
only) and the arguments [prog, "", -p], the scan of MoveOptionsToArgQueue
skips the empty token, which is not option-shaped, and stands at -p, the last
token. The probe `o->CanPopulate(source)` tests the front of the working
queue, the empty token, which equals the empty `PrefixLongName()` of -p, and
the working queue holds 2 tokens: the consume count is 2 and passes the test
`argsToConsume > source.size()`, and `*(i + 1)` is read at the end of the
working queue. With -p at the front ([prog, -p]) the same test fails the
parse. -/
theorem MoveOptionsToArgQueue_reads_past_end :
    IsOption "" = false ∧ IsOption "-p" = true
    ∧ (shortValueParser ["prog", "", "-p"]).map
        (fun P => (Parser.argsToConsume P.mOptions ["", "-p"], ["", "-p"].length))
      = Except.ok (2, 2)
    ∧ (shortValueParser ["prog", "", "-p"]).bind
        (fun P => Parser.MoveOptionsLoop P.mOptions [""] ["-p"] ["prog"])
      = Except.error Error.OutOfBounds
    ∧ ((shortValueParser ["prog", "", "-p"]).bind Parser.Parse).map (fun r => r.1)
      = Except.error Error.OutOfBounds
    ∧ ((shortValueParser ["prog", "-p"]).bind Parser.Parse).map (fun r => r.1)
      = Except.ok Status.Failure := by
  refine ⟨by decide, by decide, by decide, by decide, by decide, by decide⟩

/-- Claim C36, the behaviour of the code: the constructor accepts the short
name `?` in both styles, the prefixed short names are -? and /?, and IsOption
is false for both, because `?` is no character of a legal parameter name. For
the short name v and the long name verbose the tokens of both styles are
option-shaped. -/
theorem IsOption_false_for_question_mark :
    (CmdOption.new { shortName := '?' }).map (fun o => (o.PrefixShortName, o.mIsSpecified))
      = Except.ok ("-?", false)
    ∧ (CmdOption.new { shortName := '?', style := Style.Windows }).map
        (fun o => (o.PrefixShortName, o.mIsSpecified)) = Except.ok ("/?", false)
    ∧ IsOption "-?" = false ∧ IsOption "/?" = false
    ∧ IsValidNonOptionName "?" = false
    ∧ (CmdOption.new verboseDef).map (fun o => (o.PrefixShortName, o.PrefixLongName))
      = Except.ok ("-v", "--verbose")
    ∧ IsOption "-v" = true ∧ IsOption "--verbose" = true
    ∧ IsOption "/v" = true ∧ IsOption "/verbose" = true := by
  refine ⟨by decide, by decide, by decide, by decide, by decide, by decide, by decide,
    by decide, by decide, by decide⟩

/-! ### Uniqueness of the option names -/

theorem String_append_left_inj (p x y : String) : p ++ x = p ++ y ↔ x = y := by
  constructor
  · intro h
    have hd := congrArg String.data h
    simp only [String.data_append] at hd
    exact String.ext (List.append_cancel_left hd)
  · intro h
    rw [h]

theorem OptionPtr_sameName_of_style (a b : OptionPtr)
    (h : a.base.mDefinition.style = b.base.mDefinition.style) :
    a.sameName b
      = ((a.base.mDefinition.shortName != Char.ofNat 0
            && b.base.mDefinition.shortName != Char.ofNat 0
            && a.base.mDefinition.shortName == b.base.mDefinition.shortName)
        || (a.base.mDefinition.longName != "" && b.base.mDefinition.longName != ""
            && a.base.mDefinition.longName == b.base.mDefinition.longName)) := by
  have hshort : (a.base.PrefixShortName == b.base.PrefixShortName)
      = (a.base.mDefinition.shortName == b.base.mDefinition.shortName) := by
    have hiff : a.base.PrefixShortName = b.base.PrefixShortName
        ↔ a.base.mDefinition.shortName = b.base.mDefinition.shortName := by
      simp only [CmdOption.PrefixShortName, CmdOption.PrependPrefix, ← h]
      split
      · rw [String_append_left_inj]
        constructor
        · intro h2
          have := congrArg String.data h2
          simpa using this
        · intro h2
          rw [h2]
      · rw [String_append_left_inj]
        constructor
        · intro h2
          have := congrArg String.data h2
          simpa using this
        · intro h2
          rw [h2]
    by_cases hc : a.base.mDefinition.shortName = b.base.mDefinition.shortName
    · simp [hc, hiff.mpr hc]
    · have hn : ¬ a.base.PrefixShortName = b.base.PrefixShortName := fun h2 => hc (hiff.mp h2)
      simp [hc, hn]
  have hlong : a.base.mDefinition.longName ≠ "" → b.base.mDefinition.longName ≠ "" →
      (a.base.PrefixLongName == b.base.PrefixLongName)
        = (a.base.mDefinition.longName == b.base.mDefinition.longName) := by
    intro ha hb
    have hiff : a.base.PrefixLongName = b.base.PrefixLongName
        ↔ a.base.mDefinition.longName = b.base.mDefinition.longName := by
      simp only [CmdOption.PrefixLongName, CmdOption.PrependPrefix, ← h, ha, hb, if_false]
      exact String_append_left_inj _ _ _
    by_cases hc : a.base.mDefinition.longName = b.base.mDefinition.longName
    · simp [hc, hiff.mpr hc]
    · have hn : ¬ a.base.PrefixLongName = b.base.PrefixLongName := fun h2 => hc (hiff.mp h2)
      simp [hc, hn]
  unfold OptionPtr.sameName
  rw [hshort]
  by_cases ha : a.base.mDefinition.longName = ""
  · simp [ha]
  · by_cases hb : b.base.mDefinition.longName = ""
    · simp [hb]
    · rw [hlong ha hb]

theorem OptionPtr_set_definition (o : OptionPtr) (s : Style) :
    (o.Set s).base.mDefinition.style = s
    ∧ (o.Set s).base.mDefinition.shortName = o.base.mDefinition.shortName
    ∧ (o.Set s).base.mDefinition.longName = o.base.mDefinition.longName := by
  cases o <;> exact ⟨rfl, rfl, rfl⟩

theorem OptionPtr_sameName_false_of_add (a o : OptionPtr) (hname : a.Name ≠ o.Name)
    (hlong : a.LongName ≠ o.LongName) : a.sameName o = false := by
  unfold OptionPtr.sameName
  have h1 : (a.base.mDefinition.shortName != Char.ofNat 0
      && o.base.mDefinition.shortName != Char.ofNat 0
      && a.base.PrefixShortName == o.base.PrefixShortName) = false := by
    by_cases ha : a.base.mDefinition.shortName = Char.ofNat 0
    · simp [ha]
    · by_cases ho : o.base.mDefinition.shortName = Char.ofNat 0
      · simp [ho]
      · have hna : a.Name = a.base.PrefixShortName := by
          simp only [OptionPtr.Name, CmdOption.Name]
          by_cases hL : a.base.mDefinition.longName = "" <;> simp [ha, hL]
        have hno : o.Name = o.base.PrefixShortName := by
          simp only [OptionPtr.Name, CmdOption.Name]
          by_cases hL : o.base.mDefinition.longName = "" <;> simp [ho, hL]
        rw [hna, hno] at hname
        simp [hname]
  have h2 : (a.base.mDefinition.longName != "" && o.base.mDefinition.longName != ""
      && a.base.PrefixLongName == o.base.PrefixLongName) = false := by
    have hne : ¬ a.base.PrefixLongName = o.base.PrefixLongName := hlong
    simp [hne]
  rw [h1, h2]
  rfl

/-- Claim C37 as stated fails: the Option -v, --verbose of Unix style and the
Option /v, /view of Windows style are both accepted by Add, their prefixed
names being different; after Set(Unix) both have the prefixed short name -v. -/
theorem Set_style_makes_same_short_name :
    (mixedStyleParser ["prog"]).map
        (fun P => P.mOptions.map (fun o => (o.base.PrefixShortName, o.base.PrefixLongName)))
      = Except.ok [("-h", "--help"), ("-v", "--verbose"), ("-v", "--view")]
    ∧ (mixedStyleParser ["prog"]).map
        (fun P => P.mOptions.map (fun o => P.mOptions.map (fun o2 => o.sameName o2)))
      = Except.ok [[true, false, false], [false, true, true], [false, true, true]]
    ∧ (mixedStyleParser ["prog"]).map
        (fun P => decide (P.mOptions.Pairwise (fun a b => a.sameName b = false)))
      = Except.ok false := by
  refine ⟨by decide, by decide, by decide⟩

/-- Claim C37, amended: the constructor gives a Parser whose options all have
the Unix style and no two of which have the same name. Add, when it does not
throw, keeps the options without two of the same name, and keeps them all of
one style when the added option has that style; Set(Style) of a Parser whose
options all have one style gives them all the new style and keeps them without
two of the same name. Two options have the same name when both have a short
name and the prefixed short names are equal, or both have a long name and the
prefixed long names are equal. -/
theorem Option_names_stay_unique :
    (∀ (prog : ProgParam) (a : String) (rest : List String) (P : Parser),
        Parser.new (some prog) (a :: rest) = Except.ok P →
        styleIs Style.Unix P.mOptions ∧ namesUnique P.mOptions)
    ∧ (∀ (P P2 : Parser) (o : OptionPtr), namesUnique P.mOptions →
        P.Add (some o) = Except.ok P2 →
        namesUnique P2.mOptions
        ∧ (∀ (s : Style), styleIs s P.mOptions → o.base.mDefinition.style = s →
            styleIs s P2.mOptions))
    ∧ (∀ (P : Parser) (s s2 : Style), styleIs s P.mOptions → namesUnique P.mOptions →
        styleIs s2 (P.Set s2).mOptions ∧ namesUnique (P.Set s2).mOptions) := by
  refine ⟨?_, ?_, ?_⟩
  · intro prog a rest P h
    have hhelp : CmdOption.new builtInHelpOption.mDefinition = Except.ok builtInHelpOption := by
      decide
    have hlen : ¬ (a :: rest).length < 1 := by simp
    have hnew : Parser.new (some prog) (a :: rest)
        = Except.ok { mArgs := a :: rest, mProgParam := prog,
                      mOptions := [OptionPtr.option builtInHelpOption] } := by
      show (if (a :: rest).length < 1 then Except.error Error.EmptyArguments
        else match CmdOption.new builtInHelpOption.mDefinition with
          | Except.error e => Except.error e
          | Except.ok builtInHelpOption =>
            Parser.Add { mArgs := a :: rest, mArgParams := [], mOptions := [], mPosParams := [],
                         mArgQueue := [], mMultiPosParam := none, mProgParam := prog }
              (some (OptionPtr.option builtInHelpOption))) = _
      rw [if_neg hlen, hhelp]
      rfl
    rw [hnew] at h
    cases h
    refine ⟨?_, ?_⟩
    · intro o ho
      simp only [List.mem_singleton] at ho
      rw [ho]
      rfl
    · unfold namesUnique
      exact List.pairwise_singleton _ _
  · intro P P2 o huniq hadd
    simp only [Parser.Add] at hadd
    split at hadd
    · cases hadd
    · rename_i hany
      cases hadd
      refine ⟨?_, ?_⟩
      · unfold namesUnique at huniq ⊢
        rw [List.pairwise_append]
        refine ⟨huniq, List.pairwise_singleton _ _, ?_⟩
        intro a ha b hb
        rw [List.mem_singleton] at hb
        subst hb
        have hno : ¬ (a.Name = b.Name ∨ a.LongName = b.LongName) := by
          intro hc
          apply hany
          rw [List.any_eq_true]
          refine ⟨a, ha, ?_⟩
          rcases hc with h1 | h1
          · simp [h1]
          · simp [h1]
        exact OptionPtr_sameName_false_of_add a b (fun h1 => hno (Or.inl h1))
          (fun h1 => hno (Or.inr h1))
      · intro s hs ho x hx
        rcases List.mem_append.mp hx with h1 | h1
        · exact hs x h1
        · rw [List.mem_singleton] at h1
          rw [h1]
          exact ho
  · intro P s s2 hs huniq
    refine ⟨?_, ?_⟩
    · intro o ho
      simp only [Parser.Set, List.mem_map] at ho
      obtain ⟨o0, _, rfl⟩ := ho
      exact (OptionPtr_set_definition o0 s2).1
    · unfold namesUnique at huniq ⊢
      simp only [Parser.Set]
      rw [List.pairwise_map]
      refine List.Pairwise.imp_of_mem ?_ huniq
      intro a b ha hb hab
      have hsame : a.base.mDefinition.style = b.base.mDefinition.style := by
        rw [hs a ha, hs b hb]
      have hsame2 : (a.Set s2).base.mDefinition.style = (b.Set s2).base.mDefinition.style := by
        rw [(OptionPtr_set_definition a s2).1, (OptionPtr_set_definition b s2).1]
      rw [OptionPtr_sameName_of_style _ _ hsame2, (OptionPtr_set_definition a s2).2.1,
        (OptionPtr_set_definition a s2).2.2, (OptionPtr_set_definition b s2).2.1,
        (OptionPtr_set_definition b s2).2.2, ← OptionPtr_sameName_of_style _ _ hsame]
      exact hab

theorem Option_names_stay_unique_witness :
    (styleIs Style.Unix [OptionPtr.option builtInHelpOption]
      ∧ namesUnique [OptionPtr.option builtInHelpOption])
    ∧ (namesUnique
        ((copyParserState ["copy"]).mOptions
          ++ [OptionPtr.valueOption { mDefinition := { shortName := 'p', longName := "print" } }])
      ∧ styleIs Style.Unix
        ((copyParserState ["copy"]).mOptions
          ++ [OptionPtr.valueOption { mDefinition := { shortName := 'p', longName := "print" } }]))
    ∧ (styleIs Style.Windows ((copyParserState ["copy"]).Set Style.Windows).mOptions
      ∧ namesUnique ((copyParserState ["copy"]).Set Style.Windows).mOptions) :=
  have hstyle : styleIs Style.Unix (copyParserState ["copy"]).mOptions := by
    unfold styleIs
    decide
  have huniq : namesUnique (copyParserState ["copy"]).mOptions := by
    unfold namesUnique
    decide
  have hnew : Parser.new (some { mDefinition := { name := "copy" } }) ["copy"]
      = Except.ok { mArgs := ["copy"], mProgParam := { mDefinition := { name := "copy" } },
                    mOptions := [OptionPtr.option builtInHelpOption] } := by decide
  have hadd : (copyParserState ["copy"]).Add
      (some (OptionPtr.valueOption { mDefinition := { shortName := 'p', longName := "print" } }))
      = Except.ok { copyParserState ["copy"] with
          mOptions := (copyParserState ["copy"]).mOptions
            ++ [OptionPtr.valueOption
                  { mDefinition := { shortName := 'p', longName := "print" } }] } := by decide
  ⟨Option_names_stay_unique.1 _ "copy" [] _ hnew,
   ⟨(Option_names_stay_unique.2.1 _ _ _ huniq hadd).1,
    (Option_names_stay_unique.2.1 _ _ _ huniq hadd).2 Style.Unix hstyle rfl⟩,
   Option_names_stay_unique.2.2 _ Style.Unix Style.Windows hstyle huniq⟩

/-! ### The value token of a ValueOption -/

theorem Parser_moveOptionsLoop_flag (opts : List OptionPtr) (t : String) (R queue : List String)
    (o : CmdOption) (hopt : IsOption t = true)
    (hf : firstMatch opts t = some (OptionPtr.option o)) :
    Parser.MoveOptionsLoop opts [] (t :: R) queue
      = Parser.MoveOptionsLoop opts [] R (queue ++ [t]) := by
  have hfind := find_canPopulate_of_firstMatch_option opts t R o hf
  have hn : Parser.argsToConsume opts (t :: R) = 1 := by
    simp [Parser.argsToConsume, hfind, OptionPtr.Consumes, CmdOption.Consumes]
  conv_lhs => unfold Parser.MoveOptionsLoop
  simp [hopt, hn]

theorem Parser_moveOptionsLoop_value (opts : List OptionPtr) (t x : String)
    (R queue : List String) (v : ValueOption) (hopt : IsOption t = true)
    (hf : firstMatch opts t = some (OptionPtr.valueOption v)) :
    Parser.MoveOptionsLoop opts [] (t :: x :: R) queue
      = Parser.MoveOptionsLoop opts [] R (queue ++ [t, x]) := by
  have hfind := find_canPopulate_of_firstMatch_value opts t x R v hf
  have hn : Parser.argsToConsume opts (t :: x :: R) = 2 := by
    simp [Parser.argsToConsume, hfind, OptionPtr.Consumes, ValueOption.Consumes]
  conv_lhs => unfold Parser.MoveOptionsLoop
  simp [hopt, hn]

theorem Parser_moveOptionsLoop_accepted_then (opts : List OptionPtr) (R : List String)
    (n : Nat) :
    ∀ (toks : List String), toks.length ≤ n → acceptedOptionTokens opts toks = true →
      ∀ (queue : List String),
        Parser.MoveOptionsLoop opts [] (toks ++ R) queue
          = Parser.MoveOptionsLoop opts [] R (queue ++ toks) := by
  induction n with
  | zero =>
    intro toks hlen _ queue
    cases toks with
    | nil => simp
    | cons a r => simp at hlen
  | succ n ih =>
    intro toks hlen hacc queue
    rcases toks with _ | ⟨t, _ | ⟨value, rest⟩⟩
    · simp
    · simp only [acceptedOptionTokens, Bool.and_eq_true] at hacc
      obtain ⟨hopt, hfm⟩ := hacc
      cases hf : firstMatch opts t with
      | none => simp [hf] at hfm
      | some o =>
        cases o with
        | valueOption v => simp [hf] at hfm
        | option o =>
          simpa using Parser_moveOptionsLoop_flag opts t R queue o hopt hf
    · simp only [acceptedOptionTokens, Bool.and_eq_true] at hacc
      obtain ⟨hopt, hfm⟩ := hacc
      cases hf : firstMatch opts t with
      | none => simp [hf] at hfm
      | some o =>
        cases o with
        | valueOption v =>
          simp only [hf] at hfm
          have hr : rest.length ≤ n := by
            simp only [List.length_cons] at hlen
            omega
          have h1 := Parser_moveOptionsLoop_value opts t value (rest ++ R) queue v hopt hf
          have h2 := ih rest hr hfm (queue ++ [t, value])
          simp only [List.cons_append, h1, h2, List.append_assoc, List.nil_append]
        | option o =>
          simp only [hf] at hfm
          have hr : (value :: rest).length ≤ n := by
            simp only [List.length_cons] at hlen ⊢
            omega
          have h1 := Parser_moveOptionsLoop_flag opts t (value :: rest ++ R) queue o hopt hf
          have h2 := ih (value :: rest) hr hfm (queue ++ [t])
          simp only [List.cons_append] at h1 h2 ⊢
          simp only [h1, h2, List.append_assoc, List.singleton_append]

/-- The queue that FillArgQueue leaves on Success: the queue that the loop of
MoveOptionsToArgQueue leaves, and behind it the tokens that it does not move. -/
theorem Parser_fillArgQueue_success (P P1 : Parser) (prog : String) (W : List String)
    (hargs : P.mArgs = prog :: W)
    (h : P.FillArgQueue = Except.ok (Status.Success, P1)) :
    ∃ source queue2 tail,
      Parser.MoveOptionsLoop P.mOptions [] W [prog] = Except.ok (Status.Success, source, queue2)
      ∧ P1 = { P with mArgQueue := queue2 ++ tail } := by
  unfold Parser.FillArgQueue at h
  simp only [hargs, Parser.MoveOptionsToArgQueue] at h
  cases hM : Parser.MoveOptionsLoop P.mOptions [] W [prog] with
  | error e =>
    simp only [hM] at h
    cases h
  | ok r0 =>
    obtain ⟨st, source, queue⟩ := r0
    simp only [hM] at h
    cases st with
    | Failure =>
      simp only at h
      cases h
    | Success =>
      simp only at h
      cases hm : P.mMultiPosParam with
      | none =>
        simp only [hm, Parser.MovePosArgsToArgQueue] at h
        cases h
        exact ⟨source, queue, source, rfl, by simp [hm, hargs]⟩
      | some m =>
        simp only [hm] at h
        by_cases ho : m.Order = ParsingOrder.AfterOptions
        · rw [if_pos ho] at h
          simp only [Parser.ReverseMovePosArgsToArgQueue] at h
          cases h
          refine ⟨source, queue,
            (Parser.splitPosArgs ((source.length + 2 ^ 64 - P.mPosParams.length) % 2 ^ 64)
              source 0).2
            ++ (Parser.splitPosArgs ((source.length + 2 ^ 64 - P.mPosParams.length) % 2 ^ 64)
              source 0).1, rfl, ?_⟩
          simp [hm, hargs, List.append_assoc]
        · rw [if_neg ho] at h
          simp only [Parser.MovePosArgsToArgQueue] at h
          cases h
          exact ⟨source, queue, source, rfl, by simp [hm, hargs]⟩

theorem Parser_populateArgParams_options (P : Parser) (prog : String) (toks rest : List String)
    (hq : P.mArgQueue = prog :: (toks ++ rest))
    (hprog : P.mProgParam.mIsSpecified = false)
    (hacc : acceptedOptionTokens P.mOptions toks = true) :
    ∃ opts2, opts2.map OptionPtr.sig = P.mOptions.map OptionPtr.sig
      ∧ (toks = [] → opts2 = P.mOptions)
      ∧ P.FillArgParamVector.PopulateArgParams
        = Parser.PopulateArgParamsLoop rest.length
            { P.FillArgParamVector with
              mProgParam := { P.mProgParam with mValue := prog, mIsSpecified := true },
              mOptions := opts2,
              mArgQueue := rest } := by
  have hstd := Parser_fillArgParamVector_std P
  generalize hP1 : P.FillArgParamVector = P1 at hstd
  have e1 : P1.mArgQueue = P.mArgQueue := by rw [← hP1]; rfl
  have e2 : P1.mProgParam = P.mProgParam := by rw [← hP1]; rfl
  have e4 : P1.mOptions = P.mOptions := by rw [← hP1]; rfl
  rw [← e1] at hq
  rw [← e2] at hprog ⊢
  rw [← e4] at hacc ⊢
  clear e1 e2 e4 hP1
  unfold Parser.PopulateArgParams
  have hstep : P1.PopulateFirst P1.mArgParams
      = (true, { P1 with mProgParam := { P1.mProgParam with mValue := prog, mIsSpecified := true },
                         mArgQueue := toks ++ rest }) := by
    rw [Parser_populateFirst_std P1 hstd]
    simp [ProgParam.CanPopulate, hprog, hq, Parser.Populate, ProgParam.Populate]
  have hfuel : P1.mArgQueue.length = (toks ++ rest).length + 1 := by simp [hq]
  rw [hfuel, Parser_loop_step _ P1 _ prog (toks ++ rest) hq hstep (by simp)]
  cases toks with
  | nil =>
    exact ⟨P1.mOptions, rfl, fun _ => rfl, rfl⟩
  | cons t0 ts =>
    obtain ⟨opts2, fuel2, h1, h2, h3⟩ := Parser_loop_options (t0 :: ts).length (t0 :: ts)
      (Nat.le_refl _) ((t0 :: ts) ++ rest).length
      { P1 with mProgParam := { P1.mProgParam with mValue := prog, mIsSpecified := true },
                mArgQueue := (t0 :: ts) ++ rest }
      rest hstd rfl hacc rfl (Nat.le_refl _)
    refine ⟨opts2, h1, (fun h => by cases h), ?_⟩
    rw [h3]
    exact Parser_loop_fuel fuel2 rest.length _ h2 (Nat.le_refl _)

theorem firstMatch_split_congr (t : String) (opts : List OptionPtr) :
    ∀ (opts2 : List OptionPtr) (o : OptionPtr),
      opts2.map OptionPtr.sig = opts.map OptionPtr.sig → firstMatch opts t = some o →
      ∃ pre post pre2 post2 o2, opts = pre ++ o :: post ∧ opts2 = pre2 ++ o2 :: post2
        ∧ pre2.length = pre.length ∧ o2.sig = o.sig
        ∧ (∀ x ∈ pre2, x.nameMatches t = false) ∧ o2.nameMatches t = true := by
  induction opts with
  | nil =>
    intro opts2 o _ h
    simp [firstMatch] at h
  | cons a os ih =>
    intro opts2 o hsig h
    cases opts2 with
    | nil => simp at hsig
    | cons a2 os2 =>
      simp only [List.map_cons, List.cons.injEq] at hsig
      obtain ⟨hs1, hs2⟩ := hsig
      have hm2 : a2.nameMatches t = a.nameMatches t := by
        rw [OptionPtr_nameMatches_eq_sigMatches, OptionPtr_nameMatches_eq_sigMatches, hs1]
      unfold firstMatch at h
      rw [List.find?_cons] at h
      cases hm : a.nameMatches t with
      | true =>
        rw [hm] at h
        simp only [Option.some.injEq] at h
        subst h
        exact ⟨[], os, [], os2, a2, rfl, rfl, rfl, hs1,
          (fun x hx => absurd hx (List.not_mem_nil x)), hm2.trans hm⟩
      | false =>
        rw [hm] at h
        obtain ⟨pre, post, pre2, post2, o2, h1, h2, h3, h4, h5, h6⟩ := ih os2 o hs2 h
        refine ⟨a :: pre, post, a2 :: pre2, post2, o2, by simp [h1], by simp [h2],
          by simp [h3], h4, ?_, h6⟩
        intro x hx
        rcases List.mem_cons.mp hx with h7 | h7
        · rw [h7]
          exact hm2.trans hm
        · exact h5 x h7

theorem populateFirstOption_split (pre post : List OptionPtr) (v1 : ValueOption)
    (t X : String) (q : List String) (hpre : ∀ x ∈ pre, x.nameMatches t = false)
    (hm : (OptionPtr.valueOption v1).nameMatches t = true) :
    populateFirstOption (pre ++ OptionPtr.valueOption v1 :: post) (t :: X :: q)
      = some (pre ++ OptionPtr.valueOption (v1.Populate (t :: X :: q)).2.1 :: post, q) := by
  induction pre with
  | nil =>
    have hc : (OptionPtr.valueOption v1).CanPopulate (t :: X :: q) = true := by
      rw [OptionPtr_canPopulate_value_cons]
      exact hm
    have hc2 : v1.CanPopulate (t :: X :: q) = true := hc
    have hpop := ValueOption_populate_of_canPopulate v1 t X q hc2
    simp only [List.nil_append, populateFirstOption, hc, if_true, OptionPtr.Populate]
    rw [hpop]
  | cons a pre ih =>
    have ha : a.nameMatches t = false := hpre a (List.mem_cons_self _ _)
    have hc := OptionPtr_canPopulate_false_of_not_nameMatches a t (X :: q) ha
    have ih2 := ih (fun x hx => hpre x (List.mem_cons_of_mem _ hx))
    simp only [List.cons_append, populateFirstOption, hc, List.append_eq]
    rw [ih2]
    simp

theorem ValueOption_populate_values (v : ValueOption) (q : List String) :
    ∃ ext, (v.Populate q).2.1.mValues = v.mValues ++ ext := by
  by_cases hcan : v.CanPopulate q = true
  · have hlen : 2 ≤ q.length := by
      simp only [ValueOption.CanPopulate] at hcan
      split at hcan
      · split at hcan
        · assumption
        · cases hcan
      · cases hcan
    match q, hcan, hlen with
    | t0 :: value :: rest, hcan, _ =>
      rw [ValueOption_populate_of_canPopulate v t0 value rest hcan]
      exact ⟨[value], rfl⟩
  · have hp : v.Populate q = (false, v, q) := by
      unfold ValueOption.Populate
      simp [hcan]
    rw [hp]
    exact ⟨[], by simp⟩

/-- A virtual `Populate` through a pointer of `mArgParams` leaves the
ValueOption at place `i` a ValueOption and adds to its values at the back
only. -/
theorem Parser_populate_values (Q : Parser) (p : ArgParamPtr) (i : Nat) (base : List String)
    (h : ∃ v2 after, Q.mOptions[i]? = some (OptionPtr.valueOption v2)
      ∧ v2.mValues = base ++ after) :
    ∃ v2 after, (Q.Populate p).2.mOptions[i]? = some (OptionPtr.valueOption v2)
      ∧ v2.mValues = base ++ after := by
  obtain ⟨v2, after, h1, h2⟩ := h
  cases p with
  | progParam => exact ⟨v2, after, h1, h2⟩
  | posParam j =>
    simp only [Parser.Populate]
    cases Q.mPosParams[j]? with
    | none => exact ⟨v2, after, h1, h2⟩
    | some d => exact ⟨v2, after, h1, h2⟩
  | multiPosParam =>
    simp only [Parser.Populate]
    cases Q.mMultiPosParam with
    | none => exact ⟨v2, after, h1, h2⟩
    | some m => exact ⟨v2, after, h1, h2⟩
  | option j =>
    simp only [Parser.Populate]
    cases hj : Q.mOptions[j]? with
    | none => exact ⟨v2, after, h1, h2⟩
    | some o =>
      simp only
      rw [List.getElem?_set]
      by_cases hij : j = i
      · subst hij
        rw [h1] at hj
        simp only [Option.some.injEq] at hj
        subst hj
        have hlt : j < Q.mOptions.length := by
          rcases Nat.lt_or_ge j Q.mOptions.length with h3 | h3
          · exact h3
          · rw [List.getElem?_eq_none h3] at h1
            cases h1
        obtain ⟨ext, hext⟩ := ValueOption_populate_values v2 Q.mArgQueue
        refine ⟨(v2.Populate Q.mArgQueue).2.1, after ++ ext, ?_, ?_⟩
        · simp [hlt, OptionPtr.Populate]
        · rw [hext, h2, List.append_assoc]
      · simp only [hij, if_false]
        exact ⟨v2, after, h1, h2⟩

/-- Claim C38 as stated fails when a later token is an option-shaped token of
no registered option: with the ValueOption -p and the Option -v, in the
arguments [prog, -p, x, -z] the token -p of the ValueOption is the first token
behind the program name and x stands right behind it, but FillArgQueue and
Parse return Failure because of -z, and x is not among the values of -p: no
parameter is populated. -/
theorem Parse_later_unknown_option_drops_value :
    printVerboseParser ["prog", "-p", "x", "-z"]
      = Except.ok (printVerboseParserState ["prog", "-p", "x", "-z"])
    ∧ IsOption "-p" = true
    ∧ firstMatch (printVerboseParserState ["prog", "-p", "x", "-z"]).mOptions "-p"
        = some (OptionPtr.valueOption
            { mDefinition := { shortName := 'p', longName := "print" } })
    ∧ (printVerboseParserState ["prog", "-p", "x", "-z"]).FillArgQueue.map (fun r => r.1)
        = Except.ok Status.Failure
    ∧ (printVerboseParserState ["prog", "-p", "x", "-z"]).Parse.map
          (fun r => (r.1, r.2.optionValues, r.2.optionsSpecified))
        = Except.ok (Status.Failure, [[], [], []], [false, false, false]) := by
  refine ⟨by decide, by decide, by decide, by decide, by decide⟩

/-- The ValueOption and the token behind its own, when FillArgQueue returns
Success: X stands right behind t in the canonical queue, Parse comes to the
state in which t is at the front of the queue, the iteration of the loop in
that state populates that ValueOption and no other parameter, and when Parse
returns, the values of that ValueOption are the values before that iteration,
X, and what later iterations added. -/
theorem Parser_parse_value_token (P P1 : Parser) (prog t X : String)
    (toks rest : List String) (v : ValueOption)
    (hargs : P.mArgs = prog :: (toks ++ t :: X :: rest))
    (hprog : P.mProgParam.mIsSpecified = false)
    (hacc : acceptedOptionTokens P.mOptions toks = true)
    (hopt : IsOption t = true)
    (hmatch : firstMatch P.mOptions t = some (OptionPtr.valueOption v))
    (hfill : P.FillArgQueue = Except.ok (Status.Success, P1)) :
    (printVerboseParser ["prog", "-p", "-v"]
        = Except.ok (printVerboseParserState ["prog", "-p", "-v"])
      ∧ (printVerboseParserState ["prog", "-p", "-v"]).Parse.map
          (fun r => (r.1, r.2.optionValues, r.2.optionsSpecified))
        = Except.ok (Status.Success, [[], ["-v"], []], [false, true, false]))
    ∧ ∃ (i : Nat) (opts1 : List OptionPtr) (v1 : ValueOption) (q : List String),
      P.mOptions[i]? = some (OptionPtr.valueOption v)
      ∧ P1 = { P with mArgQueue := prog :: (toks ++ t :: X :: q) }
      ∧ opts1.map OptionPtr.sig = P.mOptions.map OptionPtr.sig
      ∧ (toks = [] → opts1 = P.mOptions)
      ∧ opts1[i]? = some (OptionPtr.valueOption v1)
      ∧ P.Parse = Parser.PopulateArgParamsLoop (t :: X :: q).length
          (P.during prog opts1 (t :: X :: q))
      ∧ (P.during prog opts1 (t :: X :: q)).PopulateFirst
            (P.during prog opts1 (t :: X :: q)).mArgParams
          = (true, P.during prog
              (opts1.set i (OptionPtr.valueOption (v1.Populate (t :: X :: q)).2.1)) q)
      ∧ (v1.Populate (t :: X :: q)).2.1.mValues = v1.mValues ++ [X]
      ∧ (∀ (r : Status × Parser), P.Parse = Except.ok r →
          ∃ v2 after, r.2.mOptions[i]? = some (OptionPtr.valueOption v2)
            ∧ v2.mValues = v1.mValues ++ X :: after) := by
  refine ⟨⟨by decide, by decide⟩, ?_⟩
  -- phase 1: t and X go to the queue together
  obtain ⟨source, queue2, tail, hM, hP1⟩ :=
    Parser_fillArgQueue_success P P1 prog _ hargs hfill
  rw [Parser_moveOptionsLoop_accepted_then P.mOptions (t :: X :: rest) toks.length toks
      (Nat.le_refl _) hacc,
    Parser_moveOptionsLoop_value P.mOptions t X rest _ v hopt hmatch] at hM
  obtain ⟨moved, remaining, hq2, _, _, _, _, _, _⟩ :=
    Parser_moveOptionsLoop_split P.mOptions rest.length rest (Nat.le_refl _) _ _ _ _ hM
  have hqueue : queue2 ++ tail = prog :: (toks ++ t :: X :: (moved ++ tail)) := by
    rw [hq2]
    simp
  rw [hqueue] at hP1
  -- phase 2: up to the state in which t is at the front
  have hparse : P.Parse = P1.FillArgParamVector.PopulateArgParams := by
    unfold Parser.Parse
    rw [hfill]
  obtain ⟨opts1, hsig, hnil, hloop⟩ := Parser_populateArgParams_options P1 prog toks
    (t :: X :: (moved ++ tail)) (by rw [hP1]) (by rw [hP1]; exact hprog)
    (by rw [hP1]; exact hacc)
  have hduring : ∀ (opts : List OptionPtr) (queue : List String),
      ({ P1.FillArgParamVector with
          mProgParam := { P1.mProgParam with mValue := prog, mIsSpecified := true },
          mOptions := opts, mArgQueue := queue } : Parser) = P.during prog opts queue := by
    intro opts queue
    rw [hP1]
    rfl
  have hsig1 : opts1.map OptionPtr.sig = P.mOptions.map OptionPtr.sig := by
    rw [hsig, hP1]
  rw [hduring] at hloop
  obtain ⟨pre, post, pre2, post2, o2, hsplit, hsplit2, hplen, ho2, hpre2, hm2⟩ :=
    firstMatch_split_congr t P.mOptions opts1 _ hsig1 hmatch
  obtain ⟨v1, rfl⟩ : ∃ v1, o2 = OptionPtr.valueOption v1 := by
    cases o2 with
    | option o => simp [OptionPtr.sig] at ho2
    | valueOption v1 => exact ⟨v1, rfl⟩
  have hlen1 : opts1.length = P.mOptions.length := by
    have := congrArg List.length hsig1
    simpa using this
  have hstd : (P.during prog opts1 (t :: X :: (moved ++ tail))).mArgParams
      = stdArgParams (P.during prog opts1 (t :: X :: (moved ++ tail))).mOptions.length
          (P.during prog opts1 (t :: X :: (moved ++ tail))).mPosParams.length
          (P.during prog opts1 (t :: X :: (moved ++ tail))).mMultiPosParam.isSome := by
    have := Parser_fillArgParamVector_std P
    simp only [Parser.during, hlen1]
    exact this
  have hpopv : (v1.Populate (t :: X :: (moved ++ tail))).2.1.mValues = v1.mValues ++ [X] := by
    have hc : (OptionPtr.valueOption v1).CanPopulate (t :: X :: (moved ++ tail)) = true := by
      rw [OptionPtr_canPopulate_value_cons]
      exact hm2
    rw [ValueOption_populate_of_canPopulate v1 t X _ hc]
  have hset : opts1.set pre.length
      (OptionPtr.valueOption (v1.Populate (t :: X :: (moved ++ tail))).2.1)
      = pre2 ++ OptionPtr.valueOption (v1.Populate (t :: X :: (moved ++ tail))).2.1 :: post2 := by
    rw [hsplit2, ← hplen]
    exact set_length_append_cons _ _ _ _
  have hstep : (P.during prog opts1 (t :: X :: (moved ++ tail))).PopulateFirst
        (P.during prog opts1 (t :: X :: (moved ++ tail))).mArgParams
      = (true, P.during prog
          (opts1.set pre.length
            (OptionPtr.valueOption (v1.Populate (t :: X :: (moved ++ tail))).2.1))
          (moved ++ tail)) := by
    rw [Parser_populateFirst_std _ hstd, hset]
    have hprog2 : (P.during prog opts1 (t :: X :: (moved ++ tail))).mProgParam.mIsSpecified
        = true := rfl
    rw [ProgParam_canPopulate_specified _ _ hprog2]
    have hopts : (P.during prog opts1 (t :: X :: (moved ++ tail))).mOptions
        = pre2 ++ OptionPtr.valueOption v1 :: post2 := hsplit2
    have hq : (P.during prog opts1 (t :: X :: (moved ++ tail))).mArgQueue
        = t :: X :: (moved ++ tail) := rfl
    rw [hopts, hq, populateFirstOption_split pre2 post2 v1 t X _ hpre2 hm2]
    rfl
  refine ⟨pre.length, opts1, v1, moved ++ tail, ?_, hP1, hsig1, ?_, ?_, ?_, hstep, hpopv, ?_⟩
  · rw [hsplit]
    exact getElem?_length_append_cons _ _ _
  · intro h
    rw [hnil h, hP1]
  · rw [hsplit2, ← hplen]
    exact getElem?_length_append_cons _ _ _
  · rw [hparse, hloop]
  · intro r hr
    rw [hparse, hloop] at hr
    have hstep2 := Parser_loop_step (moved ++ tail).length.succ
      (P.during prog opts1 (t :: X :: (moved ++ tail))) _ t (X :: (moved ++ tail)) rfl hstep
      (by simp [Parser.during]; omega)
    have hfuel := Parser_loop_fuel (t :: X :: (moved ++ tail)).length
      ((moved ++ tail).length.succ + 1)
      (P.during prog opts1 (t :: X :: (moved ++ tail))) (Nat.le_refl _)
      (by simp [Parser.during])
    rw [hfuel, hstep2] at hr
    obtain ⟨v2, after, h1, h2⟩ := Parser_loop_preserves
      (fun Q => ∃ v2 after, Q.mOptions[pre.length]? = some (OptionPtr.valueOption v2)
        ∧ v2.mValues = (v1.mValues ++ [X]) ++ after)
      (fun Q p hQ _ => Parser_populate_values Q p pre.length _ hQ)
      _ _ r
      ⟨(v1.Populate (t :: X :: (moved ++ tail))).2.1, [], by
        show (opts1.set pre.length _)[pre.length]? = _
        rw [hset, ← hplen]
        exact getElem?_length_append_cons _ _ _, by simp [hpopv]⟩
      hr
    exact ⟨v2, after, h1, by simp [h2]⟩

/-- Claim C38: let the arguments be prog, option tokens accepted by the
registered options, then the token t of a registered ValueOption (t is
option-shaped and that ValueOption is the first registered option with that
name) and right behind it a token X, whatever it is, then any tokens; let the
ProgParam not be specified yet. When FillArgQueue returns Success, X stands
right behind t in the canonical queue, and Parse comes to the state in which t
is at the front of the queue; the iteration of the loop in that state
populates that ValueOption and no other parameter: X goes to the back of its
values and the queue goes on behind X. When Parse returns, the values of that
ValueOption are the values before that iteration, X, and what later
iterations added. When FillArgQueue returns Failure, Parse returns Failure
and no parameter is populated: the options, the ProgParam, the PosParams and
the MultiPosParam are as before Parse. For [prog, -p, -v] with the
ValueOption -p and the Option -v Parse returns Success, -p has the values
[-v] and -v is not specified. -/
theorem ValueOption_takes_next_token (P : Parser) (prog t X : String)
    (toks rest : List String) (v : ValueOption)
    (hargs : P.mArgs = prog :: (toks ++ t :: X :: rest))
    (hprog : P.mProgParam.mIsSpecified = false)
    (hacc : acceptedOptionTokens P.mOptions toks = true)
    (hopt : IsOption t = true)
    (hmatch : firstMatch P.mOptions t = some (OptionPtr.valueOption v)) :
    (printVerboseParser ["prog", "-p", "-v"]
        = Except.ok (printVerboseParserState ["prog", "-p", "-v"])
      ∧ (printVerboseParserState ["prog", "-p", "-v"]).Parse.map
          (fun r => (r.1, r.2.optionValues, r.2.optionsSpecified))
        = Except.ok (Status.Success, [[], ["-v"], []], [false, true, false]))
    ∧ (∀ (P1 : Parser), P.FillArgQueue = Except.ok (Status.Success, P1) →
      ∃ (i : Nat) (opts1 : List OptionPtr) (v1 : ValueOption) (q : List String),
        P.mOptions[i]? = some (OptionPtr.valueOption v)
        ∧ P1 = { P with mArgQueue := prog :: (toks ++ t :: X :: q) }
        ∧ opts1.map OptionPtr.sig = P.mOptions.map OptionPtr.sig
        ∧ (toks = [] → opts1 = P.mOptions)
        ∧ opts1[i]? = some (OptionPtr.valueOption v1)
        ∧ P.Parse = Parser.PopulateArgParamsLoop (t :: X :: q).length
            (P.during prog opts1 (t :: X :: q))
        ∧ (P.during prog opts1 (t :: X :: q)).PopulateFirst
              (P.during prog opts1 (t :: X :: q)).mArgParams
            = (true, P.during prog
                (opts1.set i (OptionPtr.valueOption (v1.Populate (t :: X :: q)).2.1)) q)
        ∧ (v1.Populate (t :: X :: q)).2.1.mValues = v1.mValues ++ [X]
        ∧ (∀ (r : Status × Parser), P.Parse = Except.ok r →
            ∃ v2 after, r.2.mOptions[i]? = some (OptionPtr.valueOption v2)
              ∧ v2.mValues = v1.mValues ++ X :: after))
    ∧ (∀ (P1 : Parser), P.FillArgQueue = Except.ok (Status.Failure, P1) →
        P.Parse = Except.ok (Status.Failure, P1)
        ∧ P1.mOptions = P.mOptions ∧ P1.mProgParam = P.mProgParam
        ∧ P1.mPosParams = P.mPosParams ∧ P1.mMultiPosParam = P.mMultiPosParam) := by
  refine ⟨⟨by decide, by decide⟩, ?_, ?_⟩
  · intro P1 hfill
    exact (Parser_parse_value_token P P1 prog t X toks rest v hargs hprog hacc hopt hmatch
      hfill).2
  · intro P1 hfill
    have hframe : P1 = { P with mArgQueue := P1.mArgQueue } :=
      (Parser_fillArgQueue_frame P (Status.Failure, P1) hfill).1
    refine ⟨?_, ?_, ?_, ?_, ?_⟩
    · unfold Parser.Parse
      rw [hfill]
    · exact (congrArg Parser.mOptions hframe : P1.mOptions = _)
    · exact (congrArg Parser.mProgParam hframe : P1.mProgParam = _)
    · exact (congrArg Parser.mPosParams hframe : P1.mPosParams = _)
    · exact (congrArg Parser.mMultiPosParam hframe : P1.mMultiPosParam = _)

theorem ValueOption_takes_next_token_witness :
    (printVerboseParserState ["prog", "-p", "-v"]).FillArgQueue
      = Except.ok (Status.Success,
          { printVerboseParserState ["prog", "-p", "-v"] with
            mArgQueue := ["prog", "-p", "-v"] })
    ∧ ∃ (i : Nat) (v1 : ValueOption),
        (printVerboseParserState ["prog", "-p", "-v"]).mOptions[i]?
          = some (OptionPtr.valueOption
              { mDefinition := { shortName := 'p', longName := "print" } })
        ∧ (∀ (r : Status × Parser),
            (printVerboseParserState ["prog", "-p", "-v"]).Parse = Except.ok r →
            ∃ v2 after, r.2.mOptions[i]? = some (OptionPtr.valueOption v2)
              ∧ v2.mValues = v1.mValues ++ "-v" :: after) :=
  have hfill : (printVerboseParserState ["prog", "-p", "-v"]).FillArgQueue
      = Except.ok (Status.Success,
          { printVerboseParserState ["prog", "-p", "-v"] with
            mArgQueue := ["prog", "-p", "-v"] }) := by decide
  ⟨hfill,
   match (ValueOption_takes_next_token (printVerboseParserState ["prog", "-p", "-v"]) "prog"
      "-p" "-v" [] [] { mDefinition := { shortName := 'p', longName := "print" } } rfl rfl rfl
      (by decide) (by decide)).2.1 _ hfill with
   | ⟨i, _, v1, _, h1, _, _, _, _, _, _, _, h9⟩ => ⟨i, v1, h1, h9⟩⟩

/-! ### Fewer positional tokens than PosParams, order AfterOptions -/

end CmdLine
